import Mathlib

/-!
The eswifi driver: response parsers, request engine and workflows; and the
EEM function of the USB network class.

A shallow embedding of `drivers/wifi/eswifi/eswifi_core.c`,
`drivers/wifi/eswifi/eswifi_bus_spi.c` and
`subsys/usb/class/netusb/function_eem.c`.

Memory model.

A C `char *` is modelled by the list of the bytes stored from the pointed
address onwards (`CStr`).  `*str` is the head of the list (`deref`), `str++` is
the tail, `str += n` is `List.drop n`, `&buf[i]` is `buf.drop i`.  A read at the
end of the list yields the NUL byte, so a list without a NUL byte stands for a C
string whose terminator directly follows the listed bytes.  A byte is a `Char`;
the functions look at its code only, and a value converted to `uint8_t` is
reduced modulo 256.

Stores made through an output pointer (`addr[byte++] = ...`, `ip[byte++] = ...`)
are kept as a list of pairs of index and value in the order they are made, so
that a store outside the array of the caller stays visible.

In the EEM function bytes and 16-bit values are natural numbers; the static
variables of the receive path are a record passed from call to call, and the
endpoint, the allocator and the packet buffers are given by a script.
-/

namespace Eswifi

/-! ## C strings -/

/-- The bytes found in memory from a `char *` onwards. -/
abbrev CStr := List Char

/-- The NUL byte that ends a C string. -/
def NUL : Char := Char.ofNat 0

/-- The byte the pointer points to: `*str`. -/
def deref (str : CStr) : Char := str.headD NUL

/-- The C library `strlen`: the number of bytes before the first NUL. -/
def strlen : CStr → Nat
  | [] => 0
  | c :: s => if c = NUL then 0 else strlen s + 1

/-- The C library `strncmp(a, b, n)`: compares at most `n` bytes and stops at the
first difference or at a NUL; the result is the difference of the two bytes
there, `0` when none differs. -/
def strncmp : CStr → CStr → Nat → Int
  | _, _, 0 => 0
  | a, b, n + 1 =>
    if deref a ≠ deref b then ((deref a).toNat : Int) - ((deref b).toNat : Int)
    else if deref a = NUL then 0
    else strncmp a.tail b.tail n

/-! ## `__is_at_ok` (eswifi_core.c:156) -/

/-- The local array `char at_ok[] = "OK\r\n> "`. -/
def at_ok : CStr := ['O', 'K', '\r', '\n', '>', ' ']

/-- The function `__is_at_ok`: `while (*str) { if (!strncmp(str++, at_ok,
sizeof(at_ok) - 1)) return true; } return false;`. -/
def __is_at_ok : CStr → Bool
  | [] => false
  | c :: s =>
    if c = NUL then false
    else if strncmp (c :: s) at_ok 6 = 0 then true
    else __is_at_ok s

/-! ## C library number parsing -/

/-- The C library `isspace` in the "C" locale: space, `\t`, `\n`, `\v`, `\f`,
`\r`. -/
def isspace (c : Char) : Bool :=
  c.toNat = 32 || (9 ≤ c.toNat && c.toNat ≤ 13)

/-- The C library `isdigit`. -/
def isdigit (c : Char) : Bool := 48 ≤ c.toNat && c.toNat ≤ 57

/-- The digit loop of `atoi`: `while (isdigit(*s)) n = 10 * n + (*s++ - '0');`. -/
def atoi_digits : CStr → Int → Int
  | [], n => n
  | c :: s, n => if isdigit c then atoi_digits s (10 * n + ((c.toNat : Int) - 48)) else n

/-- The number that the text read by `atoi` denotes: leading white space is
skipped, an optional sign is read, then the leading decimal digits; `0` when
there is no digit. -/
def atoi_value (s : CStr) : Int :=
  match s.dropWhile isspace with
  | [] => 0
  | c :: r =>
    if c = '-' then - atoi_digits r 0
    else if c = '+' then atoi_digits r 0
    else atoi_digits (c :: r) 0

/-- The value of a number as a C `int` of 32 bits: the number itself from
-2^31 to 2^31 - 1, and outside that range the number reduced modulo 2^32 into
it. -/
def as_int (v : Int) : Int := (v + 2147483648) % 4294967296 - 2147483648

/-- The conversion of an `int` to `s8_t` at an assignment: the value itself from
-128 to 127, otherwise the value reduced modulo 256 into that range. -/
def as_s8 (v : Int) : Int := (v + 128) % 256 - 128

/-- The conversion of an `int` to `u8_t` at an assignment: the value modulo
256. -/
def as_u8 (v : Int) : Int := v % 256

/-- Modelled from the spec: the C library `atoi`, which the driver sources call
but do not define ("parsed as decimal integers from their field's leading
digits"): leading white space is skipped, an optional sign is read, then the
leading decimal digits; the value is `0` when there is no digit.  The result is
an `int` of 32 bits.  For a text whose number does not fit an `int` the C
standard does not say what `atoi` returns; the model gives the number reduced
modulo 2^32, as the digit loop of a two's-complement C library does. -/
def atoi (s : CStr) : Int := as_int (atoi_value s)

/-! ## Scan results (eswifi_core.c:61-125) -/

/-- The errno value `EINVAL`. -/
def EINVAL : Int := 22

/-- Modelled from the spec: `enum wifi_security_type` of `net/wifi_mgmt.h`
("security classification (enum: none, PSK)"). -/
inductive wifi_security_type where
  | WIFI_SECURITY_TYPE_NONE
  | WIFI_SECURITY_TYPE_PSK
deriving DecidableEq, Repr

export wifi_security_type (WIFI_SECURITY_TYPE_NONE WIFI_SECURITY_TYPE_PSK)

/-- Modelled from the spec: `struct wifi_scan_result` of `net/wifi_mgmt.h`
("SSID (bounded string + length), RSSI (signed integer), channel (integer),
security classification").  `ssid` holds the bytes of the SSID array from its
first byte on.  The field `rssi` is an `s8_t` and the field `channel` a `u8_t`:
an assignment to them converts the value (`as_s8`, `as_u8`), so `rssi` holds a
value from -128 to 127 and `channel` a value from 0 to 255. -/
structure wifi_scan_result where
  ssid : CStr
  ssid_length : Nat
  channel : Int
  security : wifi_security_type
  rssi : Int
deriving DecidableEq, Repr

/-- The record `struct wifi_scan_result res = {0}` with an SSID array of `cap`
bytes (`WIFI_SSID_MAX_LEN`, declared outside the driver sources). -/
def zeroed_scan_result (cap : Nat) : wifi_scan_result :=
  { ssid := List.replicate cap NUL, ssid_length := 0, channel := 0,
    security := WIFI_SECURITY_TYPE_NONE, rssi := 0 }

/-- The copy loop of `__parse_ssid`: `while (*str && (*str != '"')) *ssid++ =
*str++;`.  Returns the bytes copied and the position of `str` after the loop. -/
def parse_ssid_copy : CStr → CStr × CStr
  | [] => ([], [])
  | c :: s =>
    if c = NUL ∨ c = '"' then ([], c :: s)
    else ((c :: (parse_ssid_copy s).1), (parse_ssid_copy s).2)

/-- The function `__parse_ssid(str, ssid)`: the status returned and the bytes of
the destination array afterwards.  Without an opening quote nothing is written;
otherwise the bytes up to the closing quote (or the NUL) are copied to the start
of the array and a NUL is stored after them.  Both exits after the copy return
`-EINVAL`, as in the source. -/
def __parse_ssid (str ssid : CStr) : Int × CStr :=
  if deref str = NUL ∨ deref str ≠ '"' then (-EINVAL, ssid)
  else
    let w := (parse_ssid_copy str.tail).1
    let r := (parse_ssid_copy str.tail).2
    let ssid1 := w ++ NUL :: ssid.drop (w.length + 1)
    if deref r ≠ '"' then (-EINVAL, ssid1) else (-EINVAL, ssid1)

/-- The `while (*str)` loop of `__parse_scan_res`, with the loop state `str`,
`field` and `*res`.  Every iteration advances `str` by at least one byte, so the
`fuel` argument (an upper bound on the iterations left) is never exhausted when
it exceeds the length of `str`. -/
def parse_scan_res_loop : Nat → CStr → Nat → wifi_scan_result → wifi_scan_result
  | 0, _, _, res => res
  | fuel + 1, str, field, res =>
    if deref str = NUL then res
    else if deref str ≠ ',' then parse_scan_res_loop fuel str.tail field res
    else
      let str1 := str.tail
      if deref str1 = NUL then res
      else
        match field + 1 with
        | 1 =>
          let ssid1 := (__parse_ssid str1 res.ssid).2
          let len := strlen ssid1
          parse_scan_res_loop fuel (str1.drop len) 1
            { res with ssid := ssid1, ssid_length := len }
        | 3 => parse_scan_res_loop fuel str1 3 { res with rssi := as_s8 (atoi str1) }
        | 6 =>
          parse_scan_res_loop fuel str1 6
            { res with security :=
                if strncmp str1 ['O', 'p', 'e', 'n'] 4 = 0 then WIFI_SECURITY_TYPE_NONE
                else WIFI_SECURITY_TYPE_PSK }
        | 8 => parse_scan_res_loop fuel str1 8 { res with channel := as_u8 (atoi str1) }
        | f => parse_scan_res_loop fuel str1 f res

/-- The function `__parse_scan_res(str, res)`: the record `*res` afterwards. -/
def __parse_scan_res (str : CStr) (res : wifi_scan_result) : wifi_scan_result :=
  parse_scan_res_loop (str.length + 1) str 0 res

/-- The state of the loop of `__parse_scan_res` run to its end from `str`,
`field` and `*res`. -/
def scan_res_from (str : CStr) (field : Nat) (res : wifi_scan_result) : wifi_scan_result :=
  parse_scan_res_loop (str.length + 1) str field res

/-! ## Vocabulary of the claims on scan-result lines -/

/-- A field of a scan-result line: text without a comma and without a NUL. -/
def comma_free (f : CStr) : Prop := ∀ c ∈ f, c ≠ NUL ∧ c ≠ ','

instance (f : CStr) : Decidable (comma_free f) := by
  unfold comma_free; infer_instance

/-- The text of a decimal number with the digits `ds`, most significant first,
after a minus sign when `neg` is set. -/
def decimal_text (neg : Bool) (ds : List Nat) : CStr :=
  (if neg then ['-'] else []) ++ ds.map Nat.digitChar

/-- The value of the decimal number with the digits `ds`, most significant
first, negated when `neg` is set. -/
def decimal_value (neg : Bool) (ds : List Nat) : Int :=
  if neg then - ((Nat.ofDigits 10 ds.reverse : Nat) : Int)
  else ((Nat.ofDigits 10 ds.reverse : Nat) : Int)

/-- A scan-result line `#index,"SSID",MAC,RSSI,bitrate,mode,security,band,channel`
followed by the text `rest`. -/
def scan_line (idx name mac rssi bitrate mode sec band chan rest : CStr) : CStr :=
  '#' :: (idx ++ ',' :: ('"' :: (name ++ '"' :: ',' :: (mac ++ ',' :: (rssi ++ ',' ::
    (bitrate ++ ',' :: (mode ++ ',' :: (sec ++ ',' :: (band ++ ',' :: (chan ++ rest))))))))))

/-- The four bytes `"Open"` the security field is compared with. -/
def open_text : CStr := ['O', 'p', 'e', 'n']

/-! ## `eswifi_get_mac_addr` (eswifi_core.c:316) -/

/-- The errno value `EIO`. -/
def EIO : Int := 5

/-- The value of a hexadecimal digit, `none` for any other byte. -/
def hexval (c : Char) : Option Nat :=
  if 48 ≤ c.toNat ∧ c.toNat ≤ 57 then some (c.toNat - 48)
  else if 97 ≤ c.toNat ∧ c.toNat ≤ 102 then some (c.toNat - 87)
  else if 65 ≤ c.toNat ∧ c.toNat ≤ 70 then some (c.toNat - 55)
  else none

/-- The digit loop of `strtol` in base 16. -/
def strtol16_digits : CStr → Int → Int
  | [], n => n
  | c :: s, n =>
    match hexval c with
    | some d => strtol16_digits s (16 * n + (d : Int))
    | none => n

/-- Modelled from the spec: the C library `strtol(s, NULL, 16)`, which the driver
sources call but do not define ("extracting ... hexadecimal byte pairs"):
leading white space is skipped, an optional sign and an optional `0x` or `0X`
are read, then the leading hexadecimal digits; the value is `0` when there is no
digit.  The result is a mathematical integer: the clamping of `long` on
overflow is not modelled. -/
def strtol16 (s : CStr) : Int :=
  let s1 := s.dropWhile isspace
  let neg := deref s1 = '-'
  let s2 := if deref s1 = '-' ∨ deref s1 = '+' then s1.tail else s1
  let s3 := if deref s2 = '0' ∧ (deref s2.tail = 'x' ∨ deref s2.tail = 'X') then s2.tail.tail
            else s2
  if neg then - strtol16_digits s3 0 else strtol16_digits s3 0

/-- The state of the loop of `eswifi_get_mac_addr`: the counter `byte` and the
stores `addr[index] = value` made so far, oldest first.  A store whose index is
6 or more lies outside the `uint8_t addr[6]` of the caller. -/
structure mac_state where
  byte : Nat
  stores : List (Nat × Nat)
deriving DecidableEq, Repr

/-- One iteration of `for (i = 0; i < sizeof(eswifi->buf); i++)` of
`eswifi_get_mac_addr` over the buffer `buf`: nothing for `i < 2`; at a `':'`, or
at a `'\r'` when `byte == 5`, the store `addr[byte++] = strtol(&buf[i - 2],
NULL, 16)`, whose value is converted to `uint8_t`. -/
def mac_step (buf : CStr) (st : mac_state) (i : Nat) : mac_state :=
  if i < 2 then st
  else if buf.getD i NUL = ':' ∨ (st.byte = 5 ∧ buf.getD i NUL = '\r') then
    { byte := st.byte + 1
      stores := st.stores ++ [(st.byte, (strtol16 (buf.drop (i - 2)) % 256).toNat)] }
  else st

/-- The function `eswifi_get_mac_addr(eswifi, addr)`, given the status `err` of
its `eswifi_request` and the content `buf` of the whole array `eswifi->buf`
after the exchange (`sizeof(eswifi->buf)` is the length of `buf`): the status
returned and the stores made to `addr`. -/
def eswifi_get_mac_addr (err : Int) (buf : CStr) : Int × List (Nat × Nat) :=
  if err ≠ 0 then (err, [])
  else
    let st := (List.range buf.length).foldl (mac_step buf) { byte := 0, stores := [] }
    if st.byte ≠ 6 then (- EIO, st.stores) else (0, st.stores)

/-- A pair of hexadecimal digits. -/
def hex_pair (p : Char × Char) : Prop := (hexval p.1).isSome ∧ (hexval p.2).isSome

instance (p : Char × Char) : Decidable (hex_pair p) := by
  unfold hex_pair; infer_instance

/-- The byte a pair of hexadecimal digits stands for. -/
def pair_value (p : Char × Char) : Nat := 16 * (hexval p.1).getD 0 + (hexval p.2).getD 0

/-- The text `XX:XX:...:XX` of an address given by its pairs of digits. -/
def mac_text : List (Char × Char) → CStr
  | [] => []
  | [p] => [p.1, p.2]
  | p :: q :: ps => p.1 :: p.2 :: ':' :: mac_text (q :: ps)

/-! ## `__parse_ipv4_address` (eswifi_core.c:134) -/

/-- The value of `(unsigned int)-1`, the initial value of `byte`. -/
def UINT_MAX : Nat := 4294967295

/-- The inner loop `while (*str && *str++ != '.');` of `__parse_ipv4_address`:
the position of `str` after it, behind the first `'.'` or at the NUL. -/
def skip_past_dot : CStr → CStr
  | [] => []
  | c :: s => if c = NUL then c :: s else if c ≠ '.' then skip_past_dot s else s

/-- The `while (*str)` loop of `__parse_ipv4_address`, with the loop state `str`
and `byte` (an `unsigned int`) and the stores `ip[index] = value` made so far,
oldest first; the value stored is `atoi(str)` converted to `uint8_t`.  A store
whose index is 4 or more lies outside the `uint8_t ip[4]` of the caller.  Every
iteration advances `str` by at least one byte, so the `fuel` argument is never
exhausted when it exceeds the length of `str`. -/
def parse_ipv4_loop : Nat → CStr → CStr → Nat → List (Nat × Nat) → List (Nat × Nat)
  | 0, _, _, _, stores => stores
  | fuel + 1, str, ssid, byte, stores =>
    if deref str = NUL then stores
    else if byte = UINT_MAX then
      if strncmp str ssid (strlen ssid) = 0 then
        parse_ipv4_loop fuel (str.drop (strlen ssid)).tail ssid 0 stores
      else parse_ipv4_loop fuel str.tail ssid byte stores
    else
      parse_ipv4_loop fuel (skip_past_dot str) ssid ((byte + 1) % 2 ^ 32)
        (stores ++ [(byte, (atoi str % 256).toNat)])

/-- The function `__parse_ipv4_address(str, ssid, ip)`: the status returned,
which is `0` on every path, and the stores made to `ip`. -/
def __parse_ipv4_address (str ssid : CStr) : Int × List (Nat × Nat) :=
  (0, parse_ipv4_loop (str.length + 1) str ssid UINT_MAX [])

/-- The state of the loop of `__parse_ipv4_address` run to its end. -/
def ipv4_from (str ssid : CStr) (byte : Nat) (stores : List (Nat × Nat)) : List (Nat × Nat) :=
  parse_ipv4_loop (str.length + 1) str ssid byte stores

/-- The value of the decimal number with the digits `ds`, most significant
first. -/
def octet_value (ds : List Nat) : Nat := Nat.ofDigits 10 ds.reverse

/-- A decimal octet: a non-empty run of decimal digits of value at most 255. -/
def octet (ds : List Nat) : Prop := ds ≠ [] ∧ (∀ d ∈ ds, d < 10) ∧ octet_value ds ≤ 255

instance (ds : List Nat) : Decidable (octet ds) := by
  unfold octet; infer_instance

/-- The text `a.b.c.d` of four runs of digits. -/
def dotted_text (a b c d : List Nat) (rest : CStr) : CStr :=
  decimal_text false a ++ '.' :: (decimal_text false b ++ '.' :: (decimal_text false c ++
    '.' :: (decimal_text false d ++ rest)))

/-! ## The SPI bus (eswifi_bus_spi.c)

The transport primitives `spi_write`, `spi_read` and the GPIO pins are outside
the driver.  Their behaviour is given by a script: the successive samples of the
data-ready pin and the results of the successive calls of the primitives.  The
calls made to the transport are recorded in a log.  Delays (`k_sleep`) are not
modelled.  A call that never returns has the status `none`. -/

/-- A call made to the transport: a level written to the chip-select pin by
`eswifi_spi_cs(spi, select)`, a `spi_write` of the given bytes, or a `spi_read`
with the given `len` field. -/
inductive bus_event where
  | cs (select : Bool)
  | spi_write (data : CStr)
  | spi_read (len : Nat)
deriving DecidableEq, Repr

/-- The transport: `dr` holds the successive samples of the data-ready pin and
`dr_final` the level the pin keeps once they are used up; `wr` holds the
statuses of the successive `spi_write` calls (`0` once used up); `rd` holds the
status and the bytes delivered by the successive `spi_read` calls; `log` holds
the calls made so far, oldest first. -/
structure spi_world where
  dr : List Bool
  dr_final : Bool
  wr : List Int
  rd : List (Int × CStr)
  log : List bus_event
deriving DecidableEq, Repr

/-- The function `eswifi_spi_cs(spi, select)`. -/
def eswifi_spi_cs (w : spi_world) (select : Bool) : spi_world :=
  { w with log := w.log ++ [bus_event.cs select] }

/-- The function `eswifi_spi_cmddata_ready(spi)`: one sample of the data-ready
pin. -/
def eswifi_spi_cmddata_ready (w : spi_world) : Bool × spi_world :=
  match w.dr with
  | [] => (w.dr_final, w)
  | v :: rest => (v, { w with dr := rest })

/-- The samples left after `do { k_sleep(1); } while (!eswifi_spi_cmddata_ready(spi));`,
or `none` when the pin is never found asserted. -/
def wait_samples : List Bool → Bool → Option (List Bool)
  | [], final => if final then some [] else none
  | v :: rest, final => if v then some rest else wait_samples rest final

/-- The function `eswifi_spi_wait_cmddata_ready(spi)`: status `some 0` when it
returns, `none` when it polls for ever. -/
def eswifi_spi_wait_cmddata_ready (w : spi_world) : Option Int × spi_world :=
  match wait_samples w.dr w.dr_final with
  | none => (none, { w with dr := [] })
  | some rest => (some 0, { w with dr := rest })

/-- The function `eswifi_spi_write(eswifi, data, dlen)`: waits for the pin, hands
the first `dlen` bytes at `data` to `spi_write`, and returns the status of the
primitive when it is not zero, `dlen` otherwise. -/
def eswifi_spi_write (w : spi_world) (data : CStr) (dlen : Nat) : Option Int × spi_world :=
  match eswifi_spi_wait_cmddata_ready w with
  | (none, w1) => (none, w1)
  | (some _, w1) =>
    let status := w1.wr.headD 0
    let w2 := { w1 with wr := w1.wr.tail, log := w1.log ++ [bus_event.spi_write (data.take dlen)] }
    (some (if status ≠ 0 then status else (dlen : Int)), w2)

/-- The function `eswifi_spi_read(eswifi, data, dlen)`: the status returned, the
bytes at `data` afterwards and the transport.  When the pin is not asserted it
returns 0 at once; otherwise it calls `spi_read` with `len = dlen / 2`, the bytes
delivered (at most `dlen`) land at the start of `data`, and it returns the status
of the primitive when it is not zero, `dlen` otherwise. -/
def eswifi_spi_read (w : spi_world) (data : CStr) (dlen : Nat) : Int × CStr × spi_world :=
  let r := eswifi_spi_cmddata_ready w
  if r.1 = false then (0, data, r.2)
  else
    let status := (r.2.rd.headD (0, [])).1
    let got := (r.2.rd.headD (0, [])).2.take dlen
    let w2 := { r.2 with rd := r.2.rd.tail, log := r.2.log ++ [bus_event.spi_read (dlen / 2)] }
    (if status ≠ 0 then status else (dlen : Int), got ++ data.drop got.length, w2)

/-- The drain loop `while (eswifi_spi_cmddata_ready(spi)) { eswifi_spi_read(eswifi,
tmp, 2); k_sleep(1); }`: the transport and the bytes of `tmp` afterwards, or
`none` when the loop never ends because the pin stays asserted.  Every iteration
uses up a sample of the pin, so the `fuel` argument is never exhausted when it
exceeds the number of samples left. -/
def drain_loop : Nat → spi_world → CStr → Option (spi_world × CStr)
  | 0, _, _ => none
  | fuel + 1, w, tmp =>
    if w.dr = [] ∧ w.dr_final = true then none
    else
      let r := eswifi_spi_cmddata_ready w
      if r.1 = false then some (r.2, tmp)
      else
        let rd := eswifi_spi_read r.2 tmp 2
        drain_loop fuel rd.2.2 rd.2.1

/-- What `eswifi_spi_request` leaves behind: the status returned (`none` when the
call never returns), the bytes at `cmd`, at `rsp` right after the read of the
response, at `rsp` at the end, in `tmp`, and the transport. -/
structure request_result where
  status : Option Int
  cmd : Option CStr
  rsp_read : CStr
  rsp : CStr
  tmp : CStr
  world : spi_world
deriving DecidableEq, Repr

/-- The data phase of `eswifi_spi_request`, from the label `data:` on. -/
def eswifi_spi_request_data (w : spi_world) (cmd : Option CStr) (rsp : CStr) (rlen : Nat)
    (tmp : CStr) : request_result :=
  match eswifi_spi_wait_cmddata_ready w with
  | (none, w1) =>
    { status := none, cmd := cmd, rsp_read := rsp, rsp := rsp, tmp := tmp, world := w1 }
  | (some _, w1) =>
    let w2 := eswifi_spi_cs w1 true
    let rd := eswifi_spi_read w2 rsp rlen
    match drain_loop (rd.2.2.dr.length + 1) rd.2.2 tmp with
    | none =>
      { status := none, cmd := cmd, rsp_read := rd.2.1, rsp := rd.2.1, tmp := tmp,
        world := rd.2.2 }
    | some (w3, tmp1) =>
      { status := some 0, cmd := cmd, rsp_read := rd.2.1, rsp := rd.2.1, tmp := tmp1,
        world := eswifi_spi_cs w3 false }

/-- The function `eswifi_spi_request(eswifi, cmd, clen, rsp, rlen)`.  `cmd` is
`none` for a NULL pointer, otherwise the bytes found at `cmd` (at least `clen +
1` of them: "cmd is a string so cmd[clen] is 0x00"); `rsp` and `tmp` are the
bytes of the response array and of the local `tmp[2]` beforehand.  With a
command of odd length the byte `0x0a` is stored at `cmd[clen]` and `clen` is
incremented before the write.  The statuses of `eswifi_spi_write` and
`eswifi_spi_read` are dropped, and the value returned is 0. -/
def eswifi_spi_request (w : spi_world) (cmd : Option CStr) (clen : Nat) (rsp : CStr)
    (rlen : Nat) (tmp : CStr) : request_result :=
  match cmd with
  | none => eswifi_spi_request_data w none rsp rlen tmp
  | some c =>
    match eswifi_spi_wait_cmddata_ready w with
    | (none, w1) =>
      { status := none, cmd := some c, rsp_read := rsp, rsp := rsp, tmp := tmp, world := w1 }
    | (some _, w1) =>
      let w2 := eswifi_spi_cs w1 true
      let c1 := if clen % 2 ≠ 0 then c.set clen (Char.ofNat 0x0a) else c
      let clen1 := if clen % 2 ≠ 0 then clen + 1 else clen
      match eswifi_spi_write w2 c1 clen1 with
      | (none, w3) =>
        { status := none, cmd := some c1, rsp_read := rsp, rsp := rsp, tmp := tmp,
          world := w3 }
      | (some _, w3) => eswifi_spi_request_data (eswifi_spi_cs w3 false) (some c1) rsp rlen tmp

/-- A transport on which the pin is asserted whenever it is polled during the
command and the response, and deasserted afterwards. -/
def ready_bus : spi_world :=
  { dr := [false, true, true, true, true, false], dr_final := false, wr := [],
    rd := [(0, ['\r', '\n', 'O', 'K', '\r', '\n', '>', ' '])], log := [] }

/-- The transport `ready_bus` with primitives that report a fault (`-EIO`) at
every write and every read. -/
def faulty_bus : spi_world :=
  { ready_bus with wr := [- EIO], rd := [(- EIO, [])] }

/-! ## The workflows (eswifi_core.c:168-314)

The device lock, the exchanges with the module and the calls into the network
stack are recorded in a log.  The outcome of the exchanges is given by a script
of the module: the status and the content of `eswifi->buf` after each
successive exchange. -/

/-- What the driver does to its surroundings: `eswifi_lock`, `eswifi_unlock`,
one `eswifi_request` with the command bytes (none for a NULL command),
`net_if_ipv4_addr_add` with the stores that built the address, a call of the
scan callback, `k_yield`, the two result events of `wifi_mgmt`,
`k_work_submit_to_queue` of the request work, and `net_if_set_link_addr` with
the stores that built the address. -/
inductive drv_event where
  | lock
  | unlock
  | request (cmd : CStr)
  | ipv4_addr_add (ip : List (Nat × Nat))
  | scan_cb (res : wifi_scan_result)
  | yield
  | connect_result (status : Int)
  | disconnect_result (status : Int)
  | submit
  | set_link_addr (mac : List (Nat × Nat))
deriving DecidableEq, Repr

/-- Modelled from the spec: the pending-request kind of `eswifi.h`
("{NONE, CONNECT, DISCONNECT, SCAN}"). -/
inductive eswifi_req where
  | ESWIFI_REQ_NONE
  | ESWIFI_REQ_CONNECT
  | ESWIFI_REQ_DISCONNECT
  | ESWIFI_REQ_SCAN
deriving DecidableEq, Repr

export eswifi_req (ESWIFI_REQ_NONE ESWIFI_REQ_CONNECT ESWIFI_REQ_DISCONNECT ESWIFI_REQ_SCAN)

/-- Modelled from the spec: the station credentials `eswifi->sta` of `eswifi.h`
("station credentials (SSID, passphrase, security mode)"). -/
structure eswifi_sta where
  ssid : CStr
  pass : CStr
  security : Nat
deriving DecidableEq, Repr

/-- Modelled from the spec: `struct eswifi_dev` of `eswifi.h` ("a shared scratch
byte buffer ..., station credentials ..., the pending-request kind"), with the
script `module` of the exchanges to come and the log of what the driver did. -/
structure eswifi_dev where
  buf : CStr
  sta : eswifi_sta
  req : eswifi_req
  module : List (Int × CStr)
  log : List drv_event
deriving DecidableEq, Repr

/-- The function `eswifi_lock(eswifi)`. -/
def eswifi_lock (dev : eswifi_dev) : eswifi_dev := { dev with log := dev.log ++ [drv_event.lock] }

/-- The function `eswifi_unlock(eswifi)`. -/
def eswifi_unlock (dev : eswifi_dev) : eswifi_dev :=
  { dev with log := dev.log ++ [drv_event.unlock] }

/-- Modelled from the spec: `eswifi_request(eswifi, cmd, clen, eswifi->buf,
sizeof(eswifi->buf))` of `eswifi.h`, the request engine behind the bus
operations ("drives one full command→response exchange through the
transport"): the status returned and the device afterwards, whose `buf` holds
what the exchange left in it.  Once the script is used up the exchanges return 0
and leave `buf` empty. -/
def eswifi_request (dev : eswifi_dev) (cmd : CStr) : Int × eswifi_dev :=
  ((dev.module.headD (0, [])).1,
    { dev with buf := (dev.module.headD (0, [])).2, module := dev.module.tail,
               log := dev.log ++ [drv_event.request cmd] })

/-- The bytes of a C string: those before the first NUL. -/
def cstr (s : CStr) : CStr := s.takeWhile (fun c => c ≠ NUL)

/-- The command `sprintf(eswifi->buf, "C1=%s\r", eswifi->sta.ssid)`. -/
def cmd_set_ssid (sta : eswifi_sta) : CStr := ['C', '1', '='] ++ cstr sta.ssid ++ ['\r']

/-- The command `sprintf(eswifi->buf, "C2=%s\r", eswifi->sta.pass)`. -/
def cmd_set_pass (sta : eswifi_sta) : CStr := ['C', '2', '='] ++ cstr sta.pass ++ ['\r']

/-- The command `sprintf(eswifi->buf, "C3=%u\r", eswifi->sta.security)`. -/
def cmd_set_security (sta : eswifi_sta) : CStr :=
  ['C', '3', '='] ++ (Nat.repr sta.security).toList ++ ['\r']

/-- The command `char connect[] = "C0\r"`. -/
def cmd_join : CStr := ['C', '0', '\r']

/-- The command `char disconnect[] = "CD\r"`. -/
def cmd_disconnect : CStr := ['C', 'D', '\r']

/-- The command `char cmd[] = "F0\r"` of the scan. -/
def cmd_scan : CStr := ['F', '0', '\r']

/-- The test `err || !__is_at_ok(eswifi->buf)` made after an exchange. -/
def exchange_failed (r : Int × eswifi_dev) : Bool := r.1 ≠ 0 || !__is_at_ok r.2.buf

/-- The function `eswifi_connect(eswifi)`: the status returned and the device
afterwards.  Every failure path goes through the label `error:`, which unlocks
and returns `-EIO`. -/
def eswifi_connect (dev : eswifi_dev) : Int × eswifi_dev :=
  let d0 := eswifi_lock dev
  let r1 := eswifi_request d0 (cmd_set_ssid d0.sta)
  if exchange_failed r1 then (- EIO, eswifi_unlock r1.2)
  else
    let r2 := eswifi_request r1.2 (cmd_set_pass r1.2.sta)
    if exchange_failed r2 then (- EIO, eswifi_unlock r2.2)
    else
      let r3 := eswifi_request r2.2 (cmd_set_security r2.2.sta)
      if exchange_failed r3 then (- EIO, eswifi_unlock r3.2)
      else
        let r4 := eswifi_request r3.2 cmd_join
        if exchange_failed r4 then (- EIO, eswifi_unlock r4.2)
        else
          let ip := __parse_ipv4_address r4.2.buf r4.2.sta.ssid
          if ip.1 ≠ 0 then (- EIO, eswifi_unlock r4.2)
          else
            let d5 := { r4.2 with log := r4.2.log ++ [drv_event.ipv4_addr_add ip.2] }
            (0, eswifi_unlock d5)

/-- The function `eswifi_disconnect(eswifi)`. -/
def eswifi_disconnect (dev : eswifi_dev) : Int × eswifi_dev :=
  let d0 := eswifi_lock dev
  let r1 := eswifi_request d0 cmd_disconnect
  if exchange_failed r1 then (- EIO, eswifi_unlock r1.2)
  else (0, eswifi_unlock r1.2)

/-- The advance `while (eswifi->buf[i] != '\n') i++;` of `eswifi_scan`, on the
bytes of the buffer from index `i` on: the bytes from the newline found on, or
`none` when the loop reaches the end of the buffer without finding one and goes
on reading behind it. -/
def scan_skip_line : CStr → Option CStr
  | [] => none
  | c :: s => if c = '\n' then some (c :: s) else scan_skip_line s

/-- The loop `for (i = 0; i < sizeof(eswifi->buf); i++)` of `eswifi_scan`, on the
bytes of the buffer from index `i` on (none left when `i` has reached
`sizeof(eswifi->buf)`), with the log of the device; `cap` is the size of the
SSID array of a scan result.  The result is `none` when the advance to the end
of the line leaves the buffer.  Every iteration advances `i`, so the `fuel`
argument is never exhausted when it exceeds the number of bytes left. -/
def scan_loop (cap : Nat) : Nat → CStr → List drv_event → Option (List drv_event)
  | 0, _, _ => none
  | _ + 1, [], log => some log
  | fuel + 1, c :: s, log =>
    if c = '#' then
      let res := __parse_scan_res (c :: s) (zeroed_scan_result cap)
      match scan_skip_line (c :: s) with
      | none => none
      | some rest =>
        scan_loop cap fuel rest.tail (log ++ [drv_event.scan_cb res, drv_event.yield])
    else scan_loop cap fuel s log

/-- The function `eswifi_scan(eswifi)`: the status returned and the device
afterwards, or `none` when the loop over the buffer reads behind its end.  The
status of the exchange is not looked at. -/
def eswifi_scan (cap : Nat) (dev : eswifi_dev) : Option (Int × eswifi_dev) :=
  let d0 := eswifi_lock dev
  let r1 := eswifi_request d0 cmd_scan
  match scan_loop cap (r1.2.buf.length + 1) r1.2.buf r1.2.log with
  | none => none
  | some log => some (0, eswifi_unlock { r1.2 with log := log })

/-- The function `eswifi_request_work(item)`: the device after one run of the
worker, or `none` when the scan reads behind the end of the buffer. -/
def eswifi_request_work (cap : Nat) (dev : eswifi_dev) : Option eswifi_dev :=
  match dev.req with
  | ESWIFI_REQ_CONNECT =>
    let r := eswifi_connect dev
    some { r.2 with log := r.2.log ++ [drv_event.connect_result r.1] }
  | ESWIFI_REQ_DISCONNECT =>
    let r := eswifi_disconnect dev
    some { r.2 with log := r.2.log ++ [drv_event.disconnect_result r.1] }
  | ESWIFI_REQ_SCAN =>
    match eswifi_scan cap dev with
    | none => none
    | some r => some r.2
  | ESWIFI_REQ_NONE => some dev

/-- The three set-up commands of the connect workflow, in the order of issue:
SSID-set (`C1`), passphrase-set (`C2`) and security-set (`C3`). -/
def setup_commands (sta : eswifi_sta) : List CStr :=
  [cmd_set_ssid sta, cmd_set_pass sta, cmd_set_security sta]

/-- The outcome of an exchange passes the test of the workflows: status 0 and a
response that holds the `OK` trailer. -/
def exchange_ok (r : Int × CStr) : Prop := r.1 = 0 ∧ __is_at_ok r.2 = true

instance (r : Int × CStr) : Decidable (exchange_ok r) := by
  unfold exchange_ok; infer_instance

/-- The state of the loop of `eswifi_scan` run to its end from the bytes `buf`
of the buffer that are still to be looked at. -/
def scan_from (cap : Nat) (buf : CStr) (log : List drv_event) : Option (List drv_event) :=
  scan_loop cap (buf.length + 1) buf log

/-- A buffer made of the lines `ls`, each ended by a newline, followed by the
bytes `tail`. -/
def join_lines : List CStr → CStr → CStr
  | [], tail => tail
  | l :: ls, tail => l ++ '\n' :: join_lines ls tail

/-- The records the claim expects from the buffer `join_lines ls tail`: one for
each line that holds a `'#'`, in the order of the lines, parsed from the first
`'#'` of the line on. -/
def expected_records (cap : Nat) : List CStr → CStr → List wifi_scan_result
  | [], _ => []
  | l :: ls, tail =>
    (if '#' ∈ l then
      [__parse_scan_res (l.dropWhile (fun c => c ≠ '#') ++ '\n' :: join_lines ls tail)
        (zeroed_scan_result cap)]
    else []) ++ expected_records cap ls tail

/-- The calls of the scan callback for the records `rs`, each followed by the
`k_yield` of the loop. -/
def callback_events : List wifi_scan_result → List drv_event
  | [] => []
  | r :: rs => drv_event.scan_cb r :: drv_event.yield :: callback_events rs

/-- A device with credentials for the network `MyNet`, the pending request `req`
and an empty log, facing a module with the script `module`. -/
def station (req : eswifi_req) (module : List (Int × CStr)) : eswifi_dev :=
  { buf := [],
    sta := { ssid := ['M', 'y', 'N', 'e', 't', NUL], pass := ['p', 'w', NUL], security := 4 },
    req := req, module := module, log := [] }

/-- A response that holds nothing but the `OK` trailer. -/
def ok_response : CStr := ['\r', '\n', 'O', 'K', '\r', '\n', '>', ' ']

/-- A response that reports an error. -/
def error_response : CStr := ['\r', '\n', 'E', 'R', 'R', 'O', 'R', '\r', '\n', '>', ' ']

/-- The samples of the ready pin used by the drain loop of `eswifi_spi_request`
when it makes one iteration for each element of `probes`: for every iteration
the asserted sample of the loop condition, then the sample taken inside
`eswifi_spi_read`. -/
def drain_samples : List Bool → List Bool
  | [] => []
  | p :: ps => true :: p :: drain_samples ps

/-- The samples of the ready pin used by the command phase of
`eswifi_spi_request`: none for a NULL command, otherwise `a1` deasserted samples
and an asserted one for the wait of the request, then `a2` deasserted samples
and an asserted one for the wait of `eswifi_spi_write`. -/
def command_samples (cmd : Option CStr) (a1 a2 : Nat) : List Bool :=
  match cmd with
  | none => []
  | some _ => List.replicate a1 false ++ true :: (List.replicate a2 false ++ [true])

/-- The `len` fields handed to `spi_read` by the calls of a log, oldest first. -/
def reads_of : List bus_event → List Nat
  | [] => []
  | bus_event.spi_read len :: l => len :: reads_of l
  | _ :: l => reads_of l

/-- The bytes of a buffer after a `spi_read` that delivered `bytes` into its
first `dlen` bytes. -/
def after_read (data : CStr) (bytes : CStr) (dlen : Nat) : CStr :=
  bytes.take dlen ++ data.drop (bytes.take dlen).length

/-- A transport on which `eswifi_spi_request` runs to its end with
`probes.length` iterations of its drain loop: the samples of the command phase,
`a3` deasserted samples and an asserted one for the wait of the data phase, the
sample `p0` taken by the read of the response, the samples of the drain loop,
the deasserted sample that ends it, and any samples `rest` behind. -/
def drain_bus (cmd : Option CStr) (a1 a2 a3 : Nat) (p0 : Bool) (probes rest : List Bool)
    (final : Bool) (wr : List Int) (rd : List (Int × CStr)) (log : List bus_event) :
    spi_world :=
  { dr := command_samples cmd a1 a2
      ++ (List.replicate a3 false ++ true :: p0 :: (drain_samples probes ++ false :: rest)),
    dr_final := final, wr := wr, rd := rd, log := log }

/-! ## The poller, the initialisation and the management entry points -/

/-- The command `char cmd[] = "MR\r"` of `eswifi_spi_read_msg`. -/
def cmd_read_msg : CStr := ['M', 'R', '\r']

/-- The command `char cmd[] = "Z5\r"` of `eswifi_get_mac_addr`. -/
def cmd_read_mac : CStr := ['Z', '5', '\r']

/-- The function `eswifi_spi_read_msg(eswifi)` of the poller
(eswifi_bus_spi.c:168): the branch taken when the exchange failed unlocks and
has no `return`, so that the unlock at the end of the function follows it. -/
def eswifi_spi_read_msg (dev : eswifi_dev) : eswifi_dev :=
  let d0 := eswifi_lock dev
  let r1 := eswifi_request d0 cmd_read_msg
  let d2 := if exchange_failed r1 then eswifi_unlock r1.2 else r1.2
  eswifi_unlock d2

/-- The function `eswifi_reset(eswifi)` (eswifi_core.c:47): after the writes to
the reset and wake-up pins, which are not modelled, one exchange with a NULL
command that fetches the cursor; the status returned is 0. -/
def eswifi_reset (dev : eswifi_dev) : Int × eswifi_dev :=
  (0, (eswifi_request dev []).2)

/-- The function `eswifi_iface_init(iface)` (eswifi_core.c:342): the reset, the
exchange and the parse of `eswifi_get_mac_addr`, and the registration of the
link address.  Neither `eswifi_iface_init` nor `eswifi_reset` nor
`eswifi_get_mac_addr` calls `eswifi_lock`.  The call of `eswifi_offload_init`,
defined outside the driver sources, is not modelled. -/
def eswifi_iface_init (dev : eswifi_dev) : eswifi_dev :=
  let r0 := eswifi_reset dev
  if r0.1 ≠ 0 then r0.2
  else
    let r1 := eswifi_request r0.2 cmd_read_mac
    let m := eswifi_get_mac_addr r1.1 r1.2.buf
    if m.1 ≠ 0 then r1.2
    else { r1.2 with log := r1.2.log ++ [drv_event.set_link_addr m.2] }

/-- The function `eswifi_mgmt_scan(dev, cb)` (eswifi_core.c:371). -/
def eswifi_mgmt_scan (dev : eswifi_dev) : Int × eswifi_dev :=
  let d0 := eswifi_lock dev
  let d1 := eswifi_unlock { d0 with req := ESWIFI_REQ_SCAN }
  (0, { d1 with log := d1.log ++ [drv_event.submit] })

/-- The function `eswifi_mgmt_disconnect(dev)` (eswifi_core.c:387). -/
def eswifi_mgmt_disconnect (dev : eswifi_dev) : Int × eswifi_dev :=
  let d0 := eswifi_lock dev
  let d1 := eswifi_unlock { d0 with req := ESWIFI_REQ_DISCONNECT }
  (0, { d1 with log := d1.log ++ [drv_event.submit] })

/-- Modelled from the spec: `struct wifi_connect_req_params` of
`net/wifi_mgmt.h` ("`connect(ssid, passphrase, securityMode)`"); `security` is
`none` for a value that is neither of the two security types. -/
structure wifi_connect_req_params where
  ssid : CStr
  ssid_length : Nat
  psk : CStr
  psk_length : Nat
  security : Option wifi_security_type
deriving DecidableEq, Repr

/-- The function `eswifi_mgmt_connect(dev, params)` (eswifi_core.c:402);
`sec_open` and `sec_wpa2_mixed` are the values of `ESWIFI_SEC_OPEN` and
`ESWIFI_SEC_WPA2_MIXED`, declared outside the driver sources. -/
def eswifi_mgmt_connect (sec_open sec_wpa2_mixed : Nat) (dev : eswifi_dev)
    (params : wifi_connect_req_params) : Int × eswifi_dev :=
  let d0 := eswifi_lock dev
  let ssid1 := params.ssid.take params.ssid_length
    ++ NUL :: d0.sta.ssid.drop (params.ssid_length + 1)
  match params.security with
  | some WIFI_SECURITY_TYPE_NONE =>
    let d1 := { d0 with
      sta := { ssid := ssid1, pass := NUL :: d0.sta.pass.drop 1, security := sec_open },
      req := ESWIFI_REQ_CONNECT }
    (0, eswifi_unlock { d1 with log := d1.log ++ [drv_event.submit] })
  | some WIFI_SECURITY_TYPE_PSK =>
    let d1 := { d0 with
      sta := { ssid := ssid1,
               pass := params.psk.take params.psk_length
                 ++ NUL :: d0.sta.pass.drop (params.psk_length + 1),
               security := sec_wpa2_mixed },
      req := ESWIFI_REQ_CONNECT }
    (0, eswifi_unlock { d1 with log := d1.log ++ [drv_event.submit] })
  | none =>
    (- EINVAL, eswifi_unlock { d0 with sta := { d0.sta with ssid := ssid1 } })

/-! ## Vocabulary of the claims on the workflows -/

/-- The four commands of the connect workflow in the order of issue. -/
def connect_commands (sta : eswifi_sta) : List CStr := setup_commands sta ++ [cmd_join]

/-- The commands of the exchanges of a log, oldest first. -/
def requests_of : List drv_event → List CStr
  | [] => []
  | drv_event.request cmd :: l => cmd :: requests_of l
  | _ :: l => requests_of l

/-- The result events of a log, oldest first. -/
def results_of : List drv_event → List drv_event
  | [] => []
  | drv_event.connect_result s :: l => drv_event.connect_result s :: results_of l
  | drv_event.disconnect_result s :: l => drv_event.disconnect_result s :: results_of l
  | _ :: l => results_of l

/-- The number of `eswifi_lock` calls of a log. -/
def locks_of : List drv_event → Nat
  | [] => 0
  | drv_event.lock :: l => locks_of l + 1
  | _ :: l => locks_of l

/-- The number of `eswifi_unlock` calls of a log. -/
def unlocks_of : List drv_event → Nat
  | [] => 0
  | drv_event.unlock :: l => unlocks_of l + 1
  | _ :: l => unlocks_of l

/-- Whether every exchange of a log is made while the lock is held, `depth`
being the number of locks held when the log starts. -/
def exchanges_locked : Nat → List drv_event → Bool
  | _, [] => true
  | depth, drv_event.lock :: l => exchanges_locked (depth + 1) l
  | depth, drv_event.unlock :: l => exchanges_locked (depth - 1) l
  | depth, drv_event.request _ :: l => decide (0 < depth) && exchanges_locked depth l
  | depth, _ :: l => exchanges_locked depth l

/-! ## The EEM function of the USB network class (function_eem.c)

Bytes and 16-bit values are natural numbers.  The endpoint, the allocator and
the packet buffers are outside the file; their behaviour is given by a script,
and what the function hands to the network stack is recorded in a log. -/

/-- The function `eem_pkt_size(hdr)`: `if (hdr & BIT(15)) return hdr & 0x07ff;
else return hdr & 0x3fff;`. -/
def eem_pkt_size (hdr : Nat) : Nat :=
  if hdr &&& 0x8000 ≠ 0 then hdr &&& 0x07ff else hdr &&& 0x3fff

/-- The macro `sys_cpu_to_le16(v)` of `misc/byteorder.h`, declared outside the
file, followed by the store through a `u16_t *`: the two bytes found in memory,
low byte first. -/
def sys_cpu_to_le16 (v : Nat) : Nat × Nat := (v % 256, v / 256 % 256)

/-- The macro `sys_le16_to_cpu` of `misc/byteorder.h`, declared outside the
file, applied to two bytes of memory: the value with the first byte low. -/
def sys_le16_to_cpu (b : Nat × Nat) : Nat := b.1 + 256 * b.2

/-- The size of `tx_buf`: `static u8_t tx_buf[1500]`. -/
def TX_BUF_SIZE : Nat := 1500

/-- The local array `u8_t sentinel[4] = { 0xde, 0xad, 0xbe, 0xef }`. -/
def sentinel : List Nat := [0xde, 0xad, 0xbe, 0xef]

/-- What `eem_send` leaves behind: the value `len`, the two bytes stored through
`hdr` at `tx_buf[0]` and `tx_buf[1]`, the bytes handed to `usb_write` (`none`
when the copies run past the end of `tx_buf`), and the status returned. -/
structure eem_send_result where
  len : Nat
  hdr : Nat × Nat
  transfer : Option (List Nat)
  status : Int
deriving DecidableEq, Repr

/-- The function `eem_send(pkt)`, for a packet with the link-layer header `ll`
(`net_pkt_ll`, of `net_pkt_ll_reserve` bytes) and the fragments `frags`.  The
header stored is `sys_cpu_to_le16(0x3FFF & len)`; the link-layer header, the
fragments and the sentinel are copied behind it without a test on the size of
`tx_buf`. -/
def eem_send (ll : List Nat) (frags : List (List Nat)) : eem_send_result :=
  let len := ll.length + frags.flatten.length + sentinel.length
  let hdr := sys_cpu_to_le16 (0x3FFF &&& len)
  let bytes := [hdr.1, hdr.2] ++ ll ++ frags.flatten ++ sentinel
  { len := len, hdr := hdr,
    transfer := if bytes.length ≤ TX_BUF_SIZE then some bytes else none,
    status := 0 }

/-- What the receive path of the EEM function hands over: a frame given to
`netusb_recv`, a command packet given to `eem_recv_cmd` and released, and a
packet dropped after `net_pkt_append_all` failed. -/
inductive eem_event where
  | netusb_recv (frame : List Nat)
  | eem_recv_cmd (pkt : List Nat)
  | discard
deriving DecidableEq, Repr

/-- The three static variables of the receive path.  `rx_pkt` is `none` for
`NULL` and otherwise the bytes appended to the packet so far; `rx_hdr` and
`rx_exp` are `u16_t` values. -/
structure eem_rx where
  rx_pkt : Option (List Nat)
  rx_hdr : Nat
  rx_exp : Nat
deriving DecidableEq, Repr

/-- The surroundings of `eem_bulk_out`: the bytes waiting in the endpoint, the
outcomes of the coming calls of `net_pkt_get_reserve_rx` and of
`net_pkt_append_all` (a call beyond the script succeeds), and the log. -/
structure eem_env where
  fifo : List Nat
  allocs : List Bool
  appends : List Bool
  log : List eem_event
deriving DecidableEq, Repr

/-- The state of the C program at start: the static variables are zero. -/
def eem_rx_init : eem_rx := { rx_pkt := none, rx_hdr := 0, rx_exp := 0 }

/-- The function `net_pkt_trim(pkt, len)` on the bytes of a packet: the
fragments are walked until the running total exceeds `len`, and what lies
behind is cut off; a packet of at most `len` bytes is left as it is. -/
def net_pkt_trim (pkt : List Nat) (len : Nat) : List Nat := pkt.take len

/-- The argument `net_pkt_get_len(rx_pkt) - 4` of the call of `net_pkt_trim`,
computed in `size_t` (32 bits). -/
def trim_len (pkt : List Nat) : Nat := (pkt.length + 2 ^ 32 - 4) % 2 ^ 32

/-- One round of the `do { ... } while (1)` loop of `eem_bulk_out`, for an
endpoint buffer `buf` of `mps` bytes (`CONFIG_CDC_EEM_BULK_EP_MPS`).  The flag
tells whether the loop goes on (`continue`, or the end of the body) or is left
(`break`, `return`).  A call `usb_read(ep, data, max, &rlen)` takes the first
`max` bytes waiting in the endpoint, fewer when fewer are waiting.  The header
is read into the memory of `rx_hdr`, low byte first; a read of one byte leaves
the high byte as it was. -/
def eem_bulk_out_round (mps : Nat) (s : eem_rx) (e : eem_env) : Bool × eem_rx × eem_env :=
  let hdr_read : Option (eem_rx × eem_env) :=
    if s.rx_exp = 0 ∧ s.rx_pkt = none then
      let got := e.fifo.take 2
      if got.length = 0 then none
      else
        let mem := sys_cpu_to_le16 s.rx_hdr
        let hdr := sys_le16_to_cpu (got.headD mem.1, got.tail.headD mem.2)
        some ({ rx_pkt := if e.allocs.headD true then some [] else none,
                rx_hdr := hdr, rx_exp := eem_pkt_size hdr },
              { e with fifo := e.fifo.drop 2, allocs := e.allocs.tail })
    else some (s, e)
  match hdr_read with
  | none => (false, s, e)
  | some (s1, e1) =>
    let got := e1.fifo.take (min mps s1.rx_exp)
    if got.length = 0 then (false, s1, e1)
    else
      let e2 := { e1 with fifo := e1.fifo.drop (min mps s1.rx_exp) }
      let exp := (s1.rx_exp + 2 ^ 16 - got.length % 2 ^ 16) % 2 ^ 16
      match s1.rx_pkt with
      | none => (true, { s1 with rx_exp := exp }, e2)
      | some pkt =>
        if e2.appends.headD true = false then
          (false, { s1 with rx_exp := exp, rx_pkt := none },
           { e2 with appends := e2.appends.tail, log := e2.log ++ [eem_event.discard] })
        else
          let full := pkt ++ got
          let e3 := { e2 with appends := e2.appends.tail }
          if exp = 0 then
            let ev := if s1.rx_hdr &&& 0x8000 ≠ 0 then eem_event.eem_recv_cmd full
                      else eem_event.netusb_recv (net_pkt_trim full (trim_len full))
            (true, { s1 with rx_exp := 0, rx_pkt := none }, { e3 with log := e3.log ++ [ev] })
          else
            (true, { s1 with rx_exp := exp, rx_pkt := some full }, e3)

/-- The `do { ... } while (1)` loop of `eem_bulk_out`; the fuel bounds the
number of rounds. -/
def eem_bulk_out_loop (mps : Nat) : Nat → eem_rx → eem_env → eem_rx × eem_env
  | 0, s, e => (s, e)
  | fuel + 1, s, e =>
    match eem_bulk_out_round mps s e with
    | (true, s1, e1) => eem_bulk_out_loop mps fuel s1 e1
    | (false, s1, e1) => (s1, e1)

/-- The function `eem_bulk_out(ep, ep_status)`: every round that does not leave
the loop takes at least one byte from the endpoint, so one round more than
there are bytes waiting is enough. -/
def eem_bulk_out (mps : Nat) (s : eem_rx) (e : eem_env) : eem_rx × eem_env :=
  eem_bulk_out_loop mps (e.fifo.length + 1) s e

/-- The surroundings in which `bytes` wait in the endpoint and every allocation
and every append succeeds. -/
def eem_arrival (bytes : List Nat) : eem_env :=
  { fifo := bytes, allocs := [], appends := [], log := [] }

/-- A run of `eem_bulk_out` over successive arrivals: before each call the
bytes of the next arrival are added behind those still waiting. -/
def eem_receive (mps : Nat) : List (List Nat) → eem_rx → eem_env → eem_rx × eem_env
  | [], s, e => (s, e)
  | chunk :: rest, s, e =>
    let r := eem_bulk_out mps s { e with fifo := e.fifo ++ chunk }
    eem_receive mps rest r.1 r.2

/-- The state property of the receive path: no packet is held while no more
bytes are expected. -/
def eem_rx_idle_ok (s : eem_rx) : Prop := s.rx_exp = 0 → s.rx_pkt = none

instance (s : eem_rx) : Decidable (eem_rx_idle_ok s) := by
  unfold eem_rx_idle_ok; infer_instance

/-- The state in which the receive path holds an empty packet and expects no
more bytes, after a header whose size is 0. -/
def eem_rx_holds_empty (s : eem_rx) : Prop :=
  s.rx_exp = 0 ∧ s.rx_pkt = some [] ∧ eem_pkt_size s.rx_hdr = 0

instance (s : eem_rx) : Decidable (eem_rx_holds_empty s) := by
  unfold eem_rx_holds_empty; infer_instance


/-! ## Lemmas on C strings -/

theorem toNat_sub_ne_zero (a b : Char) (h : a ≠ b) :
    ((a.toNat : Int) - (b.toNat : Int)) ≠ 0 := by
  intro h0
  apply h
  have h1 : a.toNat = b.toNat := by omega
  exact Char.ext (UInt32.ext h1)

/-- With a NUL-free pattern, `strncmp` over the pattern's length is `0` exactly
when the pattern is a prefix of the bytes at the pointer. -/
theorem strncmp_eq_zero_iff (p : CStr) (hp : ∀ c ∈ p, c ≠ NUL) (a : CStr) :
    strncmp a p p.length = 0 ↔ p <+: a := by
  induction p generalizing a with
  | nil => simp [strncmp]
  | cons c p ih =>
    have hc : c ≠ NUL := hp c (List.mem_cons_self _ _)
    have hp2 : ∀ d ∈ p, d ≠ NUL := fun d hd => hp d (List.mem_cons_of_mem _ hd)
    cases a with
    | nil =>
      have hne : NUL ≠ c := fun h => hc h.symm
      simp [strncmp, deref, hne, toNat_sub_ne_zero NUL c hne]
    | cons x a =>
      by_cases hx : x = c
      · subst hx
        simp [strncmp, deref, hc, ih hp2 a, List.cons_prefix_cons]
      · have hx2 : ¬ c = x := fun h => hx h.symm
        simp [strncmp, deref, hx, hx2, toNat_sub_ne_zero x c hx, List.cons_prefix_cons]

/-- A pattern without the byte `x` is a prefix of `s ++ x :: junk` only inside
`s`. -/
theorem prefix_before_sep (x : Char) (p s junk : CStr) (hp : ∀ c ∈ p, c ≠ x) :
    p <+: s ++ x :: junk ↔ p <+: s := by
  induction s generalizing p with
  | nil =>
    cases p with
    | nil => simp
    | cons c p =>
      have hc : c ≠ x := hp c (List.mem_cons_self _ _)
      simp [List.cons_prefix_cons, hc]
  | cons y s ih =>
    cases p with
    | nil => simp
    | cons c p =>
      have hp2 : ∀ d ∈ p, d ≠ x := fun d hd => hp d (List.mem_cons_of_mem _ hd)
      simp [List.cons_prefix_cons, ih p hp2]

theorem at_ok_no_nul : ∀ c ∈ at_ok, c ≠ NUL := by decide

/-! ## C1: `__is_at_ok` -/

/-- C1: for every NUL-terminated response string `s` (whatever bytes `junk` lie
behind its terminator), `__is_at_ok` returns true if and only if `s` contains
the six bytes `"OK\r\n> "` as a contiguous substring at some position. -/
theorem is_at_ok_iff_contains (s junk : CStr) (hs : ∀ c ∈ s, c ≠ NUL) :
    __is_at_ok (s ++ NUL :: junk) = true ↔ at_ok <:+: s := by
  induction s with
  | nil => simp [__is_at_ok, at_ok]
  | cons x s ih =>
    have hx : x ≠ NUL := hs x (List.mem_cons_self _ _)
    have hs2 : ∀ d ∈ s, d ≠ NUL := fun d hd => hs d (List.mem_cons_of_mem _ hd)
    have hpre : strncmp (x :: (s ++ NUL :: junk)) at_ok 6 = 0 ↔ at_ok <+: x :: s := by
      have h1 := strncmp_eq_zero_iff at_ok at_ok_no_nul (x :: (s ++ NUL :: junk))
      have h2 := prefix_before_sep NUL at_ok (x :: s) junk at_ok_no_nul
      rw [List.cons_append] at h2
      exact h1.trans h2
    rw [List.infix_cons_iff, ← ih hs2, ← hpre]
    simp only [List.cons_append, __is_at_ok, hx, if_false]
    by_cases h6 : strncmp (x :: (s ++ NUL :: junk)) at_ok 6 = 0
    · simp [h6]
    · simp [h6]

/-- C1 at concrete responses: the trailer in the middle of a response is found,
and the empty string holds no trailer. -/
theorem is_at_ok_iff_contains_witness :
    (__is_at_ok ("C1=x\r\nOK\r\n> tail".toList ++ NUL :: "OK\r\n> ".toList) = true ↔
      at_ok <:+: "C1=x\r\nOK\r\n> tail".toList) ∧
    (__is_at_ok ([] ++ NUL :: "OK\r\n> ".toList) = true ↔ at_ok <:+: ([] : CStr)) :=
  ⟨is_at_ok_iff_contains _ _ (by decide), is_at_ok_iff_contains _ _ (by decide)⟩

/-! ## Lemmas on `__parse_scan_res` -/

theorem parse_scan_res_loop_fuel (f1 : Nat) :
    ∀ (f2 : Nat) (str : CStr) (field : Nat) (res : wifi_scan_result),
      str.length < f1 → str.length < f2 →
      parse_scan_res_loop f1 str field res = parse_scan_res_loop f2 str field res := by
  induction f1 with
  | zero => intro f2 str field res h1; omega
  | succ f1 ih =>
    intro f2 str field res h1 h2
    cases f2 with
    | zero => omega
    | succ f2 =>
      cases str with
      | nil => simp [parse_scan_res_loop, deref]
      | cons c s =>
        simp only [List.length_cons] at h1 h2
        have hs1 : s.length < f1 := by omega
        have hs2 : s.length < f2 := by omega
        have hd : ∀ n, (s.drop n).length < f1 ∧ (s.drop n).length < f2 := by
          intro n
          have := List.length_drop n s
          omega
        unfold parse_scan_res_loop
        simp only [List.tail_cons]
        split
        · rfl
        · split
          · exact ih f2 s field res hs1 hs2
          · split
            · rfl
            · split
              · exact ih f2 _ _ _ (hd _).1 (hd _).2
              · exact ih f2 _ _ _ hs1 hs2
              · exact ih f2 _ _ _ hs1 hs2
              · exact ih f2 _ _ _ hs1 hs2
              · exact ih f2 _ _ _ hs1 hs2

theorem scan_res_from_skip (f t : CStr) (hf : comma_free f) (field : Nat)
    (res : wifi_scan_result) :
    scan_res_from (f ++ t) field res = scan_res_from t field res := by
  induction f with
  | nil => rfl
  | cons c f ih =>
    have hc := hf c (List.mem_cons_self _ _)
    have hf2 : comma_free f := fun d hd => hf d (List.mem_cons_of_mem _ hd)
    rw [← ih hf2]
    simp [scan_res_from, parse_scan_res_loop, deref, hc.1, hc.2]

theorem deref_field_comma (f t : CStr) (hf : comma_free f) : deref (f ++ ',' :: t) ≠ NUL := by
  cases f with
  | nil => simp [deref, NUL]
  | cons c f => simpa [deref] using (hf c (List.mem_cons_self _ _)).1

theorem scan_res_from_done (fuel : Nat) : ∀ (str : CStr) (field : Nat) (res : wifi_scan_result),
    8 ≤ field → parse_scan_res_loop fuel str field res = res := by
  induction fuel with
  | zero => intro str field res _; rfl
  | succ fuel ih =>
    intro str field res h
    unfold parse_scan_res_loop
    split
    · rfl
    · split
      · exact ih _ _ _ h
      · split
        · omega
        · omega
        · omega
        · omega
        · simp only []
          split
          · rfl
          · exact ih _ _ _ (by omega)

theorem scan_res_from_plain (t : CStr) (ht : deref t ≠ NUL) (field : Nat)
    (res : wifi_scan_result) (h0 : field ≠ 0) (h2 : field ≠ 2) (h5 : field ≠ 5)
    (h7 : field ≠ 7) :
    scan_res_from (',' :: t) field res = scan_res_from t (field + 1) res := by
  unfold scan_res_from
  rw [List.length_cons]
  conv_lhs => unfold parse_scan_res_loop
  have hc : deref (',' :: t) ≠ NUL := by simp [deref, NUL]
  have hc2 : ¬ deref (',' :: t) ≠ ',' := by simp [deref]
  rw [if_neg hc, if_neg hc2]
  split
  · omega
  · omega
  · omega
  · omega
  · simp only [List.tail_cons]
    rw [if_neg ht]

theorem scan_res_from_rssi (t : CStr) (ht : deref t ≠ NUL) (res : wifi_scan_result) :
    scan_res_from (',' :: t) 2 res = scan_res_from t 3 { res with rssi := as_s8 (atoi t) } := by
  unfold scan_res_from
  rw [List.length_cons]
  conv_lhs => unfold parse_scan_res_loop
  have hc : deref (',' :: t) ≠ NUL := by simp [deref, NUL]
  have hc2 : ¬ deref (',' :: t) ≠ ',' := by simp [deref]
  rw [if_neg hc, if_neg hc2]
  simp only [List.tail_cons]
  rw [if_neg ht]

theorem scan_res_from_security (t : CStr) (ht : deref t ≠ NUL) (res : wifi_scan_result) :
    scan_res_from (',' :: t) 5 res = scan_res_from t 6
      { res with security :=
          if strncmp t ['O', 'p', 'e', 'n'] 4 = 0 then WIFI_SECURITY_TYPE_NONE
          else WIFI_SECURITY_TYPE_PSK } := by
  unfold scan_res_from
  rw [List.length_cons]
  conv_lhs => unfold parse_scan_res_loop
  have hc : deref (',' :: t) ≠ NUL := by simp [deref, NUL]
  have hc2 : ¬ deref (',' :: t) ≠ ',' := by simp [deref]
  rw [if_neg hc, if_neg hc2]
  simp only [List.tail_cons]
  rw [if_neg ht]

theorem scan_res_from_channel (t : CStr) (ht : deref t ≠ NUL) (res : wifi_scan_result) :
    scan_res_from (',' :: t) 7 res = scan_res_from t 8
      { res with channel := as_u8 (atoi t) } := by
  unfold scan_res_from
  rw [List.length_cons]
  conv_lhs => unfold parse_scan_res_loop
  have hc : deref (',' :: t) ≠ NUL := by simp [deref, NUL]
  have hc2 : ¬ deref (',' :: t) ≠ ',' := by simp [deref]
  rw [if_neg hc, if_neg hc2]
  simp only [List.tail_cons]
  rw [if_neg ht]

theorem scan_res_from_ssid (t : CStr) (ht : deref t ≠ NUL) (res : wifi_scan_result) :
    scan_res_from (',' :: t) 0 res =
      scan_res_from (t.drop (strlen (__parse_ssid t res.ssid).2)) 1
        { res with ssid := (__parse_ssid t res.ssid).2,
                   ssid_length := strlen (__parse_ssid t res.ssid).2 } := by
  unfold scan_res_from
  rw [List.length_cons]
  conv_lhs => unfold parse_scan_res_loop
  have hc : deref (',' :: t) ≠ NUL := by simp [deref, NUL]
  have hc2 : ¬ deref (',' :: t) ≠ ',' := by simp [deref]
  rw [if_neg hc, if_neg hc2]
  simp only [List.tail_cons]
  rw [if_neg ht]
  apply parse_scan_res_loop_fuel
  · have := List.length_drop (strlen (__parse_ssid t res.ssid).2) t
    omega
  · omega

/-! ## Lemmas on `atoi` and `__parse_ssid` -/

theorem digitChar_facts (d : Nat) (h : d < 10) :
    isdigit (Nat.digitChar d) = true ∧ ((Nat.digitChar d).toNat : Int) - 48 = (d : Int) ∧
      isspace (Nat.digitChar d) = false ∧ Nat.digitChar d ≠ '-' ∧ Nat.digitChar d ≠ '+' ∧
      Nat.digitChar d ≠ NUL ∧ Nat.digitChar d ≠ ',' := by
  interval_cases d <;> decide

theorem atoi_digits_text (ds : List Nat) (hds : ∀ d ∈ ds, d < 10) (rest : CStr)
    (hrest : isdigit (deref rest) = false) (n : Int) :
    atoi_digits (ds.map Nat.digitChar ++ rest) n
      = n * 10 ^ ds.length + ((Nat.ofDigits 10 ds.reverse : Nat) : Int) := by
  induction ds generalizing n with
  | nil =>
    cases rest with
    | nil => simp [atoi_digits, Nat.ofDigits_nil]
    | cons c r =>
      simp only [deref, List.headD_cons] at hrest
      simp [atoi_digits, hrest, Nat.ofDigits_nil]
  | cons d ds ih =>
    have hd := digitChar_facts d (hds d (List.mem_cons_self _ _))
    have hds2 : ∀ e ∈ ds, e < 10 := fun e he => hds e (List.mem_cons_of_mem _ he)
    show atoi_digits (Nat.digitChar d :: (ds.map Nat.digitChar ++ rest)) n = _
    rw [atoi_digits, if_pos hd.1, ih hds2, hd.2.1]
    simp only [List.reverse_cons, Nat.ofDigits_append, List.length_reverse, List.length_cons,
      Nat.ofDigits_singleton]
    push_cast
    ring

/-- The number read from a decimal text followed by a comma is the value of the
text. -/
theorem atoi_value_decimal_text_comma (neg : Bool) (ds : List Nat) (hds : ∀ d ∈ ds, d < 10)
    (t : CStr) : atoi_value (decimal_text neg ds ++ ',' :: t) = decimal_value neg ds := by
  have hcomma : isdigit (deref (',' :: t)) = false := (by decide : isdigit ',' = false)
  have key := atoi_digits_text ds hds (',' :: t) hcomma 0
  cases neg with
  | true =>
    have hsp : isspace '-' = false := by decide
    simp [decimal_text, decimal_value, atoi_value, List.dropWhile, hsp, key]
  | false =>
    cases ds with
    | nil =>
      have hsp : isspace ',' = false := by decide
      have hdg : isdigit ',' = false := by decide
      simp [decimal_text, decimal_value, atoi_value, List.dropWhile, hsp, atoi_digits, hdg,
        Nat.ofDigits_nil]
    | cons d ds =>
      have hd := digitChar_facts d (hds d (List.mem_cons_self _ _))
      have key2 : atoi_digits (Nat.digitChar d :: (ds.map Nat.digitChar ++ ',' :: t)) 0
          = ((Nat.ofDigits 10 (d :: ds).reverse : Nat) : Int) := by
        simpa using key
      simp only [decimal_text, decimal_value, atoi_value, List.map_cons, List.cons_append,
        List.nil_append, List.dropWhile, hd.2.2.1, hd.2.2.2.1, hd.2.2.2.2.1, if_false]
      simpa using key2

/-- The number read from a non-empty run of digits followed by a non-digit is
the value of the digits. -/
theorem atoi_value_digits_nonempty (ds : List Nat) (hds : ∀ d ∈ ds, d < 10) (hne : ds ≠ [])
    (rest : CStr) (hrest : isdigit (deref rest) = false) :
    atoi_value (decimal_text false ds ++ rest) = decimal_value false ds := by
  have key := atoi_digits_text ds hds rest hrest 0
  cases ds with
  | nil => exact absurd rfl hne
  | cons d ds =>
    have hd := digitChar_facts d (hds d (List.mem_cons_self _ _))
    have key2 : atoi_digits (Nat.digitChar d :: (ds.map Nat.digitChar ++ rest)) 0
        = ((Nat.ofDigits 10 (d :: ds).reverse : Nat) : Int) := by
      simpa using key
    simp only [decimal_text, decimal_value, atoi_value, List.map_cons, List.cons_append,
      List.nil_append, List.dropWhile, hd.2.2.1, hd.2.2.2.1, hd.2.2.2.2.1, if_false]
    simpa using key2

theorem as_int_id (v : Int) (hlo : -2 ^ 31 ≤ v) (hhi : v < 2 ^ 31) : as_int v = v := by
  unfold as_int
  norm_num at hlo hhi ⊢
  omega

theorem as_s8_id (v : Int) (hlo : -128 ≤ v) (hhi : v ≤ 127) : as_s8 v = v := by
  unfold as_s8
  omega

theorem as_u8_id (v : Int) (hlo : 0 ≤ v) (hhi : v ≤ 255) : as_u8 v = v := by
  unfold as_u8
  omega

theorem as_s8_as_int (v : Int) : as_s8 (as_int v) = as_s8 v := by
  unfold as_s8 as_int
  norm_num
  omega

theorem as_u8_as_int (v : Int) : as_u8 (as_int v) = as_u8 v := by
  unfold as_u8 as_int
  omega

theorem as_int_range (v : Int) : -2 ^ 31 ≤ as_int v ∧ as_int v < 2 ^ 31 := by
  unfold as_int
  norm_num
  omega

theorem decimal_value_nonneg (ds : List Nat) : 0 ≤ decimal_value false ds := by
  simp [decimal_value]

/-- The `atoi` of a decimal text followed by a comma is the value of the text
when the value fits an `int`. -/
theorem atoi_decimal_text_comma (neg : Bool) (ds : List Nat) (hds : ∀ d ∈ ds, d < 10)
    (t : CStr) (hlo : -2 ^ 31 ≤ decimal_value neg ds) (hhi : decimal_value neg ds < 2 ^ 31) :
    atoi (decimal_text neg ds ++ ',' :: t) = decimal_value neg ds := by
  unfold atoi
  rw [atoi_value_decimal_text_comma neg ds hds t, as_int_id _ hlo hhi]

/-- The `atoi` of a non-empty run of digits followed by a non-digit is the value
of the digits when the value fits an `int`. -/
theorem atoi_digits_nonempty (ds : List Nat) (hds : ∀ d ∈ ds, d < 10) (hne : ds ≠ [])
    (rest : CStr) (hrest : isdigit (deref rest) = false)
    (hhi : decimal_value false ds < 2 ^ 31) :
    atoi (decimal_text false ds ++ rest) = decimal_value false ds := by
  unfold atoi
  have h0 := decimal_value_nonneg ds
  rw [atoi_value_digits_nonempty ds hds hne rest hrest, as_int_id _ (by omega) hhi]

theorem atoi_mod_256 (s : CStr) : atoi s % 256 = atoi_value s % 256 := by
  unfold atoi as_int
  omega

/-- The RSSI store: the `atoi` of a decimal text followed by a comma, converted
to `s8_t`, is the value of the text converted to `s8_t`. -/
theorem as_s8_atoi_comma (neg : Bool) (ds : List Nat) (hds : ∀ d ∈ ds, d < 10) (t : CStr) :
    as_s8 (atoi (decimal_text neg ds ++ ',' :: t)) = as_s8 (decimal_value neg ds) := by
  unfold atoi
  rw [as_s8_as_int, atoi_value_decimal_text_comma neg ds hds t]

/-- The channel store: the `atoi` of a non-empty run of digits followed by a
non-digit, converted to `u8_t`, is the value of the digits converted to `u8_t`. -/
theorem as_u8_atoi_digits (ds : List Nat) (hds : ∀ d ∈ ds, d < 10) (hne : ds ≠ [])
    (rest : CStr) (hrest : isdigit (deref rest) = false) :
    as_u8 (atoi (decimal_text false ds ++ rest)) = as_u8 (decimal_value false ds) := by
  unfold atoi
  rw [as_u8_as_int, atoi_value_digits_nonempty ds hds hne rest hrest]

theorem decimal_text_comma_free (neg : Bool) (ds : List Nat) (hds : ∀ d ∈ ds, d < 10) :
    comma_free (decimal_text neg ds) := by
  intro c hc
  simp only [decimal_text, List.mem_append, List.mem_map] at hc
  rcases hc with hc | ⟨d, hd, rfl⟩
  · cases neg with
    | true =>
      simp only [if_true, List.mem_singleton] at hc
      subst hc
      decide
    | false => simp at hc
  · exact ⟨(digitChar_facts d (hds d hd)).2.2.2.2.2.1, (digitChar_facts d (hds d hd)).2.2.2.2.2.2⟩

theorem parse_ssid_copy_quote (name rest : CStr) (h : ∀ c ∈ name, c ≠ NUL ∧ c ≠ '"') :
    parse_ssid_copy (name ++ '"' :: rest) = (name, '"' :: rest) := by
  induction name with
  | nil => simp [parse_ssid_copy]
  | cons c name ih =>
    have hc := h c (List.mem_cons_self _ _)
    have h2 : ∀ d ∈ name, d ≠ NUL ∧ d ≠ '"' := fun d hd => h d (List.mem_cons_of_mem _ hd)
    simp [parse_ssid_copy, hc.1, hc.2, ih h2]

theorem parse_ssid_quoted (name rest ssid : CStr) (h : ∀ c ∈ name, c ≠ NUL ∧ c ≠ '"') :
    __parse_ssid ('"' :: (name ++ '"' :: rest)) ssid
      = (-EINVAL, name ++ NUL :: ssid.drop (name.length + 1)) := by
  have hq : ('"' : Char) ≠ NUL := by decide
  simp [__parse_ssid, deref, hq, parse_ssid_copy_quote name rest h]

theorem strlen_before_nul (name junk : CStr) (h : ∀ c ∈ name, c ≠ NUL) :
    strlen (name ++ NUL :: junk) = name.length := by
  induction name with
  | nil => simp [strlen]
  | cons c name ih =>
    have hc := h c (List.mem_cons_self _ _)
    have h2 : ∀ d ∈ name, d ≠ NUL := fun d hd => h d (List.mem_cons_of_mem _ hd)
    simp [strlen, hc, ih h2]

theorem ssid_array_after (name : CStr) (cap : Nat) (hfit : name.length < cap) :
    name ++ NUL :: (List.replicate cap NUL).drop (name.length + 1)
      = name ++ List.replicate (cap - name.length) NUL := by
  have h1 : cap - name.length = (cap - (name.length + 1)) + 1 := by omega
  rw [List.drop_replicate, h1, List.replicate_succ]

theorem strncmp_open_field (sec t : CStr) :
    strncmp (sec ++ ',' :: t) ['O', 'p', 'e', 'n'] 4 = 0 ↔ open_text <+: sec := by
  have h1 := strncmp_eq_zero_iff open_text (by decide) (sec ++ ',' :: t)
  have h2 := prefix_before_sep ',' open_text sec t (by decide)
  exact h1.trans h2

theorem drop_quoted (name r : CStr) (h : comma_free name) (k : Nat) (hk : k ≤ name.length) :
    ∃ g, comma_free g ∧ ('"' :: (name ++ '"' :: r)).drop k = g ++ r := by
  refine ⟨('"' :: name).drop k ++ ['"'], ?_, ?_⟩
  · intro c hc
    rcases List.mem_append.1 hc with hc | hc
    · rcases List.mem_cons.1 (List.mem_of_mem_drop hc) with rfl | hc
      · decide
      · exact h c hc
    · rw [List.mem_singleton] at hc
      subst hc
      decide
  · have h1 : '"' :: (name ++ '"' :: r) = ('"' :: name) ++ '"' :: r := rfl
    rw [h1, List.drop_append_of_le_length (by simp; omega)]
    simp

/-! ## C2: the record parsed from a scan-result line -/

/-- The record of a scan-result line whose fields hold no comma: the SSID without
its quotes, its length, the value of the RSSI field converted to the `s8_t` of
`rssi`, the value of the channel field converted to the `u8_t` of `channel`,
and security open exactly when the security field starts with `Open`. -/
theorem parse_scan_res_fields (cap : Nat) (idx name mac bitrate mode sec band rest : CStr)
    (neg : Bool) (rs cs : List Nat)
    (hidx : comma_free idx) (hname : comma_free name) (hquote : ∀ c ∈ name, c ≠ '"')
    (hfit : name.length < cap) (hmac : comma_free mac) (hrs : ∀ d ∈ rs, d < 10)
    (hbitrate : comma_free bitrate) (hmode : comma_free mode) (hsec : comma_free sec)
    (hband : comma_free band) (hcs : ∀ d ∈ cs, d < 10) (hcs0 : cs ≠ [])
    (hrest : isdigit (deref rest) = false) :
    __parse_scan_res
        (scan_line idx name mac (decimal_text neg rs) bitrate mode sec band
          (decimal_text false cs) rest)
        (zeroed_scan_result cap)
      = { ssid := name ++ List.replicate (cap - name.length) NUL
          ssid_length := name.length
          channel := as_u8 (decimal_value false cs)
          security :=
            if open_text <+: sec then WIFI_SECURITY_TYPE_NONE else WIFI_SECURITY_TYPE_PSK
          rssi := as_s8 (decimal_value neg rs) } := by
  have hidx2 : comma_free ('#' :: idx) := by
    intro c hc
    rcases List.mem_cons.1 hc with rfl | hc
    · decide
    · exact hidx c hc
  have hname2 : ∀ c ∈ name, c ≠ NUL ∧ c ≠ '"' := fun c hc => ⟨(hname c hc).1, hquote c hc⟩
  have hname3 : ∀ c ∈ name, c ≠ NUL := fun c hc => (hname c hc).1
  have hrssi := decimal_text_comma_free neg rs hrs
  have hchan := decimal_text_comma_free false cs hcs
  have hq : ∀ t : CStr, deref ('"' :: t) ≠ NUL := fun t => by simp [deref, NUL]
  have hchan0 : deref (decimal_text false cs ++ rest) ≠ NUL := by
    cases cs with
    | nil => exact absurd rfl hcs0
    | cons d cs =>
      have := (digitChar_facts d (hcs d (List.mem_cons_self _ _))).2.2.2.2.2.1
      simpa [decimal_text, deref] using this
  show scan_res_from _ 0 _ = _
  unfold scan_line
  rw [← List.cons_append, scan_res_from_skip _ _ hidx2, scan_res_from_ssid _ (hq _)]
  simp only [zeroed_scan_result, parse_ssid_quoted name _ _ hname2,
    strlen_before_nul name _ hname3]
  rw [ssid_array_after name cap hfit]
  obtain ⟨g, hg, hdrop⟩ := drop_quoted name
    (',' :: (mac ++ ',' :: (decimal_text neg rs ++ ',' :: (bitrate ++ ',' :: (mode ++ ',' ::
      (sec ++ ',' :: (band ++ ',' :: (decimal_text false cs ++ rest)))))))) hname name.length (Nat.le_refl _)
  rw [hdrop, scan_res_from_skip _ _ hg,
    scan_res_from_plain _ (deref_field_comma _ _ hmac) 1 _ (by decide) (by decide) (by decide)
      (by decide),
    scan_res_from_skip _ _ hmac,
    scan_res_from_rssi _ (deref_field_comma _ _ hrssi),
    as_s8_atoi_comma neg rs hrs, scan_res_from_skip _ _ hrssi,
    scan_res_from_plain _ (deref_field_comma _ _ hbitrate) 3 _ (by decide) (by decide)
      (by decide) (by decide),
    scan_res_from_skip _ _ hbitrate,
    scan_res_from_plain _ (deref_field_comma _ _ hmode) 4 _ (by decide) (by decide)
      (by decide) (by decide),
    scan_res_from_skip _ _ hmode,
    scan_res_from_security _ (deref_field_comma _ _ hsec),
    scan_res_from_skip _ _ hsec,
    scan_res_from_plain _ (deref_field_comma _ _ hband) 6 _ (by decide) (by decide)
      (by decide) (by decide),
    scan_res_from_skip _ _ hband,
    scan_res_from_channel _ hchan0,
    as_u8_atoi_digits cs hcs hcs0 rest hrest]
  unfold scan_res_from
  rw [scan_res_from_done _ _ _ _ (by decide)]
  by_cases hopen : open_text <+: sec
  · simp [hopen, (strncmp_open_field sec _).2 hopen]
  · have := mt (strncmp_open_field sec (band ++ ',' :: (decimal_text false cs ++ rest))).1 hopen
    simp [hopen, this]

/-- C2, amended: for every scan-result line `#index,"SSID",MAC,RSSI,bitrate,mode,
security,band,channel` followed by any text that does not start with a digit,
whose fields hold no comma, whose SSID holds no double quote and fits the SSID
array with its terminator, whose RSSI field is a decimal number with an optional
minus sign and a value from -128 to 127, and whose channel field is a non-empty
decimal number of value at most 255, `__parse_scan_res` applied to a zeroed
record leaves the SSID without its quotes in the SSID array, its length in
`ssid_length`, the value of the RSSI field in `rssi`, the value of the channel
field in `channel`, and security open exactly when the security field starts
with `Open`. -/
theorem parse_scan_res_line (cap : Nat) (idx name mac bitrate mode sec band rest : CStr)
    (neg : Bool) (rs cs : List Nat)
    (hidx : comma_free idx) (hname : comma_free name) (hquote : ∀ c ∈ name, c ≠ '"')
    (hfit : name.length < cap) (hmac : comma_free mac) (hrs : ∀ d ∈ rs, d < 10)
    (hbitrate : comma_free bitrate) (hmode : comma_free mode) (hsec : comma_free sec)
    (hband : comma_free band) (hcs : ∀ d ∈ cs, d < 10) (hcs0 : cs ≠ [])
    (hrest : isdigit (deref rest) = false)
    (hrssi_lo : -128 ≤ decimal_value neg rs) (hrssi_hi : decimal_value neg rs ≤ 127)
    (hchan_hi : decimal_value false cs ≤ 255) :
    __parse_scan_res
        (scan_line idx name mac (decimal_text neg rs) bitrate mode sec band
          (decimal_text false cs) rest)
        (zeroed_scan_result cap)
      = { ssid := name ++ List.replicate (cap - name.length) NUL
          ssid_length := name.length
          channel := decimal_value false cs
          security :=
            if open_text <+: sec then WIFI_SECURITY_TYPE_NONE else WIFI_SECURITY_TYPE_PSK
          rssi := decimal_value neg rs } := by
  rw [parse_scan_res_fields cap idx name mac bitrate mode sec band rest neg rs cs hidx hname
    hquote hfit hmac hrs hbitrate hmode hsec hband hcs hcs0 hrest,
    as_s8_id _ hrssi_lo hrssi_hi, as_u8_id _ (decimal_value_nonneg cs) hchan_hi]

/-- The original C2 fails at a line of its form whose RSSI field is `-200` and
whose channel field is `300`: the record holds `rssi` 56 and `channel` 44, not
the values -200 and 300 of the fields. -/
theorem parse_scan_res_line_out_of_range :
    "#001,\"MyNet\",AA:BB:CC:DD:EE:FF,-200,54.0,Infrastructure,Open,2.4GHz,300".toList
      = scan_line "001".toList "MyNet".toList "AA:BB:CC:DD:EE:FF".toList
          (decimal_text true [2, 0, 0]) "54.0".toList "Infrastructure".toList "Open".toList
          "2.4GHz".toList (decimal_text false [3, 0, 0]) [] ∧
    (__parse_scan_res
        "#001,\"MyNet\",AA:BB:CC:DD:EE:FF,-200,54.0,Infrastructure,Open,2.4GHz,300".toList
        (zeroed_scan_result 32)).rssi = 56 ∧
    (__parse_scan_res
        "#001,\"MyNet\",AA:BB:CC:DD:EE:FF,-200,54.0,Infrastructure,Open,2.4GHz,300".toList
        (zeroed_scan_result 32)).channel = 44 ∧
    (__parse_scan_res
        "#001,\"MyNet\",AA:BB:CC:DD:EE:FF,-200,54.0,Infrastructure,Open,2.4GHz,300".toList
        (zeroed_scan_result 32)).rssi ≠ decimal_value true [2, 0, 0] ∧
    (__parse_scan_res
        "#001,\"MyNet\",AA:BB:CC:DD:EE:FF,-200,54.0,Infrastructure,Open,2.4GHz,300".toList
        (zeroed_scan_result 32)).channel ≠ decimal_value false [3, 0, 0] := by
  decide

/-- C2 at the line of the specification: the record is SSID `MyNet`, RSSI `-60`,
channel `6`, security open. -/
theorem parse_scan_res_line_witness :
    __parse_scan_res
        "#001,\"MyNet\",AA:BB:CC:DD:EE:FF,-60,54.0,Infrastructure,Open,2.4GHz,6".toList
        (zeroed_scan_result 32)
      = { ssid := "MyNet".toList ++ List.replicate 27 NUL
          ssid_length := 5
          channel := 6
          security := WIFI_SECURITY_TYPE_NONE
          rssi := -60 } :=
  parse_scan_res_line 32 "001".toList "MyNet".toList "AA:BB:CC:DD:EE:FF".toList
    "54.0".toList "Infrastructure".toList "Open".toList "2.4GHz".toList [] true [6, 0] [6]
    (by decide) (by decide) (by decide) (by decide) (by decide) (by decide) (by decide)
    (by decide) (by decide) (by decide) (by decide) (by decide) (by decide) (by decide)
    (by decide) (by decide)

theorem hexval_facts (c : Char) (h : (hexval c).isSome) :
    isspace c = false ∧ c ≠ '-' ∧ c ≠ '+' ∧ c ≠ ':' ∧ c ≠ '\r' ∧ c ≠ 'x' ∧ c ≠ 'X' ∧
      (hexval c).getD 0 < 16 ∧ hexval c = some ((hexval c).getD 0) := by
  have hne : ∀ d : Char, hexval d = none → c ≠ d := by
    intro d hd hcd
    subst hcd
    simp [hd] at h
  refine ⟨?_, hne _ (by decide), hne _ (by decide), hne _ (by decide), hne _ (by decide),
    hne _ (by decide), hne _ (by decide), ?_, ?_⟩
  · unfold hexval at h
    unfold isspace
    split_ifs at h with h1 h2 h3
    · simp; omega
    · simp; omega
    · simp; omega
    · simp at h
  · unfold hexval
    split_ifs with h1 h2 h3
    · simp; omega
    · simp; omega
    · simp; omega
    · simp
  · cases hv : hexval c with
    | none => simp [hv] at h
    | some v => simp

theorem strtol16_pair (p : Char × Char) (hp : hex_pair p) (c : Char) (hc : hexval c = none)
    (t : CStr) : strtol16 (p.1 :: p.2 :: c :: t) = (pair_value p : Int) := by
  have h1 := hexval_facts p.1 hp.1
  have h2 := hexval_facts p.2 hp.2
  have e1 := h1.2.2.2.2.2.2.2.2
  have e2 := h2.2.2.2.2.2.2.2.2
  simp only [strtol16, List.dropWhile, h1.1, deref, List.headD_cons, h1.2.1, h1.2.2.1,
    or_self, if_false, List.tail_cons, h2.2.2.2.2.2.1, h2.2.2.2.2.2.2.1, and_false]
  rw [strtol16_digits, e1]
  simp only []
  rw [strtol16_digits, e2]
  simp only []
  rw [strtol16_digits, hc]
  simp only [pair_value]
  push_cast
  ring

theorem pair_value_lt (p : Char × Char) (hp : hex_pair p) : pair_value p < 256 := by
  have h1 := (hexval_facts p.1 hp.1).2.2.2.2.2.2.2.1
  have h2 := (hexval_facts p.2 hp.2).2.2.2.2.2.2.2.1
  unfold pair_value
  omega

theorem getD_at (L R : CStr) (c : Char) : (L ++ c :: R).getD L.length NUL = c := by
  induction L with
  | nil => rfl
  | cons x L ih => simpa using ih

/-- An iteration at a byte that is no `':'`, and no `'\r'` while `byte == 5`,
changes nothing. -/
theorem mac_step_plain (L R : CStr) (c : Char) (st : mac_state) (h1 : c ≠ ':')
    (h2 : c = '\r' → st.byte ≠ 5) : mac_step (L ++ c :: R) st L.length = st := by
  unfold mac_step
  rw [getD_at]
  split
  · rfl
  · split
    · rename_i h
      rcases h with h | ⟨h5, hr⟩
      · exact absurd h h1
      · exact absurd h5 (h2 hr)
    · rfl

/-- An iteration at the delimiter behind a pair of hexadecimal digits stores the
byte of the pair. -/
theorem mac_step_pair (L R : CStr) (p : Char × Char) (hp : hex_pair p) (c : Char)
    (st : mac_state) (hc : c = ':' ∨ (st.byte = 5 ∧ c = '\r')) :
    mac_step (L ++ p.1 :: p.2 :: c :: R) st (L.length + 2)
      = { byte := st.byte + 1, stores := st.stores ++ [(st.byte, pair_value p)] } := by
  have hcn : hexval c = none := by
    rcases hc with h | ⟨_, h⟩ <;> subst h <;> decide
  have hget : (L ++ p.1 :: p.2 :: c :: R).getD (L.length + 2) NUL = c := by
    have := getD_at (L ++ [p.1, p.2]) R c
    simpa using this
  have hdrop : (L ++ p.1 :: p.2 :: c :: R).drop (L.length + 2 - 2) = p.1 :: p.2 :: c :: R := by
    simp
  unfold mac_step
  rw [hget, hdrop, strtol16_pair p hp c hcn]
  have hlt := pair_value_lt p hp
  have hv : ((pair_value p : Int) % 256).toNat = pair_value p := by omega
  rw [hv]
  simp [hc]

/-- The loop changes nothing over a stretch of bytes that holds no `':'`, and
no `'\r'` while `byte == 5`. -/
theorem mac_fold_plain (seg : CStr) : ∀ (L R : CStr) (st : mac_state),
    (∀ c ∈ seg, c ≠ ':' ∧ (c = '\r' → st.byte ≠ 5)) →
    (List.range' L.length seg.length).foldl (mac_step (L ++ (seg ++ R))) st = st := by
  induction seg with
  | nil => intro L R st _; rfl
  | cons c seg ih =>
    intro L R st h
    have hc := h c (List.mem_cons_self _ _)
    have h2 : ∀ d ∈ seg, d ≠ ':' ∧ (d = '\r' → st.byte ≠ 5) :=
      fun d hd => h d (List.mem_cons_of_mem _ hd)
    rw [List.length_cons, List.range'_succ, List.foldl_cons, List.cons_append,
      mac_step_plain L (seg ++ R) c st hc.1 hc.2]
    have e1 : L ++ c :: (seg ++ R) = (L ++ [c]) ++ (seg ++ R) := by simp
    have e2 : L.length + 1 = (L ++ [c]).length := by simp
    rw [e1, e2]
    exact ih (L ++ [c]) R st h2

/-- The loop over the three bytes of a pair of digits and its delimiter makes
one store. -/
theorem mac_fold_pair (L R : CStr) (p : Char × Char) (hp : hex_pair p) (c : Char)
    (st : mac_state) (hc : c = ':' ∨ (st.byte = 5 ∧ c = '\r')) (n : Nat) :
    (List.range' L.length (n + 3)).foldl (mac_step (L ++ p.1 :: p.2 :: c :: R)) st
      = (List.range' (L ++ [p.1, p.2, c]).length n).foldl
          (mac_step ((L ++ [p.1, p.2, c]) ++ R))
          { byte := st.byte + 1, stores := st.stores ++ [(st.byte, pair_value p)] } := by
  have h1 := hexval_facts p.1 hp.1
  have h2 := hexval_facts p.2 hp.2
  have s1 : mac_step (L ++ p.1 :: p.2 :: c :: R) st L.length = st :=
    mac_step_plain L _ p.1 st h1.2.2.2.1 (fun h => absurd h h1.2.2.2.2.1)
  have s2 : mac_step (L ++ p.1 :: p.2 :: c :: R) st (L.length + 1) = st := by
    have := mac_step_plain (L ++ [p.1]) (c :: R) p.2 st h2.2.2.2.1
      (fun h => absurd h h2.2.2.2.2.1)
    simpa using this
  have e1 : (L ++ [p.1, p.2, c]) ++ R = L ++ p.1 :: p.2 :: c :: R := by simp
  have e2 : (L ++ [p.1, p.2, c]).length = L.length + 1 + 1 + 1 := by simp
  rw [List.range'_succ, List.range'_succ, List.range'_succ, List.foldl_cons, List.foldl_cons,
    List.foldl_cons, s1, s2, mac_step_pair L R p hp c st hc, e1, e2]

/-- The loop over the text of an address that ends the count at six: one store
per pair, in order. -/
theorem mac_fold_text (ps : List (Char × Char)) : ∀ (L post : CStr) (st : mac_state),
    ps ≠ [] → (∀ p ∈ ps, hex_pair p) → st.byte + ps.length = 6 → (∀ c ∈ post, c ≠ ':') →
    (List.range' L.length (mac_text ps ++ '\r' :: post).length).foldl
        (mac_step (L ++ (mac_text ps ++ '\r' :: post))) st
      = { byte := 6, stores := st.stores ++ (ps.map pair_value).enumFrom st.byte } := by
  induction ps with
  | nil => intro L post st h; exact absurd rfl h
  | cons p ps ih =>
    intro L post st _ hhex hbyte hpost
    have hp := hhex p (List.mem_cons_self _ _)
    cases ps with
    | nil =>
      simp only [List.length_cons, List.length_nil] at hbyte
      have h5 : st.byte = 5 := by omega
      have e0 : (mac_text [p] ++ '\r' :: post).length = post.length + 3 := by
        simp [mac_text]
      have e1 : L ++ (mac_text [p] ++ '\r' :: post) = L ++ p.1 :: p.2 :: '\r' :: post := by
        simp [mac_text]
      rw [e0, e1, mac_fold_pair L post p hp '\r' st (Or.inr ⟨h5, rfl⟩) post.length]
      have e2 : (L ++ [p.1, p.2, '\r']) ++ post = (L ++ [p.1, p.2, '\r']) ++ (post ++ []) := by
        simp
      rw [e2, mac_fold_plain post (L ++ [p.1, p.2, '\r']) [] _
        (fun c hc => ⟨hpost c hc, fun _ => by simp [h5]⟩)]
      simp [h5, List.enumFrom]
    | cons q ps =>
      have hhex2 : ∀ r ∈ q :: ps, hex_pair r := fun r hr => hhex r (List.mem_cons_of_mem _ hr)
      have e0 : (mac_text (p :: q :: ps) ++ '\r' :: post).length
          = (mac_text (q :: ps) ++ '\r' :: post).length + 3 := by
        simp [mac_text]
      have e1 : L ++ (mac_text (p :: q :: ps) ++ '\r' :: post)
          = L ++ p.1 :: p.2 :: ':' :: (mac_text (q :: ps) ++ '\r' :: post) := by
        simp [mac_text]
      rw [e0, e1, mac_fold_pair L _ p hp ':' st (Or.inl rfl) _,
        ih (L ++ [p.1, p.2, ':']) post _ (by simp) hhex2
          (by simp only [List.length_cons] at hbyte ⊢; omega) hpost]
      simp [List.enumFrom, List.append_assoc]

theorem mac_stores_length (buf : CStr) (l : List Nat) : ∀ (st : mac_state),
    st.stores.length = st.byte →
    (l.foldl (mac_step buf) st).stores.length = (l.foldl (mac_step buf) st).byte := by
  induction l with
  | nil => intro st h; exact h
  | cons i l ih =>
    intro st h
    rw [List.foldl_cons]
    apply ih
    unfold mac_step
    split
    · exact h
    · split
      · simp [h]
      · exact h

/-! ## C4: the address read by `eswifi_get_mac_addr` -/

/-- C4: after a successful exchange, for every content of the buffer of the form
`pre ++ "XX:XX:XX:XX:XX:XX" ++ "\\r" ++ post` whose only colons are the five
inside the address, `eswifi_get_mac_addr` returns 0 and stores the six bytes to
`addr[0]`, ..., `addr[5]` in the order they appear; and for every content
`other` of the buffer from which fewer than six bytes are recovered it returns
`-EIO`. -/
theorem get_mac_addr_six_bytes (pre post other : CStr) (ps : List (Char × Char))
    (hlen : ps.length = 6) (hhex : ∀ p ∈ ps, hex_pair p) (hpre : ∀ c ∈ pre, c ≠ ':')
    (hpost : ∀ c ∈ post, c ≠ ':') :
    eswifi_get_mac_addr 0 (pre ++ (mac_text ps ++ '\r' :: post))
        = (0, (ps.map pair_value).enum) ∧
      ((eswifi_get_mac_addr 0 other).2.length < 6 →
        (eswifi_get_mac_addr 0 other).1 = - EIO) := by
  constructor
  · have hne : ps ≠ [] := by
      intro h
      rw [h] at hlen
      exact absurd hlen (by decide)
    have hsplit : List.range (pre ++ (mac_text ps ++ '\r' :: post)).length
        = List.range' ([] : CStr).length pre.length
          ++ List.range' pre.length (mac_text ps ++ '\r' :: post).length := by
      rw [List.range_eq_range', List.length_append, List.length_nil]
      have := List.range'_append_1 0 pre.length (mac_text ps ++ '\r' :: post).length
      rw [Nat.zero_add] at this
      rw [this, Nat.add_comm]
    have hnoop := mac_fold_plain pre [] (mac_text ps ++ '\r' :: post)
      { byte := 0, stores := [] } (fun c hc => ⟨hpre c hc, fun _ => by decide⟩)
    rw [List.nil_append] at hnoop
    have hmain := mac_fold_text ps pre post { byte := 0, stores := [] } hne hhex
      (by simp [hlen]) hpost
    simp only [eswifi_get_mac_addr, ne_eq, not_true_eq_false, if_false, hsplit,
      List.foldl_append, hnoop, hmain]
    simp [List.enum]
  · intro h
    have hinv := mac_stores_length other (List.range other.length) { byte := 0, stores := [] } rfl
    simp only [eswifi_get_mac_addr, ne_eq, not_true_eq_false, if_false] at h ⊢
    by_cases h6 : ((List.range other.length).foldl (mac_step other)
        { byte := 0, stores := [] }).byte = 6
    · simp only [h6, not_true_eq_false, if_false] at h
      rw [hinv, h6] at h
      exact absurd h (by decide)
    · simp [h6]

/-- C4 at a response to `Z5\\r`: the six bytes of the address are stored in
order, and a response with three bytes only is refused. -/
theorem get_mac_addr_six_bytes_witness :
    eswifi_get_mac_addr 0 "\r\nC4:7F:51:0a:1B:ff\r\nOK\r\n> ".toList
        = (0, [(0, 196), (1, 127), (2, 81), (3, 10), (4, 27), (5, 255)]) ∧
      (eswifi_get_mac_addr 0 "\r\nC4:7F:51\r\nOK\r\n> ".toList).1 = - EIO :=
  have h := get_mac_addr_six_bytes "\r\n".toList "\nOK\r\n> ".toList
    "\r\nC4:7F:51\r\nOK\r\n> ".toList
    [('C', '4'), ('7', 'F'), ('5', '1'), ('0', 'a'), ('1', 'B'), ('f', 'f')]
    rfl (by decide) (by decide) (by decide)
  ⟨h.1, h.2 (by decide)⟩

/-! ## Lemmas on `__parse_ipv4_address` -/

theorem skip_past_dot_length_le (s : CStr) : (skip_past_dot s).length ≤ s.length := by
  induction s with
  | nil => simp [skip_past_dot]
  | cons c s ih =>
    unfold skip_past_dot
    split
    · exact Nat.le_refl _
    · split
      · simp only [List.length_cons]; omega
      · simp

theorem skip_past_dot_length_lt (s : CStr) (h : deref s ≠ NUL) :
    (skip_past_dot s).length < s.length := by
  cases s with
  | nil => exact absurd rfl h
  | cons c s =>
    have hc : c ≠ NUL := h
    have := skip_past_dot_length_le s
    unfold skip_past_dot
    rw [if_neg hc]
    split
    · simp only [List.length_cons]; omega
    · simp

theorem parse_ipv4_loop_fuel (f1 : Nat) :
    ∀ (f2 : Nat) (str ssid : CStr) (byte : Nat) (stores : List (Nat × Nat)),
      str.length < f1 → str.length < f2 →
      parse_ipv4_loop f1 str ssid byte stores = parse_ipv4_loop f2 str ssid byte stores := by
  induction f1 with
  | zero => intro f2 str ssid byte stores h1; omega
  | succ f1 ih =>
    intro f2 str ssid byte stores h1 h2
    cases f2 with
    | zero => omega
    | succ f2 =>
      unfold parse_ipv4_loop
      by_cases hnul : deref str = NUL
      · rw [if_pos hnul, if_pos hnul]
      · rw [if_neg hnul, if_neg hnul]
        have hskip := skip_past_dot_length_lt str hnul
        have htail : str.tail.length < str.length := by
          cases str with
          | nil => exact absurd rfl hnul
          | cons c s => simp
        have hdrop : ∀ n, (str.drop n).tail.length < str.length := by
          intro n
          have hpos : 0 < str.length := by omega
          rw [List.length_tail, List.length_drop]
          omega
        split
        · split
          · exact ih f2 _ _ _ _ (by have := hdrop (strlen ssid); omega)
              (by have := hdrop (strlen ssid); omega)
          · exact ih f2 _ _ _ _ (by omega) (by omega)
        · exact ih f2 _ _ _ _ (by omega) (by omega)

theorem ipv4_from_nul (str ssid : CStr) (byte : Nat) (stores : List (Nat × Nat))
    (h : deref str = NUL) : ipv4_from str ssid byte stores = stores := by
  unfold ipv4_from parse_ipv4_loop
  rw [if_pos h]

theorem ipv4_from_miss (str ssid : CStr) (stores : List (Nat × Nat)) (h : deref str ≠ NUL)
    (hmiss : strncmp str ssid (strlen ssid) ≠ 0) :
    ipv4_from str ssid UINT_MAX stores = ipv4_from str.tail ssid UINT_MAX stores := by
  unfold ipv4_from
  conv_lhs => unfold parse_ipv4_loop
  rw [if_neg h, if_pos rfl, if_neg hmiss]
  apply parse_ipv4_loop_fuel
  · cases str with
    | nil => exact absurd rfl h
    | cons c s => simp
  · omega

theorem ipv4_from_hit (str ssid : CStr) (stores : List (Nat × Nat)) (h : deref str ≠ NUL)
    (hhit : strncmp str ssid (strlen ssid) = 0) :
    ipv4_from str ssid UINT_MAX stores
      = ipv4_from (str.drop (strlen ssid)).tail ssid 0 stores := by
  unfold ipv4_from
  conv_lhs => unfold parse_ipv4_loop
  rw [if_neg h, if_pos rfl, if_pos hhit]
  apply parse_ipv4_loop_fuel
  · rw [List.length_tail, List.length_drop]
    have hpos : 0 < str.length := by
      cases str with
      | nil => exact absurd rfl h
      | cons c s => simp
    omega
  · omega

theorem ipv4_from_store (str ssid : CStr) (byte : Nat) (stores : List (Nat × Nat))
    (h : deref str ≠ NUL) (hb : byte ≠ UINT_MAX) :
    ipv4_from str ssid byte stores
      = ipv4_from (skip_past_dot str) ssid ((byte + 1) % 2 ^ 32)
          (stores ++ [(byte, (atoi str % 256).toNat)]) := by
  unfold ipv4_from
  conv_lhs => unfold parse_ipv4_loop
  rw [if_neg h, if_neg hb]
  apply parse_ipv4_loop_fuel
  · exact skip_past_dot_length_lt str h
  · omega

/-- Comparing over the length of `p` looks at no byte of the second string
behind `p`. -/
theorem strncmp_pattern_memory (p q : CStr) : ∀ a : CStr,
    strncmp a (p ++ q) p.length = strncmp a p p.length := by
  induction p with
  | nil => intro a; simp [strncmp]
  | cons c p ih =>
    intro a
    simp only [List.cons_append, List.length_cons, strncmp, deref, List.headD_cons,
      List.tail_cons, ih]

/-- The search for the SSID passes over a NUL-free stretch that holds no
occurrence of it; `m` holds the bytes at `ssid`, the SSID `s` and its NUL. -/
theorem ipv4_search (s junk : CStr) (hs : ∀ c ∈ s, c ≠ NUL) :
    ∀ (pre T : CStr) (stores : List (Nat × Nat)), (∀ c ∈ pre, c ≠ NUL) →
      (∀ i, i < pre.length → ¬ s <+: (pre ++ T).drop i) →
      ipv4_from (pre ++ T) (s ++ NUL :: junk) UINT_MAX stores
        = ipv4_from T (s ++ NUL :: junk) UINT_MAX stores := by
  intro pre
  induction pre with
  | nil => intro T stores _ _; rfl
  | cons x pre ih =>
    intro T stores hpre hfirst
    have hx : deref (x :: pre ++ T) ≠ NUL := hpre x (List.mem_cons_self _ _)
    have h0 : ¬ s <+: x :: pre ++ T := hfirst 0 (by simp)
    have hmiss : strncmp (x :: pre ++ T) (s ++ NUL :: junk) (strlen (s ++ NUL :: junk)) ≠ 0 := by
      rw [strlen_before_nul s junk hs, strncmp_pattern_memory]
      exact fun h => h0 ((strncmp_eq_zero_iff s hs _).1 h)
    rw [ipv4_from_miss _ _ _ hx hmiss]
    exact ih T stores (fun c hc => hpre c (List.mem_cons_of_mem _ hc))
      (fun i hi => by
        have := hfirst (i + 1) (by simp; omega)
        simpa using this)

theorem skip_past_dot_digits (ds : List Nat) (hds : ∀ d ∈ ds, d < 10) (V : CStr) :
    skip_past_dot (decimal_text false ds ++ V) = skip_past_dot V := by
  induction ds with
  | nil => simp [decimal_text]
  | cons d ds ih =>
    have hd := digitChar_facts d (hds d (List.mem_cons_self _ _))
    have hdot : Nat.digitChar d ≠ '.' := by
      have h10 := hds d (List.mem_cons_self _ _)
      interval_cases d <;> decide
    have ih2 := ih (fun e he => hds e (List.mem_cons_of_mem _ he))
    simp only [decimal_text, Bool.false_eq_true, if_false, List.nil_append, List.map_cons,
      List.cons_append] at ih2 ⊢
    rw [skip_past_dot, if_neg hd.2.2.2.2.2.1, if_pos hdot, ih2]

/-- One octet: the loop stores its value at `ip[byte]` and moves behind the
next `'.'`. -/
theorem ipv4_octet (ds : List Nat) (hoct : octet ds) (V s : CStr)
    (hV : isdigit (deref V) = false) (byte : Nat) (hb : byte < 4)
    (stores : List (Nat × Nat)) :
    ipv4_from (decimal_text false ds ++ V) s byte stores
      = ipv4_from (skip_past_dot V) s (byte + 1) (stores ++ [(byte, octet_value ds)]) := by
  obtain ⟨hne, hds, hval⟩ := hoct
  have hderef : deref (decimal_text false ds ++ V) ≠ NUL := by
    cases ds with
    | nil => exact absurd rfl hne
    | cons d ds =>
      have := (digitChar_facts d (hds d (List.mem_cons_self _ _))).2.2.2.2.2.1
      simpa [decimal_text, deref] using this
  have hb2 : byte ≠ UINT_MAX := by unfold UINT_MAX; omega
  have hmod : (byte + 1) % 2 ^ 32 = byte + 1 := Nat.mod_eq_of_lt (by omega)
  have hv : ((decimal_value false ds) % 256).toNat = octet_value ds := by
    have : decimal_value false ds = ((octet_value ds : Nat) : Int) := by
      simp [decimal_value, octet_value]
    rw [this]
    omega
  rw [ipv4_from_store _ _ _ _ hderef hb2, atoi_mod_256,
    atoi_value_digits_nonempty ds hds hne V hV, hv, hmod,
    skip_past_dot_digits ds hds V]

/-- Once four octets are stored, every further store goes to an index of four
or more, as long as `byte` cannot wrap around. -/
theorem ipv4_tail (s : CStr) (fuel : Nat) :
    ∀ (str : CStr) (byte : Nat) (stores : List (Nat × Nat)),
      4 ≤ byte → byte + str.length < UINT_MAX →
      ∃ more, parse_ipv4_loop fuel str s byte stores = stores ++ more ∧
        ∀ e ∈ more, 4 ≤ e.1 := by
  induction fuel with
  | zero => intro str byte stores _ _; exact ⟨[], by simp [parse_ipv4_loop]⟩
  | succ fuel ih =>
    intro str byte stores h4 hlen
    unfold parse_ipv4_loop
    by_cases hnul : deref str = NUL
    · rw [if_pos hnul]
      exact ⟨[], by simp⟩
    · have hb : byte ≠ UINT_MAX := by omega
      have hskip := skip_past_dot_length_lt str hnul
      have hmod : (byte + 1) % 2 ^ 32 = byte + 1 :=
        Nat.mod_eq_of_lt (by unfold UINT_MAX at hlen; omega)
      rw [if_neg hnul, if_neg hb, hmod]
      obtain ⟨more, hmore, hidx⟩ := ih (skip_past_dot str) (byte + 1)
        (stores ++ [(byte, (atoi str % 256).toNat)]) (by omega) (by omega)
      refine ⟨(byte, (atoi str % 256).toNat) :: more, ?_, ?_⟩
      · rw [hmore]; simp
      · intro e he
        rcases List.mem_cons.1 he with rfl | he
        · exact h4
        · exact hidx e he

theorem skip_past_dot_no_dot (rest : CStr) (h : ∀ c ∈ rest, c ≠ '.') :
    deref (skip_past_dot rest) = NUL := by
  induction rest with
  | nil => rfl
  | cons c rest ih =>
    have hc := h c (List.mem_cons_self _ _)
    rw [skip_past_dot]
    by_cases h0 : c = NUL
    · rw [if_pos h0]
      exact h0
    · rw [if_neg h0, if_pos hc]
      exact ih (fun d hd => h d (List.mem_cons_of_mem _ hd))

theorem decimal_text_length (ds : List Nat) : (decimal_text false ds).length = ds.length := by
  simp [decimal_text]

/-! ## C5: the address read by `__parse_ipv4_address` -/

/-- C5: for every SSID `s` (held at `ssid` with its NUL, whatever bytes `junk`
lie behind) and every join response `pre ++ s ++ "," ++ "a.b.c.d" ++ rest` (as in
`[JOIN   ] SSID,192.168.2.18,0,0`) in which this is the first occurrence of `s`,
`a`, `b`, `c`, `d` are decimal octets and `rest` does not start with a digit,
`__parse_ipv4_address` returns 0 and its first four stores put `a`, `b`, `c`,
`d` in `ip[0]`, `ip[1]`, `ip[2]`, `ip[3]`; no later store touches these four
cells, and there is no later store at all when `rest` holds no `'.'`. -/
theorem parse_ipv4_address_octets (pre s junk rest : CStr) (a b c d : List Nat)
    (hs : ∀ x ∈ s, x ≠ NUL) (hpre : ∀ x ∈ pre, x ≠ NUL)
    (hfirst : ∀ i, i < pre.length →
      ¬ s <+: (pre ++ (s ++ ',' :: dotted_text a b c d rest)).drop i)
    (ha : octet a) (hb : octet b) (hc : octet c) (hd : octet d)
    (hrest : isdigit (deref rest) = false)
    (hlen : (pre ++ (s ++ ',' :: dotted_text a b c d rest)).length < 2 ^ 32) :
    ∃ more,
      __parse_ipv4_address (pre ++ (s ++ ',' :: dotted_text a b c d rest)) (s ++ NUL :: junk)
        = (0, [(0, octet_value a), (1, octet_value b), (2, octet_value c),
            (3, octet_value d)] ++ more) ∧
      (∀ e ∈ more, 4 ≤ e.1) ∧ ((∀ x ∈ rest, x ≠ '.') → more = []) := by
  have hdotdigit : ∀ W : CStr, isdigit (deref ('.' :: W)) = false := fun W => by
    show isdigit '.' = false
    decide
  have hskip : ∀ W : CStr, skip_past_dot ('.' :: W) = W := fun W => by
    have h1 : ('.' : Char) ≠ NUL := by decide
    simp [skip_past_dot, h1]
  have hT : deref (s ++ ',' :: dotted_text a b c d rest) ≠ NUL := by
    cases s with
    | nil => simp [deref, NUL]
    | cons x s => exact hs x (List.mem_cons_self _ _)
  have hhit : strncmp (s ++ ',' :: dotted_text a b c d rest) (s ++ NUL :: junk)
      (strlen (s ++ NUL :: junk)) = 0 := by
    rw [strlen_before_nul s junk hs, strncmp_pattern_memory]
    exact (strncmp_eq_zero_iff s hs _).2 (List.prefix_append _ _)
  have hafter : ((s ++ ',' :: dotted_text a b c d rest).drop (strlen (s ++ NUL :: junk))).tail
      = dotted_text a b c d rest := by
    rw [strlen_before_nul s junk hs]
    simp
  have hrun : ipv4_from (pre ++ (s ++ ',' :: dotted_text a b c d rest)) (s ++ NUL :: junk)
        UINT_MAX []
      = ipv4_from (skip_past_dot rest) (s ++ NUL :: junk) 4
          [(0, octet_value a), (1, octet_value b), (2, octet_value c), (3, octet_value d)] := by
    rw [ipv4_search s junk hs pre _ [] hpre hfirst, ipv4_from_hit _ _ _ hT hhit, hafter]
    unfold dotted_text
    rw [ipv4_octet a ha _ _ (hdotdigit _) 0 (by decide), hskip,
      ipv4_octet b hb _ _ (hdotdigit _) 1 (by decide), hskip,
      ipv4_octet c hc _ _ (hdotdigit _) 2 (by decide), hskip,
      ipv4_octet d hd _ _ hrest 3 (by decide)]
    rfl
  have hbound : 4 + (skip_past_dot rest).length < UINT_MAX := by
    have h1 := skip_past_dot_length_le rest
    have h2 : 0 < a.length := List.length_pos.2 ha.1
    simp only [dotted_text, List.length_append, List.length_cons, decimal_text_length] at hlen
    unfold UINT_MAX
    omega
  obtain ⟨more, hmore, hidx⟩ := ipv4_tail (s ++ NUL :: junk) ((skip_past_dot rest).length + 1)
    (skip_past_dot rest) 4
    [(0, octet_value a), (1, octet_value b), (2, octet_value c), (3, octet_value d)]
    (Nat.le_refl _) hbound
  refine ⟨more, ?_, hidx, ?_⟩
  · show (0, ipv4_from _ (s ++ NUL :: junk) UINT_MAX []) = _
    rw [hrun]
    unfold ipv4_from
    rw [hmore]
  · intro hnodot
    have hend := ipv4_from_nul (skip_past_dot rest) (s ++ NUL :: junk) 4
      [(0, octet_value a), (1, octet_value b), (2, octet_value c), (3, octet_value d)]
      (skip_past_dot_no_dot rest hnodot)
    unfold ipv4_from at hend
    rw [hend] at hmore
    exact (List.self_eq_append_right.1 hmore)

/-- C5 at the response of the source comment: the octets of `192.168.2.18` are
stored in `ip[0..3]` in order and nothing else is stored. -/
theorem parse_ipv4_address_octets_witness :
    __parse_ipv4_address "[JOIN   ] SSID,192.168.2.18,0,0\r\nOK\r\n> ".toList
        ['S', 'S', 'I', 'D', NUL]
      = (0, [(0, 192), (1, 168), (2, 2), (3, 18)]) := by
  obtain ⟨more, h, _, hnil⟩ :=
    parse_ipv4_address_octets "[JOIN   ] ".toList "SSID".toList [] ",0,0\r\nOK\r\n> ".toList
      [1, 9, 2] [1, 6, 8] [2] [1, 8] (by decide) (by decide) (by decide) (by decide)
      (by decide) (by decide) (by decide) (by decide) (by decide)
  rw [hnil (by decide)] at h
  exact h

/-! ## Lemmas on the SPI bus -/

theorem cmddata_ready_log (w : spi_world) : (eswifi_spi_cmddata_ready w).2.log = w.log := by
  unfold eswifi_spi_cmddata_ready
  split <;> rfl

/-- C7, the code at a failing input: on a transport whose `spi_write` and
`spi_read` both report the fault `-EIO`, `eswifi_spi_write` and
`eswifi_spi_read` return `-EIO`, and `eswifi_spi_request` returns 0. -/
theorem spi_request_drops_fault :
    (eswifi_spi_write faulty_bus ['C', 'D', '\r', Char.ofNat 0x0a] 4).1 = some (- EIO) ∧
      (eswifi_spi_read { faulty_bus with dr := [true] } [] 2).1 = - EIO ∧
      (eswifi_spi_request faulty_bus (some ['C', 'D', '\r', NUL]) 3 [] 0 [NUL, NUL]).status
        = some 0 := by
  decide

/-- The status of `eswifi_spi_request` is 0 whenever it returns, whatever the
transport reports. -/
theorem spi_request_status (w : spi_world) (cmd : Option CStr) (clen : Nat) (rsp : CStr)
    (rlen : Nat) (tmp : CStr) :
    (eswifi_spi_request w cmd clen rsp rlen tmp).status = none ∨
      (eswifi_spi_request w cmd clen rsp rlen tmp).status = some 0 := by
  have hdata : ∀ (w : spi_world) (c : Option CStr),
      (eswifi_spi_request_data w c rsp rlen tmp).status = none ∨
        (eswifi_spi_request_data w c rsp rlen tmp).status = some 0 := by
    intro w c
    unfold eswifi_spi_request_data
    split
    · exact Or.inl rfl
    · simp only []
      split
      · exact Or.inl rfl
      · exact Or.inr rfl
  unfold eswifi_spi_request
  split
  · exact hdata _ _
  · split
    · exact Or.inl rfl
    · simp only []
      split
      · exact Or.inl rfl
      · exact hdata _ _

/-! ## C8: failures of the set-up steps of the connect workflow -/

theorem exchange_failed_iff (r : Int × eswifi_dev) :
    exchange_failed r = true ↔ ¬ exchange_ok (r.1, r.2.buf) := by
  unfold exchange_failed exchange_ok
  by_cases h1 : r.1 = 0 <;> cases h2 : __is_at_ok r.2.buf <;> simp [h1, h2]

/-- C8: when the first failing exchange of the connect workflow is one of the
three set-up steps (SSID-set `C1`, passphrase-set `C2`, security-set `C3`),
because its status is not 0 or its response fails the OK-trailer check, then the
commands issued are the set-up commands up to that step and no later one, the
join command `C0` is not issued, `eswifi_connect` returns `-EIO` after one lock
and one unlock, and the worker adds exactly one event, the connect result
carrying `-EIO`. -/
theorem connect_setup_failure (cap : Nat) (dev : eswifi_dev) (oks : List (Int × CStr))
    (bad : Int × CStr) (rest : List (Int × CStr)) (hk : oks.length < 3)
    (hoks : ∀ r ∈ oks, exchange_ok r) (hbad : ¬ exchange_ok bad)
    (hmod : dev.module = oks ++ bad :: rest) (hreq : dev.req = ESWIFI_REQ_CONNECT) :
    eswifi_connect dev
        = (- EIO, { dev with
            buf := bad.2, module := rest,
            log := dev.log ++ [drv_event.lock]
              ++ ((setup_commands dev.sta).take (oks.length + 1)).map drv_event.request
              ++ [drv_event.unlock] }) ∧
      drv_event.request cmd_join ∉
        ((setup_commands dev.sta).take (oks.length + 1)).map drv_event.request ∧
      eswifi_request_work cap dev
        = some { dev with
            buf := bad.2, module := rest,
            log := dev.log ++ [drv_event.lock]
              ++ ((setup_commands dev.sta).take (oks.length + 1)).map drv_event.request
              ++ [drv_event.unlock] ++ [drv_event.connect_result (- EIO)] } := by
  have hjoin : drv_event.request cmd_join ∉
      ((setup_commands dev.sta).take (oks.length + 1)).map drv_event.request := by
    intro hmem
    rcases List.mem_map.1 hmem with ⟨c, hc, hcj⟩
    have hc2 := List.mem_of_mem_take hc
    injection hcj with hcj
    subst hcj
    simp only [setup_commands, List.mem_cons, List.mem_singleton, List.not_mem_nil,
      or_false] at hc2
    rcases hc2 with h | h | h <;>
      simp [cmd_join, cmd_set_ssid, cmd_set_pass, cmd_set_security] at h
  have hconn : eswifi_connect dev
      = (- EIO, { dev with
          buf := bad.2, module := rest,
          log := dev.log ++ [drv_event.lock]
            ++ ((setup_commands dev.sta).take (oks.length + 1)).map drv_event.request
            ++ [drv_event.unlock] }) := by
    rcases oks with _ | ⟨a, _ | ⟨b, _ | ⟨c, t⟩⟩⟩
    · have hf : exchange_failed (eswifi_request (eswifi_lock dev) (cmd_set_ssid dev.sta))
          = true := by
        rw [exchange_failed_iff]
        simpa [eswifi_request, eswifi_lock, hmod] using hbad
      unfold eswifi_connect
      simp only [eswifi_lock] at hf ⊢
      rw [if_pos hf]
      simp [eswifi_request, eswifi_unlock, hmod, setup_commands]
    · have ha := hoks a (List.mem_cons_self _ _)
      have h1 : exchange_failed (eswifi_request (eswifi_lock dev) (cmd_set_ssid dev.sta))
          = false := by
        rw [← Bool.not_eq_true, exchange_failed_iff, not_not]
        simpa [eswifi_request, eswifi_lock, hmod] using ha
      have h2 : exchange_failed (eswifi_request
          (eswifi_request (eswifi_lock dev) (cmd_set_ssid dev.sta)).2 (cmd_set_pass dev.sta))
          = true := by
        rw [exchange_failed_iff]
        simpa [eswifi_request, eswifi_lock, hmod] using hbad
      unfold eswifi_connect
      simp only [eswifi_lock] at h1 h2 ⊢
      simp only [eswifi_request] at h1 h2 ⊢
      rw [if_neg (by simpa using h1), if_pos h2]
      simp [eswifi_unlock, hmod, setup_commands]
    · have ha := hoks a (List.mem_cons_self _ _)
      have hb := hoks b (List.mem_cons_of_mem _ (List.mem_cons_self _ _))
      have h1 : exchange_failed (eswifi_request (eswifi_lock dev) (cmd_set_ssid dev.sta))
          = false := by
        rw [← Bool.not_eq_true, exchange_failed_iff, not_not]
        simpa [eswifi_request, eswifi_lock, hmod] using ha
      have h2 : exchange_failed (eswifi_request
          (eswifi_request (eswifi_lock dev) (cmd_set_ssid dev.sta)).2 (cmd_set_pass dev.sta))
          = false := by
        rw [← Bool.not_eq_true, exchange_failed_iff, not_not]
        simpa [eswifi_request, eswifi_lock, hmod] using hb
      have h3 : exchange_failed (eswifi_request (eswifi_request
          (eswifi_request (eswifi_lock dev) (cmd_set_ssid dev.sta)).2 (cmd_set_pass dev.sta)).2
          (cmd_set_security dev.sta)) = true := by
        rw [exchange_failed_iff]
        simpa [eswifi_request, eswifi_lock, hmod] using hbad
      unfold eswifi_connect
      simp only [eswifi_lock] at h1 h2 h3 ⊢
      simp only [eswifi_request] at h1 h2 h3 ⊢
      rw [if_neg (by simpa using h1), if_neg (by simpa using h2), if_pos h3]
      simp [eswifi_unlock, hmod, setup_commands]
    · simp only [List.length_cons] at hk
      omega
  refine ⟨hconn, hjoin, ?_⟩
  conv_lhs =>
    unfold eswifi_request_work
    rw [hreq]
  simp only [hconn]

/-- C8 at the case of the specification: the passphrase-set step fails the OK
check, the join command is not issued and the connect result `-EIO` is the
only event raised. -/
theorem connect_setup_failure_witness :
    eswifi_request_work 32
        (station ESWIFI_REQ_CONNECT [(0, ok_response), (0, error_response), (0, ok_response)])
      = some { station ESWIFI_REQ_CONNECT [(0, ok_response)] with
          buf := error_response
          log := [drv_event.lock,
            drv_event.request ['C', '1', '=', 'M', 'y', 'N', 'e', 't', '\r'],
            drv_event.request ['C', '2', '=', 'p', 'w', '\r'],
            drv_event.unlock, drv_event.connect_result (- EIO)] } :=
  (connect_setup_failure 32
    (station ESWIFI_REQ_CONNECT [(0, ok_response), (0, error_response), (0, ok_response)])
    [(0, ok_response)] (0, error_response) [(0, ok_response)] (by decide) (by decide)
    (by decide) rfl rfl).2.2

/-! ## C9: a join response without an address -/

/-- The parser `__parse_ipv4_address` returns 0 for every response. -/
theorem parse_ipv4_address_status (str ssid : CStr) : (__parse_ipv4_address str ssid).1 = 0 :=
  rfl

/-- C9, the code at a failing input: every exchange succeeds and the join
response is the bare `OK` trailer, which does not hold the SSID; the parser
stores no octet and returns 0, and `eswifi_connect` registers an address and
returns 0. -/
theorem connect_accepts_malformed_join :
    __parse_ipv4_address ok_response ['M', 'y', 'N', 'e', 't', NUL] = (0, []) ∧
      eswifi_connect (station ESWIFI_REQ_CONNECT
          [(0, ok_response), (0, ok_response), (0, ok_response), (0, ok_response)])
        = (0, { station ESWIFI_REQ_CONNECT [] with
            buf := ok_response
            log := [drv_event.lock,
              drv_event.request ['C', '1', '=', 'M', 'y', 'N', 'e', 't', '\r'],
              drv_event.request ['C', '2', '=', 'p', 'w', '\r'],
              drv_event.request ['C', '3', '=', '4', '\r'],
              drv_event.request ['C', '0', '\r'],
              drv_event.ipv4_addr_add [], drv_event.unlock] }) := by
  decide

/-! ## Lemmas on `eswifi_scan` -/

theorem scan_skip_line_length (s : CStr) : ∀ rest, scan_skip_line s = some rest →
    rest.length ≤ s.length ∧ rest ≠ [] := by
  induction s with
  | nil => intro rest h; simp [scan_skip_line] at h
  | cons c s ih =>
    intro rest h
    unfold scan_skip_line at h
    split at h
    · simp only [Option.some.injEq] at h
      subst h
      simp
    · have := ih rest h
      simp only [List.length_cons]
      exact ⟨by omega, this.2⟩

theorem scan_loop_fuel (cap : Nat) (f1 : Nat) :
    ∀ (f2 : Nat) (buf : CStr) (log : List drv_event), buf.length < f1 → buf.length < f2 →
      scan_loop cap f1 buf log = scan_loop cap f2 buf log := by
  induction f1 with
  | zero => intro f2 buf log h1; omega
  | succ f1 ih =>
    intro f2 buf log h1 h2
    cases f2 with
    | zero => omega
    | succ f2 =>
      cases buf with
      | nil => rfl
      | cons c s =>
        simp only [List.length_cons] at h1 h2
        unfold scan_loop
        split
        · cases hskip : scan_skip_line (c :: s) with
          | none => rfl
          | some rest =>
            have hlen := scan_skip_line_length (c :: s) rest hskip
            have htail : rest.tail.length < (c :: s).length := by
              cases rest with
              | nil => exact absurd rfl hlen.2
              | cons x r =>
                have := hlen.1
                simp only [List.length_cons, List.tail_cons] at this ⊢
                omega
            simp only [List.length_cons] at htail
            exact ih f2 _ _ (by omega) (by omega)
        · exact ih f2 _ _ (by omega) (by omega)

theorem scan_from_other (cap : Nat) (c : Char) (s : CStr) (log : List drv_event)
    (hc : c ≠ '#') : scan_from cap (c :: s) log = scan_from cap s log := by
  unfold scan_from
  rw [List.length_cons]
  conv_lhs => unfold scan_loop
  rw [if_neg hc]

theorem scan_from_marker (cap : Nat) (s rest : CStr) (log : List drv_event)
    (hskip : scan_skip_line ('#' :: s) = some rest) :
    scan_from cap ('#' :: s) log
      = scan_from cap rest.tail
          (log ++ [drv_event.scan_cb (__parse_scan_res ('#' :: s) (zeroed_scan_result cap)),
            drv_event.yield]) := by
  have hlen := scan_skip_line_length ('#' :: s) rest hskip
  unfold scan_from
  rw [List.length_cons]
  conv_lhs => unfold scan_loop
  rw [if_pos rfl]
  simp only [hskip]
  apply scan_loop_fuel
  · cases rest with
    | nil => exact absurd rfl hlen.2
    | cons x r =>
      have := hlen.1
      simp only [List.length_cons, List.tail_cons] at this ⊢
      omega
  · omega

theorem scan_skip_line_newline (l r : CStr) (hl : '\n' ∉ l) :
    scan_skip_line (l ++ '\n' :: r) = some ('\n' :: r) := by
  induction l with
  | nil => simp [scan_skip_line]
  | cons c l ih =>
    have hc : c ≠ '\n' := fun h => hl (by simp [h])
    have hl2 : '\n' ∉ l := fun h => hl (List.mem_cons_of_mem _ h)
    simp [scan_skip_line, hc, ih hl2]

/-- The loop over one line ended by a newline: one call of the callback when the
line holds a `'#'`, with the record parsed from the first `'#'` on. -/
theorem scan_from_line (cap : Nat) (l r : CStr) (hl : '\n' ∉ l) :
    ∀ log : List drv_event,
      scan_from cap (l ++ '\n' :: r) log
        = scan_from cap r (log ++ callback_events
            (if '#' ∈ l then
              [__parse_scan_res (l.dropWhile (fun c => c ≠ '#') ++ '\n' :: r)
                (zeroed_scan_result cap)]
            else [])) := by
  induction l with
  | nil =>
    intro log
    have h : ('\n' : Char) ≠ '#' := by decide
    simp [scan_from_other cap '\n' r log h, callback_events]
  | cons c l ih =>
    intro log
    have hl2 : '\n' ∉ l := fun h => hl (List.mem_cons_of_mem _ h)
    by_cases hc : c = '#'
    · subst hc
      have hskip : scan_skip_line ('#' :: (l ++ '\n' :: r)) = some ('\n' :: r) :=
        scan_skip_line_newline ('#' :: l) r hl
      rw [List.cons_append, scan_from_marker cap (l ++ '\n' :: r) ('\n' :: r) log hskip]
      simp [callback_events, List.dropWhile]
    · rw [List.cons_append, scan_from_other cap c _ log hc, ih hl2 log]
      have hmem : '#' ∈ c :: l ↔ '#' ∈ l := by
        simp [List.mem_cons, Ne.symm hc]
      simp only [hmem, List.dropWhile, ne_eq, hc, not_false_eq_true, decide_True]

theorem callback_events_append (a b : List wifi_scan_result) :
    callback_events (a ++ b) = callback_events a ++ callback_events b := by
  induction a with
  | nil => rfl
  | cons r a ih => simp [callback_events, ih]

theorem scan_skip_line_none (t : CStr) (h : '\n' ∉ t) : scan_skip_line t = none := by
  induction t with
  | nil => rfl
  | cons c t ih =>
    have hc : c ≠ '\n' := fun hc => h (by simp [hc])
    simp [scan_skip_line, hc, ih (fun hm => h (List.mem_cons_of_mem _ hm))]

theorem scan_from_no_marker (cap : Nat) (t u : CStr) (log : List drv_event) (h : '#' ∉ t) :
    scan_from cap (t ++ u) log = scan_from cap u log := by
  induction t with
  | nil => rfl
  | cons c t ih =>
    have hc : c ≠ '#' := fun hc => h (by simp [hc])
    rw [List.cons_append, scan_from_other cap c _ log hc]
    exact ih (fun hm => h (List.mem_cons_of_mem _ hm))

theorem scan_from_lines_then (cap : Nat) (ls : List CStr) (tail : CStr)
    (hlines : ∀ l ∈ ls, '\n' ∉ l) :
    ∀ log : List drv_event,
      scan_from cap (join_lines ls tail) log
        = scan_from cap tail (log ++ callback_events (expected_records cap ls tail)) := by
  induction ls with
  | nil =>
    intro log
    simp [join_lines, expected_records, callback_events]
  | cons l ls ih =>
    intro log
    have hl := hlines l (List.mem_cons_self _ _)
    have hls : ∀ m ∈ ls, '\n' ∉ m := fun m hm => hlines m (List.mem_cons_of_mem _ hm)
    rw [join_lines, scan_from_line cap l _ hl log, ih hls]
    simp only [expected_records, callback_events_append, List.append_assoc]

/-- The loop of `eswifi_scan` leaves the buffer whenever the last `'#'` it meets
has no newline behind it: after any lines ended by a newline, the advance
`while (eswifi->buf[i] != '\n') i++;` started at that `'#'` reaches the end of
the buffer and goes on reading behind it. -/
theorem scan_unterminated_line (cap : Nat) (ls : List CStr) (t1 t2 : CStr)
    (log : List drv_event) (hlines : ∀ l ∈ ls, '\n' ∉ l) (h1 : '#' ∉ t1) (h2 : '\n' ∉ t2) :
    scan_from cap (join_lines ls (t1 ++ '#' :: t2)) log = none := by
  have hskip : scan_skip_line ('#' :: t2) = none :=
    scan_skip_line_none ('#' :: t2) (by
      intro h
      rcases List.mem_cons.1 h with h | h
      · exact absurd h (by decide)
      · exact h2 h)
  rw [scan_from_lines_then cap ls _ hlines, scan_from_no_marker cap t1 _ _ h1]
  unfold scan_from
  rw [List.length_cons]
  unfold scan_loop
  rw [if_pos rfl]
  simp only [hskip]

/-- C11, the code at a failing input: the buffer holds a scan-result line that
starts with `'#'` and is cut before its newline; the advance to the end of the
line runs to the end of the buffer without finding `'\\n'` and reads
`eswifi->buf` at the index `sizeof(eswifi->buf)` (the result `none`), although
the `for` loop around it tests `i < sizeof(eswifi->buf)`. -/
theorem scan_reads_past_buffer :
    scan_skip_line "#001,\"MyNet\",AA:BB:CC:DD:EE:FF,-60,54.0,Infrastructure,Open,2.4GHz,6".toList
        = none ∧
      eswifi_scan 32 (station ESWIFI_REQ_SCAN
        [(0, "\r\n#001,\"MyNet\",AA:BB:CC:DD:EE:FF,-60,54.0,Infrastructure,Open,2.4GHz,6".toList)])
        = none := by
  decide

/-! ## Lemmas on commas inside the SSID -/

theorem drop_last_element (x : Char) (l : CStr) : ∀ c ∈ (x :: l).drop l.length,
    (c = x ∧ l = []) ∨ l.getLast? = some c := by
  induction l generalizing x with
  | nil =>
    intro c hc
    simp only [List.length_nil, List.drop_zero, List.mem_singleton] at hc
    exact Or.inl ⟨hc, rfl⟩
  | cons y l ih =>
    intro c hc
    simp only [List.length_cons, List.drop_succ_cons] at hc
    right
    rcases ih y c hc with ⟨h1, h2⟩ | h
    · subst h1 h2
      rfl
    · cases l with
      | nil => simp at h
      | cons z l => rw [List.getLast?_cons_cons]; exact h

theorem drop_quoted_last (name r : CStr) (hnul : ∀ c ∈ name, c ≠ NUL)
    (hlast : name.getLast? ≠ some ',') :
    ∃ g, comma_free g ∧ ('"' :: (name ++ '"' :: r)).drop name.length = g ++ r := by
  refine ⟨('"' :: name).drop name.length ++ ['"'], ?_, ?_⟩
  · intro c hc
    rcases List.mem_append.1 hc with hc | hc
    · constructor
      · rcases List.mem_cons.1 (List.mem_of_mem_drop hc) with rfl | hc2
        · decide
        · exact hnul c hc2
      · rcases drop_last_element '"' name c hc with ⟨h1, _⟩ | h
        · subst h1
          decide
        · intro hcomma
          subst hcomma
          exact hlast h
    · rw [List.mem_singleton] at hc
      subst hc
      decide
  · have h1 : '"' :: (name ++ '"' :: r) = ('"' :: name) ++ '"' :: r := rfl
    rw [h1, List.drop_append_of_le_length (by simp)]
    simp

/-- The record of a scan-result line whose SSID may hold commas, as long as its
last byte is none: the commas inside the quotes are skipped and the record is
that of a line with a comma-free SSID, the RSSI and the channel converted to
the types of their fields. -/
theorem parse_scan_res_comma_inside (cap : Nat) (idx name mac bitrate mode sec band rest : CStr)
    (neg : Bool) (rs cs : List Nat)
    (hidx : comma_free idx) (hnul : ∀ c ∈ name, c ≠ NUL) (hquote : ∀ c ∈ name, c ≠ '"')
    (hlast : name.getLast? ≠ some ',')
    (hfit : name.length < cap) (hmac : comma_free mac) (hrs : ∀ d ∈ rs, d < 10)
    (hbitrate : comma_free bitrate) (hmode : comma_free mode) (hsec : comma_free sec)
    (hband : comma_free band) (hcs : ∀ d ∈ cs, d < 10) (hcs0 : cs ≠ [])
    (hrest : isdigit (deref rest) = false) :
    __parse_scan_res
        (scan_line idx name mac (decimal_text neg rs) bitrate mode sec band
          (decimal_text false cs) rest)
        (zeroed_scan_result cap)
      = { ssid := name ++ List.replicate (cap - name.length) NUL
          ssid_length := name.length
          channel := as_u8 (decimal_value false cs)
          security :=
            if open_text <+: sec then WIFI_SECURITY_TYPE_NONE else WIFI_SECURITY_TYPE_PSK
          rssi := as_s8 (decimal_value neg rs) } := by
  have hidx2 : comma_free ('#' :: idx) := by
    intro c hc
    rcases List.mem_cons.1 hc with rfl | hc
    · decide
    · exact hidx c hc
  have hname2 : ∀ c ∈ name, c ≠ NUL ∧ c ≠ '"' := fun c hc => ⟨hnul c hc, hquote c hc⟩
  have hname3 : ∀ c ∈ name, c ≠ NUL := hnul
  have hrssi := decimal_text_comma_free neg rs hrs
  have hchan := decimal_text_comma_free false cs hcs
  have hq : ∀ t : CStr, deref ('"' :: t) ≠ NUL := fun t => by simp [deref, NUL]
  have hchan0 : deref (decimal_text false cs ++ rest) ≠ NUL := by
    cases cs with
    | nil => exact absurd rfl hcs0
    | cons d cs =>
      have := (digitChar_facts d (hcs d (List.mem_cons_self _ _))).2.2.2.2.2.1
      simpa [decimal_text, deref] using this
  show scan_res_from _ 0 _ = _
  unfold scan_line
  rw [← List.cons_append, scan_res_from_skip _ _ hidx2, scan_res_from_ssid _ (hq _)]
  simp only [zeroed_scan_result, parse_ssid_quoted name _ _ hname2,
    strlen_before_nul name _ hname3]
  rw [ssid_array_after name cap hfit]
  obtain ⟨g, hg, hdrop⟩ := drop_quoted_last name
    (',' :: (mac ++ ',' :: (decimal_text neg rs ++ ',' :: (bitrate ++ ',' :: (mode ++ ',' ::
      (sec ++ ',' :: (band ++ ',' :: (decimal_text false cs ++ rest)))))))) hnul hlast
  rw [hdrop, scan_res_from_skip _ _ hg,
    scan_res_from_plain _ (deref_field_comma _ _ hmac) 1 _ (by decide) (by decide) (by decide)
      (by decide),
    scan_res_from_skip _ _ hmac,
    scan_res_from_rssi _ (deref_field_comma _ _ hrssi),
    as_s8_atoi_comma neg rs hrs, scan_res_from_skip _ _ hrssi,
    scan_res_from_plain _ (deref_field_comma _ _ hbitrate) 3 _ (by decide) (by decide)
      (by decide) (by decide),
    scan_res_from_skip _ _ hbitrate,
    scan_res_from_plain _ (deref_field_comma _ _ hmode) 4 _ (by decide) (by decide)
      (by decide) (by decide),
    scan_res_from_skip _ _ hmode,
    scan_res_from_security _ (deref_field_comma _ _ hsec),
    scan_res_from_skip _ _ hsec,
    scan_res_from_plain _ (deref_field_comma _ _ hband) 6 _ (by decide) (by decide)
      (by decide) (by decide),
    scan_res_from_skip _ _ hband,
    scan_res_from_channel _ hchan0,
    as_u8_atoi_digits cs hcs hcs0 rest hrest]
  unfold scan_res_from
  rw [scan_res_from_done _ _ _ _ (by decide)]
  by_cases hopen : open_text <+: sec
  · simp [hopen, (strncmp_open_field sec _).2 hopen]
  · have := mt (strncmp_open_field sec (band ++ ',' :: (decimal_text false cs ++ rest))).1 hopen
    simp [hopen, this]


/-! ## C18: commas inside the quoted SSID -/

/-- C18, the code at a failing input: `str += res->ssid_length` starts from the
opening quote and so stops on the last byte of the SSID.  A comma inside the SSID
before its last byte is skipped (first line: the record is right), but a comma
that ends the SSID is counted as a field separator (second line): the RSSI is
then read from the MAC field, the security from the mode field and the channel
from the band field, instead of `-60`, open and `6`. -/
theorem parse_scan_res_counts_last_comma :
    __parse_scan_res
        "#001,\"My,Net\",AA:BB:CC:DD:EE:FF,-60,54.0,Infrastructure,Open,2.4GHz,6".toList
        (zeroed_scan_result 8)
      = { ssid := ['M', 'y', ',', 'N', 'e', 't', NUL, NUL], ssid_length := 6, channel := 6,
          security := WIFI_SECURITY_TYPE_NONE, rssi := -60 } ∧
    __parse_scan_res
        "#001,\"MyNet,\",AA:BB:CC:DD:EE:FF,-60,54.0,Infrastructure,Open,2.4GHz,6".toList
        (zeroed_scan_result 8)
      = { ssid := ['M', 'y', 'N', 'e', 't', ',', NUL, NUL], ssid_length := 6, channel := 2,
          security := WIFI_SECURITY_TYPE_PSK, rssi := 0 } := by
  decide

/-! ## C19: the stores of `__parse_ipv4_address` -/

/-- C19, the code at a failing input: the response holds two more `'.'` behind
the address; `ip[byte++] = atoi(str)` has no test on `byte`, so after the four
octets the function stores to `ip[4]` and `ip[5]`, outside the `uint8_t ip[4]`
of its caller, and returns 0. -/
theorem parse_ipv4_address_stores_past_end :
    __parse_ipv4_address "[JOIN   ] SSID,192.168.2.18,0,0\r\nv1.2.3\r\nOK\r\n> ".toList
        ['S', 'S', 'I', 'D', NUL]
      = (0, [(0, 192), (1, 168), (2, 2), (3, 18), (4, 2), (5, 3)]) := by
  decide

/-! ## C20: the stores of `eswifi_get_mac_addr` -/

/-- C20, the code at a failing input: the buffer holds a seventh `':'` behind
the address (here in bytes left behind the response); `addr[byte++] = ...` has
no test on `byte`, so the function stores to `addr[6]`, outside the `uint8_t
addr[6]` of its caller, before the test `byte != 6` makes it return `-EIO`. -/
theorem get_mac_addr_stores_past_end :
    eswifi_get_mac_addr 0 "\r\nC4:7F:51:0a:1B:ff\r\nOK\r\n> 12:34".toList
      = (- EIO, [(0, 196), (1, 127), (2, 81), (3, 10), (4, 27), (5, 255), (6, 18)]) := by
  decide

/-! ## C15: `eswifi_spi_read` as a non-blocking probe -/

theorem cmddata_ready_rd (w : spi_world) : (eswifi_spi_cmddata_ready w).2.rd = w.rd := by
  unfold eswifi_spi_cmddata_ready
  split <;> rfl

/-- C15: when the sample of the ready pin taken by `eswifi_spi_read` is not
asserted, the function returns 0, leaves the bytes at `data` as they are and
does not call `spi_read` (the log of the transport and the script of its reads
are unchanged); when it is asserted, the function calls `spi_read` once, with
`len = dlen / 2`, and returns `dlen` when the primitive returns 0 and the status
of the primitive otherwise. -/
theorem spi_read_probe (w : spi_world) (data : CStr) (dlen : Nat) :
    ((eswifi_spi_cmddata_ready w).1 = false →
        (eswifi_spi_read w data dlen).1 = 0 ∧ (eswifi_spi_read w data dlen).2.1 = data ∧
          (eswifi_spi_read w data dlen).2.2.log = w.log ∧
          (eswifi_spi_read w data dlen).2.2.rd = w.rd) ∧
      ((eswifi_spi_cmddata_ready w).1 = true →
        (eswifi_spi_read w data dlen).2.2.log = w.log ++ [bus_event.spi_read (dlen / 2)] ∧
          (eswifi_spi_read w data dlen).2.2.rd = w.rd.tail ∧
          ((w.rd.headD (0, [])).1 = 0 → (eswifi_spi_read w data dlen).1 = (dlen : Int)) ∧
          ((w.rd.headD (0, [])).1 ≠ 0 →
            (eswifi_spi_read w data dlen).1 = (w.rd.headD (0, [])).1)) := by
  constructor
  · intro h
    unfold eswifi_spi_read
    simp only []
    rw [if_pos h]
    exact ⟨rfl, rfl, cmddata_ready_log w, cmddata_ready_rd w⟩
  · intro h
    have hne : ¬ (eswifi_spi_cmddata_ready w).1 = false := by simp [h]
    unfold eswifi_spi_read
    simp only []
    rw [if_neg hne, cmddata_ready_log w, cmddata_ready_rd w]
    refine ⟨rfl, rfl, ?_, ?_⟩
    · intro h0
      simp only []
      rw [if_neg (not_not.2 h0)]
    · intro h0
      simp only []
      rw [if_pos h0]

/-- C15 at three transports: the pin deasserted (nothing is read), the pin
asserted with a primitive that succeeds (the count 8 is returned) and with a
primitive that fails with `-EIO` (`-EIO` is returned). -/
theorem spi_read_probe_witness :
    ((eswifi_spi_read ready_bus ['x', 'y'] 8).1 = 0 ∧
        (eswifi_spi_read ready_bus ['x', 'y'] 8).2.1 = ['x', 'y'] ∧
        (eswifi_spi_read ready_bus ['x', 'y'] 8).2.2.log = [] ∧
        (eswifi_spi_read ready_bus ['x', 'y'] 8).2.2.rd = ready_bus.rd) ∧
      (eswifi_spi_read { ready_bus with dr := [true] } ['x', 'y'] 8).1 = 8 ∧
      (eswifi_spi_read { faulty_bus with dr := [true] } ['x', 'y'] 8).1 = - EIO :=
  ⟨(spi_read_probe ready_bus ['x', 'y'] 8).1 (by decide),
    ((spi_read_probe { ready_bus with dr := [true] } ['x', 'y'] 8).2 (by decide)).2.2.1
      (by decide),
    ((spi_read_probe { faulty_bus with dr := [true] } ['x', 'y'] 8).2 (by decide)).2.2.2
      (by decide)⟩

/-! ## C16: the drain loop of `eswifi_spi_request` -/

theorem wait_samples_replicate (a : Nat) (r : List Bool) (final : Bool) :
    wait_samples (List.replicate a false ++ true :: r) final = some r := by
  induction a with
  | zero => simp [wait_samples]
  | succ a ih => simpa [List.replicate_succ, wait_samples] using ih

theorem wait_replicate (a : Nat) (r : List Bool) (final : Bool) (wr : List Int)
    (rd : List (Int × CStr)) (log : List bus_event) :
    eswifi_spi_wait_cmddata_ready
        { dr := List.replicate a false ++ true :: r, dr_final := final, wr := wr, rd := rd,
          log := log }
      = (some 0, { dr := r, dr_final := final, wr := wr, rd := rd, log := log }) := by
  simp [eswifi_spi_wait_cmddata_ready, wait_samples_replicate]

theorem drain_samples_length (probes : List Bool) :
    (drain_samples probes).length = 2 * probes.length := by
  induction probes with
  | nil => rfl
  | cons p ps ih => simp only [drain_samples, List.length_cons, ih]; omega

theorem after_read_length (tmp bytes : CStr) (h : tmp.length = 2) :
    (after_read tmp bytes 2).length = 2 := by
  have h1 : (bytes.take 2).length ≤ 2 := by simp
  simp only [after_read, List.length_append, List.length_drop, h]
  omega

/-- The drain loop over `probes.length` iterations: it ends at the first
deasserted sample of its condition, has called `spi_read` with `len = 1` once
for each asserted probe, and has written to `tmp` only. -/
theorem drain_loop_iterations (rest : List Bool) (final : Bool) (wr : List Int) :
    ∀ (probes : List Bool) (rd : List (Int × CStr)) (log : List bus_event) (tmp : CStr)
      (fuel : Nat), (drain_samples probes ++ false :: rest).length < fuel → tmp.length = 2 →
      ∃ tmp1, tmp1.length = 2 ∧
        drain_loop fuel
            { dr := drain_samples probes ++ false :: rest, dr_final := final, wr := wr,
              rd := rd, log := log } tmp
          = some ({ dr := rest, dr_final := final, wr := wr,
                    rd := rd.drop (probes.count true),
                    log := log ++ List.replicate (probes.count true) (bus_event.spi_read 1) },
                  tmp1) := by
  intro probes
  induction probes with
  | nil =>
    intro rd log tmp fuel hfuel htmp
    cases fuel with
    | zero => omega
    | succ fuel =>
      refine ⟨tmp, htmp, ?_⟩
      simp [drain_samples, drain_loop, eswifi_spi_cmddata_ready]
  | cons p ps ih =>
    intro rd log tmp fuel hfuel htmp
    cases fuel with
    | zero => omega
    | succ fuel =>
      have hfuel2 : (drain_samples ps ++ false :: rest).length < fuel := by
        simp only [drain_samples, List.cons_append, List.length_cons] at hfuel
        omega
      cases p with
      | false =>
        obtain ⟨tmp1, h2, hrun⟩ := ih rd log tmp fuel hfuel2 htmp
        refine ⟨tmp1, h2, ?_⟩
        simp only [drain_samples, List.cons_append, drain_loop, eswifi_spi_cmddata_ready,
          eswifi_spi_read]
        simpa using hrun
      | true =>
        obtain ⟨tmp1, h2, hrun⟩ := ih rd.tail (log ++ [bus_event.spi_read 1])
          (after_read tmp (rd.headD (0, [])).2 2) fuel hfuel2 (after_read_length _ _ htmp)
        refine ⟨tmp1, h2, ?_⟩
        simp only [drain_samples, List.cons_append, drain_loop, eswifi_spi_cmddata_ready,
          eswifi_spi_read]
        simp only [after_read] at hrun
        simpa [List.replicate_succ, List.drop_one, Nat.add_comm] using hrun

theorem reads_of_append (l1 l2 : List bus_event) :
    reads_of (l1 ++ l2) = reads_of l1 ++ reads_of l2 := by
  induction l1 with
  | nil => rfl
  | cons e l1 ih =>
    cases e with
    | cs b => simpa [reads_of] using ih
    | spi_write d => simpa [reads_of] using ih
    | spi_read n => simp [reads_of, ih]

theorem reads_of_replicate (n len : Nat) :
    reads_of (List.replicate n (bus_event.spi_read len)) = List.replicate n len := by
  induction n with
  | zero => rfl
  | succ n ih => simp [List.replicate_succ, reads_of, ih]

/-- The data phase on a transport that lets it run to its end. -/
theorem request_data_run (cmd : Option CStr) (a3 : Nat) (p0 : Bool) (probes rest : List Bool)
    (final : Bool) (wr : List Int) (rd : List (Int × CStr)) (log : List bus_event)
    (rsp : CStr) (rlen : Nat) (tmp : CStr) (htmp : tmp.length = 2) :
    ∃ tmp1 rd1 log1, tmp1.length = 2 ∧
      reads_of log1 = reads_of log ++ (if p0 then [rlen / 2] else [])
        ++ List.replicate (probes.count true) 1 ∧
      eswifi_spi_request_data
          { dr := List.replicate a3 false ++ true :: p0 :: (drain_samples probes ++ false :: rest),
            dr_final := final, wr := wr, rd := rd, log := log } cmd rsp rlen tmp
        = { status := some 0, cmd := cmd,
            rsp_read := if p0 then after_read rsp (rd.headD (0, [])).2 rlen else rsp,
            rsp := if p0 then after_read rsp (rd.headD (0, [])).2 rlen else rsp,
            tmp := tmp1,
            world := { dr := rest, dr_final := final, wr := wr, rd := rd1, log := log1 } } := by
  cases p0 with
  | false =>
    obtain ⟨tmp1, h2, hrun⟩ := drain_loop_iterations rest final wr probes rd
      (log ++ [bus_event.cs true]) tmp ((drain_samples probes ++ false :: rest).length + 1)
      (Nat.lt_succ_self _) htmp
    refine ⟨tmp1, rd.drop (probes.count true),
      log ++ [bus_event.cs true] ++ List.replicate (probes.count true) (bus_event.spi_read 1)
        ++ [bus_event.cs false], h2, ?_, ?_⟩
    rotate_left
    · unfold eswifi_spi_request_data
      rw [wait_replicate]
      simp only [eswifi_spi_cs, eswifi_spi_read, eswifi_spi_cmddata_ready, if_true, hrun]
      simp only [Bool.false_eq_true, if_false]
    · simp [reads_of_append, reads_of, reads_of_replicate]
  | true =>
    obtain ⟨tmp1, h2, hrun⟩ := drain_loop_iterations rest final wr probes rd.tail
      (log ++ [bus_event.cs true] ++ [bus_event.spi_read (rlen / 2)]) tmp
      ((drain_samples probes ++ false :: rest).length + 1) (Nat.lt_succ_self _) htmp
    refine ⟨tmp1, rd.tail.drop (probes.count true),
      log ++ [bus_event.cs true] ++ [bus_event.spi_read (rlen / 2)]
        ++ List.replicate (probes.count true) (bus_event.spi_read 1) ++ [bus_event.cs false],
      h2, ?_, ?_⟩
    rotate_left
    · unfold eswifi_spi_request_data
      rw [wait_replicate]
      simp only [eswifi_spi_cs, eswifi_spi_read, eswifi_spi_cmddata_ready,
        Bool.true_eq_false, if_false, hrun]
      simp only [if_true, after_read]
    · simp [reads_of_append, reads_of, reads_of_replicate]

/-- C16: for every number of iterations of the drain loop (one for each element
of `probes`, with any number of polls in the waits before), `eswifi_spi_request`
returns 0 and the response buffer at the end holds exactly the bytes it held
right after the read of the response, which depend on that read only: each
drain read is a `spi_read` with `len = 1` into the two bytes of `tmp`, which
stays two bytes long, and none of the bytes it delivers reaches the response
buffer. -/
theorem drain_keeps_response (cmd : Option CStr) (clen a1 a2 a3 : Nat) (p0 : Bool)
    (probes rest : List Bool) (final : Bool) (wr : List Int) (rd : List (Int × CStr))
    (log : List bus_event) (rsp : CStr) (rlen : Nat) (tmp : CStr) (htmp : tmp.length = 2) :
    (eswifi_spi_request (drain_bus cmd a1 a2 a3 p0 probes rest final wr rd log)
        cmd clen rsp rlen tmp).status = some 0 ∧
      (eswifi_spi_request (drain_bus cmd a1 a2 a3 p0 probes rest final wr rd log)
        cmd clen rsp rlen tmp).rsp_read
        = (if p0 then after_read rsp (rd.headD (0, [])).2 rlen else rsp) ∧
      (eswifi_spi_request (drain_bus cmd a1 a2 a3 p0 probes rest final wr rd log)
        cmd clen rsp rlen tmp).rsp
        = (eswifi_spi_request (drain_bus cmd a1 a2 a3 p0 probes rest final wr rd log)
            cmd clen rsp rlen tmp).rsp_read ∧
      (eswifi_spi_request (drain_bus cmd a1 a2 a3 p0 probes rest final wr rd log)
        cmd clen rsp rlen tmp).tmp.length = 2 ∧
      reads_of (eswifi_spi_request (drain_bus cmd a1 a2 a3 p0 probes rest final wr rd log)
        cmd clen rsp rlen tmp).world.log
        = reads_of log ++ (if p0 then [rlen / 2] else [])
            ++ List.replicate (probes.count true) 1 ∧
      (eswifi_spi_request (drain_bus cmd a1 a2 a3 p0 probes rest final wr rd log)
        cmd clen rsp rlen tmp).world.dr = rest := by
  cases cmd with
  | none =>
    obtain ⟨tmp1, rd1, log1, h2, hreads, hrun⟩ :=
      request_data_run none a3 p0 probes rest final wr rd log rsp rlen tmp htmp
    have hreq : eswifi_spi_request (drain_bus none a1 a2 a3 p0 probes rest final wr rd log)
        none clen rsp rlen tmp = _ := hrun
    rw [hreq]
    exact ⟨rfl, rfl, rfl, h2, hreads, rfl⟩
  | some c =>
    obtain ⟨tmp1, rd1, log1, h2, hreads, hrun⟩ :=
      request_data_run
        (some (if clen % 2 ≠ 0 then c.set clen (Char.ofNat 0x0a) else c)) a3 p0 probes rest
        final wr.tail rd
        (log ++ [bus_event.cs true]
          ++ [bus_event.spi_write
              ((if clen % 2 ≠ 0 then c.set clen (Char.ofNat 0x0a) else c).take
                (if clen % 2 ≠ 0 then clen + 1 else clen))]
          ++ [bus_event.cs false]) rsp rlen tmp htmp
    have hdr : (drain_bus (some c) a1 a2 a3 p0 probes rest final wr rd log)
        = { dr := List.replicate a1 false ++ true :: (List.replicate a2 false ++ true ::
              (List.replicate a3 false ++ true :: p0 ::
                (drain_samples probes ++ false :: rest))),
            dr_final := final, wr := wr, rd := rd, log := log } := by
      simp [drain_bus, command_samples]
    have hreq : eswifi_spi_request (drain_bus (some c) a1 a2 a3 p0 probes rest final wr rd log)
        (some c) clen rsp rlen tmp
        = { status := some 0,
            cmd := some (if clen % 2 ≠ 0 then c.set clen (Char.ofNat 0x0a) else c),
            rsp_read := if p0 then after_read rsp (rd.headD (0, [])).2 rlen else rsp,
            rsp := if p0 then after_read rsp (rd.headD (0, [])).2 rlen else rsp,
            tmp := tmp1,
            world := { dr := rest, dr_final := final, wr := wr.tail, rd := rd1,
                       log := log1 } } := by
      rw [hdr]
      unfold eswifi_spi_request
      simp only []
      rw [wait_replicate]
      simp only [eswifi_spi_cs, eswifi_spi_write]
      rw [wait_replicate]
      simp only []
      exact hrun
    rw [hreq]
    refine ⟨rfl, rfl, rfl, h2, ?_, rfl⟩
    rw [hreads]
    simp [reads_of_append, reads_of]

/-- C16 at a request with three iterations of the drain loop: the bytes that
the drain reads deliver (`"zz"`) arrive in `tmp`, and the response buffer
holds the response alone. -/
theorem drain_keeps_response_witness :
    (eswifi_spi_request
        (drain_bus (some ['F', '0', '\r', NUL]) 1 0 0 true [true, false, true] [] false [0]
          [(0, ok_response), (0, ['z', 'z']), (0, ['z', 'z'])] [])
        (some ['F', '0', '\r', NUL]) 3 (List.replicate 10 NUL) 10 [NUL, NUL]).rsp
      = ok_response ++ [NUL, NUL] ∧
    (eswifi_spi_request
        (drain_bus (some ['F', '0', '\r', NUL]) 1 0 0 true [true, false, true] [] false [0]
          [(0, ok_response), (0, ['z', 'z']), (0, ['z', 'z'])] [])
        (some ['F', '0', '\r', NUL]) 3 (List.replicate 10 NUL) 10 [NUL, NUL]).tmp
      = ['z', 'z'] := by
  have h := drain_keeps_response (some ['F', '0', '\r', NUL]) 3 1 0 0 true
    [true, false, true] [] false [0] [(0, ok_response), (0, ['z', 'z']), (0, ['z', 'z'])] []
    (List.replicate 10 NUL) 10 [NUL, NUL] rfl
  exact ⟨h.2.2.1.trans h.2.1, by decide⟩

/-! ## Lemmas on the logs of the workflows -/

theorem requests_of_append (l1 l2 : List drv_event) :
    requests_of (l1 ++ l2) = requests_of l1 ++ requests_of l2 := by
  induction l1 with
  | nil => rfl
  | cons e l1 ih => cases e <;> simp [requests_of, ih]

theorem results_of_append (l1 l2 : List drv_event) :
    results_of (l1 ++ l2) = results_of l1 ++ results_of l2 := by
  induction l1 with
  | nil => rfl
  | cons e l1 ih => cases e <;> simp [results_of, ih]

theorem locks_of_append (l1 l2 : List drv_event) :
    locks_of (l1 ++ l2) = locks_of l1 + locks_of l2 := by
  induction l1 with
  | nil => simp [locks_of]
  | cons e l1 ih =>
    cases e <;> simp [locks_of, ih]
    omega

theorem unlocks_of_append (l1 l2 : List drv_event) :
    unlocks_of (l1 ++ l2) = unlocks_of l1 + unlocks_of l2 := by
  induction l1 with
  | nil => simp [unlocks_of]
  | cons e l1 ih =>
    cases e <;> simp [unlocks_of, ih]
    omega

theorem callback_events_silent (rs : List wifi_scan_result) :
    requests_of (callback_events rs) = [] ∧ results_of (callback_events rs) = [] ∧
      locks_of (callback_events rs) = 0 ∧ unlocks_of (callback_events rs) = 0 := by
  induction rs with
  | nil => exact ⟨rfl, rfl, rfl, rfl⟩
  | cons r rs ih => simpa [callback_events, requests_of, results_of, locks_of, unlocks_of] using ih

theorem requests_of_map (cs : List CStr) : requests_of (cs.map drv_event.request) = cs := by
  induction cs with
  | nil => rfl
  | cons c cs ih => simp [requests_of, ih]

theorem requests_map_silent (cs : List CStr) :
    results_of (cs.map drv_event.request) = [] ∧ locks_of (cs.map drv_event.request) = 0 ∧
      unlocks_of (cs.map drv_event.request) = 0 := by
  induction cs with
  | nil => exact ⟨rfl, rfl, rfl⟩
  | cons c cs ih => simpa [results_of, locks_of, unlocks_of] using ih

/-- The loop of `eswifi_scan` adds nothing to the log but calls of the scan
callback, each followed by `k_yield`. -/
theorem scan_loop_shape (cap : Nat) (fuel : Nat) :
    ∀ (buf : CStr) (log log1 : List drv_event), scan_loop cap fuel buf log = some log1 →
      ∃ rs, log1 = log ++ callback_events rs := by
  induction fuel with
  | zero => intro buf log log1 h; simp [scan_loop] at h
  | succ fuel ih =>
    intro buf log log1 h
    cases buf with
    | nil =>
      simp only [scan_loop, Option.some.injEq] at h
      exact ⟨[], by simp [callback_events, h]⟩
    | cons c s =>
      unfold scan_loop at h
      split at h
      · simp only [] at h
        split at h
        · exact absurd h (by simp)
        · obtain ⟨rs, hrs⟩ := ih _ _ _ h
          refine ⟨__parse_scan_res (c :: s) (zeroed_scan_result cap) :: rs, ?_⟩
          rw [hrs]
          simp [callback_events]
      · exact ih _ _ _ h

/-- The log of `eswifi_scan`: the lock, the exchange of the scan command, calls
of the callback, the unlock. -/
theorem scan_shape (cap : Nat) (dev : eswifi_dev) (r : Int × eswifi_dev)
    (h : eswifi_scan cap dev = some r) :
    ∃ rs, r.2.log = dev.log ++ drv_event.lock :: drv_event.request cmd_scan
      :: (callback_events rs ++ [drv_event.unlock]) ∧ r.2.req = dev.req := by
  unfold eswifi_scan at h
  simp only [] at h
  split at h
  · exact absurd h (by simp)
  · rename_i log1 hloop
    obtain ⟨rs, hrs⟩ := scan_loop_shape cap _ _ _ _ hloop
    simp only [Option.some.injEq] at h
    refine ⟨rs, ?_, ?_⟩
    · rw [← h]
      simp [eswifi_unlock, hrs, eswifi_request, eswifi_lock]
    · rw [← h]
      rfl

/-- The log of `eswifi_connect`: the lock, the exchanges of the first `k`
commands of the workflow, the registration of the address when all four
succeeded, the unlock. -/
theorem connect_shape (dev : eswifi_dev) :
    ∃ k evs, 1 ≤ k ∧ (evs = [] ∨ ∃ ip, evs = [drv_event.ipv4_addr_add ip]) ∧
      (eswifi_connect dev).2.log
        = dev.log ++ drv_event.lock
            :: (((connect_commands dev.sta).take k).map drv_event.request
                ++ (evs ++ [drv_event.unlock])) ∧
      (eswifi_connect dev).2.req = dev.req := by
  unfold eswifi_connect
  simp only []
  split
  · exact ⟨1, [], by decide, Or.inl rfl, by
      simp [eswifi_unlock, eswifi_request, eswifi_lock, connect_commands, setup_commands], rfl⟩
  · split
    · exact ⟨2, [], by decide, Or.inl rfl, by
        simp [eswifi_unlock, eswifi_request, eswifi_lock, connect_commands, setup_commands],
        rfl⟩
    · split
      · exact ⟨3, [], by decide, Or.inl rfl, by
          simp [eswifi_unlock, eswifi_request, eswifi_lock, connect_commands, setup_commands],
          rfl⟩
      · split
        · exact ⟨4, [], by decide, Or.inl rfl, by
            simp [eswifi_unlock, eswifi_request, eswifi_lock, connect_commands,
              setup_commands], rfl⟩
        · split
          · exact ⟨4, [], by decide, Or.inl rfl, by
              simp [eswifi_unlock, eswifi_request, eswifi_lock, connect_commands,
                setup_commands], rfl⟩
          · exact ⟨4, [drv_event.ipv4_addr_add (__parse_ipv4_address
                (eswifi_request (eswifi_request (eswifi_request (eswifi_request
                  (eswifi_lock dev) (cmd_set_ssid dev.sta)).2 (cmd_set_pass dev.sta)).2
                  (cmd_set_security dev.sta)).2 cmd_join).2.buf dev.sta.ssid).2],
              by decide, Or.inr ⟨_, rfl⟩, by
                simp [eswifi_unlock, eswifi_request, eswifi_lock, connect_commands,
                  setup_commands], rfl⟩

/-- The log of `eswifi_disconnect`: the lock, the exchange of the disconnect
command, the unlock. -/
theorem disconnect_shape (dev : eswifi_dev) :
    (eswifi_disconnect dev).2.log
        = dev.log ++ [drv_event.lock, drv_event.request cmd_disconnect, drv_event.unlock] ∧
      (eswifi_disconnect dev).2.req = dev.req := by
  unfold eswifi_disconnect
  simp only []
  split <;> exact ⟨by simp [eswifi_unlock, eswifi_request, eswifi_lock], rfl⟩

/-! ## C12: the dispatch of the worker -/

/-- C12: one run of the worker `eswifi_request_work` does exactly one of four
things, chosen by the pending-request field.  CONNECT: the connect workflow,
which issues the first commands of the connect sequence and raises no result
event, followed by one connect-result event carrying the status of the
workflow.  DISCONNECT: the disconnect workflow, which issues the disconnect
command alone, followed by one disconnect-result event carrying its status.
SCAN: the scan workflow, which issues the scan command alone, and no result
event.  NONE: nothing at all. -/
theorem request_work_dispatch (cap : Nat) (dev : eswifi_dev) :
    (dev.req = ESWIFI_REQ_CONNECT →
      eswifi_request_work cap dev
          = some { (eswifi_connect dev).2 with
              log := (eswifi_connect dev).2.log
                ++ [drv_event.connect_result (eswifi_connect dev).1] } ∧
        results_of (eswifi_connect dev).2.log = results_of dev.log ∧
        ∃ k, 1 ≤ k ∧ requests_of (eswifi_connect dev).2.log
          = requests_of dev.log ++ (connect_commands dev.sta).take k) ∧
    (dev.req = ESWIFI_REQ_DISCONNECT →
      eswifi_request_work cap dev
          = some { (eswifi_disconnect dev).2 with
              log := (eswifi_disconnect dev).2.log
                ++ [drv_event.disconnect_result (eswifi_disconnect dev).1] } ∧
        results_of (eswifi_disconnect dev).2.log = results_of dev.log ∧
        requests_of (eswifi_disconnect dev).2.log = requests_of dev.log ++ [cmd_disconnect]) ∧
    (dev.req = ESWIFI_REQ_SCAN →
      eswifi_request_work cap dev = (eswifi_scan cap dev).map Prod.snd ∧
        ∀ r, eswifi_scan cap dev = some r →
          results_of r.2.log = results_of dev.log ∧
            requests_of r.2.log = requests_of dev.log ++ [cmd_scan]) ∧
    (dev.req = ESWIFI_REQ_NONE → eswifi_request_work cap dev = some dev) := by
  refine ⟨?_, ?_, ?_, ?_⟩
  · intro hreq
    obtain ⟨k, evs, hk, hevs, hlog, _⟩ := connect_shape dev
    refine ⟨?_, ?_, k, hk, ?_⟩
    · unfold eswifi_request_work
      rw [hreq]
    · rw [hlog]
      rcases hevs with h | ⟨ip, h⟩ <;> subst h <;>
        simp [-List.map_take, results_of_append, results_of, (requests_map_silent _).1]
    · rw [hlog]
      rcases hevs with h | ⟨ip, h⟩ <;> subst h <;>
        simp [-List.map_take, requests_of_append, requests_of, requests_of_map]
  · intro hreq
    have hlog := (disconnect_shape dev).1
    refine ⟨?_, ?_, ?_⟩
    · unfold eswifi_request_work
      rw [hreq]
    · rw [hlog]
      simp [results_of_append, results_of]
    · rw [hlog]
      simp [requests_of_append, requests_of]
  · intro hreq
    refine ⟨?_, ?_⟩
    · unfold eswifi_request_work
      rw [hreq]
      simp only []
      cases eswifi_scan cap dev <;> rfl
    · intro r hr
      obtain ⟨rs, hlog, _⟩ := scan_shape cap dev r hr
      have hs := callback_events_silent rs
      rw [hlog]
      constructor
      · simp [results_of_append, results_of, hs.2.1]
      · simp [requests_of_append, requests_of, hs.1]
  · intro hreq
    unfold eswifi_request_work
    rw [hreq]

/-- C12 at four devices, one for each value of the pending-request field. -/
theorem request_work_dispatch_witness :
    (eswifi_request_work 4 (station ESWIFI_REQ_CONNECT [(0, error_response)])).map
        (fun d => d.log)
      = some [drv_event.lock, drv_event.request ['C', '1', '=', 'M', 'y', 'N', 'e', 't', '\r'],
          drv_event.unlock, drv_event.connect_result (- EIO)] ∧
    (eswifi_request_work 4 (station ESWIFI_REQ_DISCONNECT [(0, ok_response)])).map
        (fun d => d.log)
      = some [drv_event.lock, drv_event.request ['C', 'D', '\r'], drv_event.unlock,
          drv_event.disconnect_result 0] ∧
    (eswifi_request_work 4 (station ESWIFI_REQ_SCAN [(0, ok_response)])).map (fun d => d.log)
      = some [drv_event.lock, drv_event.request ['F', '0', '\r'], drv_event.unlock] ∧
    eswifi_request_work 4 (station ESWIFI_REQ_NONE [(0, ok_response)])
      = some (station ESWIFI_REQ_NONE [(0, ok_response)]) := by
  have h1 := ((request_work_dispatch 4 (station ESWIFI_REQ_CONNECT [(0, error_response)])).1
    rfl).1
  have h2 := ((request_work_dispatch 4
    (station ESWIFI_REQ_DISCONNECT [(0, ok_response)])).2.1 rfl).1
  have h3 := ((request_work_dispatch 4 (station ESWIFI_REQ_SCAN [(0, ok_response)])).2.2.1
    rfl).1
  have h4 := (request_work_dispatch 4 (station ESWIFI_REQ_NONE [(0, ok_response)])).2.2.2 rfl
  refine ⟨?_, ?_, ?_, h4⟩
  · rw [h1]; decide
  · rw [h2]; decide
  · rw [h3]; decide

/-! ## C13: the pending-request field -/

/-- C13 refuted at a concrete device: after the worker has executed the
disconnect workflow for a pending DISCONNECT request the pending-request field
is still DISCONNECT, not NONE, and a second run of the worker without a new
submission is no no-op: it executes the disconnect workflow again. -/
theorem worker_leaves_request_pending :
    (eswifi_request_work 4 (station ESWIFI_REQ_DISCONNECT [(0, ok_response)])).map
        (fun d => d.req) = some ESWIFI_REQ_DISCONNECT ∧
    (eswifi_request_work 4 (station ESWIFI_REQ_DISCONNECT [(0, ok_response)])).map
        (fun d => d.req) ≠ some ESWIFI_REQ_NONE ∧
    ((eswifi_request_work 4 (station ESWIFI_REQ_DISCONNECT [(0, ok_response)])).bind
        (eswifi_request_work 4)).map (fun d => d.log)
      = some [drv_event.lock, drv_event.request ['C', 'D', '\r'], drv_event.unlock,
          drv_event.disconnect_result 0,
          drv_event.lock, drv_event.request ['C', 'D', '\r'], drv_event.unlock,
          drv_event.disconnect_result (- EIO)] := by
  decide

/-- C13 as amended: the management entry points set the pending-request field
(to SCAN, to DISCONNECT, and to CONNECT when the security type is supported),
and the worker never writes it: after a run of the worker, whatever workflow it
executed, the field holds the value it held before, so that a further run of
the worker executes the workflow of the same request again. -/
theorem worker_keeps_request_field (cap sec_open sec_wpa2_mixed : Nat) (dev d : eswifi_dev)
    (params : wifi_connect_req_params) (h : eswifi_request_work cap dev = some d) :
    d.req = dev.req ∧
      (eswifi_mgmt_scan dev).2.req = ESWIFI_REQ_SCAN ∧
      (eswifi_mgmt_disconnect dev).2.req = ESWIFI_REQ_DISCONNECT ∧
      ((eswifi_mgmt_connect sec_open sec_wpa2_mixed dev params).1 = 0 →
        (eswifi_mgmt_connect sec_open sec_wpa2_mixed dev params).2.req
          = ESWIFI_REQ_CONNECT) := by
  refine ⟨?_, rfl, rfl, ?_⟩
  · unfold eswifi_request_work at h
    split at h
    · simp only [Option.some.injEq] at h
      rw [← h]
      exact (connect_shape dev).choose_spec.choose_spec.2.2.2
    · simp only [Option.some.injEq] at h
      rw [← h]
      exact (disconnect_shape dev).2
    · split at h
      · exact absurd h (by simp)
      · rename_i r hr
        simp only [Option.some.injEq] at h
        rw [← h]
        exact (scan_shape cap dev r hr).choose_spec.2
    · simp only [Option.some.injEq] at h
      rw [← h]
  · intro hst
    unfold eswifi_mgmt_connect at hst ⊢
    simp only [] at hst ⊢
    split
    · rfl
    · rfl
    · rename_i hsec
      simp only [hsec] at hst
      exact absurd hst (by decide)

/-- C13 as amended, at a device with a pending DISCONNECT request: the field is
DISCONNECT after the run of the worker, and the entry points set it. -/
theorem worker_keeps_request_field_witness :
    ({ station ESWIFI_REQ_DISCONNECT [] with
        buf := ok_response
        log := [drv_event.lock, drv_event.request ['C', 'D', '\r'], drv_event.unlock,
          drv_event.disconnect_result 0] } : eswifi_dev).req = ESWIFI_REQ_DISCONNECT ∧
      (eswifi_mgmt_scan (station ESWIFI_REQ_DISCONNECT [(0, ok_response)])).2.req
        = ESWIFI_REQ_SCAN :=
  have h := worker_keeps_request_field 4 0 4
    (station ESWIFI_REQ_DISCONNECT [(0, ok_response)])
    { station ESWIFI_REQ_DISCONNECT [] with
        buf := ok_response
        log := [drv_event.lock, drv_event.request ['C', 'D', '\r'], drv_event.unlock,
          drv_event.disconnect_result 0] }
    { ssid := ['M', 'y', 'N', 'e', 't'], ssid_length := 5, psk := ['p', 'w'], psk_length := 2,
      security := some WIFI_SECURITY_TYPE_PSK }
    (by decide)
  ⟨h.1, h.2.1⟩

/-! ## C14: the exchanges and the device lock -/

theorem exchanges_locked_requests (depth : Nat) (cs : List CStr) (l : List drv_event) :
    exchanges_locked (depth + 1) (cs.map drv_event.request ++ l)
      = exchanges_locked (depth + 1) l := by
  induction cs with
  | nil => rfl
  | cons c cs ih => simpa [exchanges_locked] using ih

theorem exchanges_locked_callbacks (depth : Nat) (rs : List wifi_scan_result)
    (l : List drv_event) :
    exchanges_locked depth (callback_events rs ++ l) = exchanges_locked depth l := by
  induction rs with
  | nil => rfl
  | cons r rs ih => simpa [callback_events, exchanges_locked] using ih

/-- The workflows and the poller make every exchange between their lock and
their unlock. -/
theorem workflow_exchanges_locked (cap : Nat) (dev : eswifi_dev) :
    (∃ new, (eswifi_connect dev).2.log = dev.log ++ new ∧ exchanges_locked 0 new = true) ∧
      (∃ new, (eswifi_disconnect dev).2.log = dev.log ++ new ∧
        exchanges_locked 0 new = true) ∧
      (∀ r, eswifi_scan cap dev = some r →
        ∃ new, r.2.log = dev.log ++ new ∧ exchanges_locked 0 new = true) ∧
      (∃ new, (eswifi_spi_read_msg dev).log = dev.log ++ new ∧
        exchanges_locked 0 new = true) := by
  refine ⟨?_, ?_, ?_, ?_⟩
  · obtain ⟨k, evs, _, hevs, hlog, _⟩ := connect_shape dev
    refine ⟨_, hlog, ?_⟩
    rw [exchanges_locked, exchanges_locked_requests]
    rcases hevs with h | ⟨ip, h⟩ <;> subst h <;> rfl
  · exact ⟨_, (disconnect_shape dev).1, rfl⟩
  · intro r hr
    obtain ⟨rs, hlog, _⟩ := scan_shape cap dev r hr
    refine ⟨_, hlog, ?_⟩
    simp only [exchanges_locked, exchanges_locked_callbacks]
    rfl
  · unfold eswifi_spi_read_msg
    simp only []
    split
    · exact ⟨[drv_event.lock, drv_event.request cmd_read_msg, drv_event.unlock,
        drv_event.unlock], by simp [eswifi_unlock, eswifi_request, eswifi_lock], rfl⟩
    · exact ⟨[drv_event.lock, drv_event.request cmd_read_msg, drv_event.unlock],
        by simp [eswifi_unlock, eswifi_request, eswifi_lock], rfl⟩

/-- C14, the code at a failing input: `eswifi_iface_init` on a module that
answers the reset with the cursor and the command `Z5` with an address.  The
exchange of `eswifi_reset` and the exchange of `eswifi_get_mac_addr` are both
made, and the scratch buffer is parsed, without any `eswifi_lock`: the log holds
no lock at all, and the test that every exchange is made under the lock
fails. -/
theorem iface_init_exchanges_unlocked :
    (eswifi_iface_init (station ESWIFI_REQ_NONE
        [(0, ['>', ' ']), (0, "\r\nC4:7F:51:0a:1B:ff\r\nOK\r\n> ".toList)])).log
      = [drv_event.request [], drv_event.request ['Z', '5', '\r'],
          drv_event.set_link_addr [(0, 196), (1, 127), (2, 81), (3, 10), (4, 27), (5, 255)]] ∧
    exchanges_locked 0 (eswifi_iface_init (station ESWIFI_REQ_NONE
        [(0, ['>', ' ']), (0, "\r\nC4:7F:51:0a:1B:ff\r\nOK\r\n> ".toList)])).log = false := by
  decide

/-! ## C17: locks and unlocks -/

/-- The connect, disconnect and scan workflows take the lock once and release it
once on every path. -/
theorem workflow_lock_balance (cap : Nat) (dev : eswifi_dev) :
    (locks_of (eswifi_connect dev).2.log = locks_of dev.log + 1 ∧
        unlocks_of (eswifi_connect dev).2.log = unlocks_of dev.log + 1) ∧
      (locks_of (eswifi_disconnect dev).2.log = locks_of dev.log + 1 ∧
        unlocks_of (eswifi_disconnect dev).2.log = unlocks_of dev.log + 1) ∧
      (∀ r, eswifi_scan cap dev = some r →
        locks_of r.2.log = locks_of dev.log + 1 ∧
          unlocks_of r.2.log = unlocks_of dev.log + 1) := by
  refine ⟨?_, ?_, ?_⟩
  · obtain ⟨k, evs, _, hevs, hlog, _⟩ := connect_shape dev
    have hs := requests_map_silent ((connect_commands dev.sta).take k)
    rw [hlog]
    rcases hevs with h | ⟨ip, h⟩ <;> subst h <;>
      simp [-List.map_take, locks_of_append, unlocks_of_append, locks_of, unlocks_of, hs.2.1,
        hs.2.2]
  · rw [(disconnect_shape dev).1]
    simp [locks_of_append, unlocks_of_append, locks_of, unlocks_of]
  · intro r hr
    obtain ⟨rs, hlog, _⟩ := scan_shape cap dev r hr
    have hs := callback_events_silent rs
    rw [hlog]
    simp [locks_of_append, unlocks_of_append, locks_of, unlocks_of, hs.2.2.1, hs.2.2.2]

/-- The read-message step of the poller takes the lock once; it releases it once
when the exchange succeeded and twice when it failed. -/
theorem read_msg_lock_count (dev : eswifi_dev) :
    locks_of (eswifi_spi_read_msg dev).log = locks_of dev.log + 1 ∧
      unlocks_of (eswifi_spi_read_msg dev).log
        = unlocks_of dev.log
          + (if exchange_failed (eswifi_request (eswifi_lock dev) cmd_read_msg) then 2
             else 1) := by
  unfold eswifi_spi_read_msg
  simp only []
  split <;>
    simp [eswifi_unlock, eswifi_request, eswifi_lock, locks_of_append, unlocks_of_append,
      locks_of, unlocks_of]

/-- C17, the code at a failing input: the read-message step of the poller on a
response that fails the OK check.  The branch of the failure unlocks and does
not return, and the unlock at the end of `eswifi_spi_read_msg` follows: one
lock, two unlocks. -/
theorem read_msg_unlocks_twice :
    (eswifi_spi_read_msg (station ESWIFI_REQ_NONE [(0, error_response)])).log
      = [drv_event.lock, drv_event.request ['M', 'R', '\r'], drv_event.unlock,
          drv_event.unlock] ∧
    locks_of (eswifi_spi_read_msg (station ESWIFI_REQ_NONE [(0, error_response)])).log = 1 ∧
    unlocks_of (eswifi_spi_read_msg (station ESWIFI_REQ_NONE [(0, error_response)])).log
      = 2 := by
  decide


/-! ## Lemmas on the EEM header -/

theorem and_bit15 (h : Nat) : h &&& 0x8000 ≠ 0 ↔ h.testBit 15 = true := by
  have h2 := Nat.and_two_pow h 15
  norm_num at h2
  rw [h2]
  cases h.testBit 15 <;> simp

theorem and_7ff (h : Nat) : h &&& 0x07ff = h % 2 ^ 11 := by
  have h2 := Nat.and_pow_two_sub_one_eq_mod h 11
  norm_num at h2
  simpa using h2

theorem and_3fff (h : Nat) : h &&& 0x3fff = h % 2 ^ 14 := by
  have h2 := Nat.and_pow_two_sub_one_eq_mod h 14
  norm_num at h2
  simpa using h2

theorem eem_pkt_size_bit (h : Nat) :
    eem_pkt_size h = if h.testBit 15 = true then h &&& 0x07ff else h &&& 0x3fff := by
  unfold eem_pkt_size
  by_cases hb : h.testBit 15 = true
  · rw [if_pos ((and_bit15 h).2 hb), if_pos hb]
  · rw [if_neg (fun hc => hb ((and_bit15 h).1 hc)), if_neg hb]

theorem eem_pkt_size_mod (h : Nat) :
    eem_pkt_size h = if h.testBit 15 = true then h % 2 ^ 11 else h % 2 ^ 14 := by
  rw [eem_pkt_size_bit, and_7ff, and_3fff]

theorem eem_pkt_size_lt (h : Nat) : eem_pkt_size h < 2 ^ 14 := by
  rw [eem_pkt_size_mod]
  split
  · have h2 := Nat.mod_lt h (by norm_num : 2 ^ 11 > 0)
    omega
  · exact Nat.mod_lt h (by norm_num)

theorem sys_le16_round_trip (v : Nat) (hv : v < 2 ^ 16) :
    sys_le16_to_cpu (sys_cpu_to_le16 v) = v := by
  unfold sys_le16_to_cpu sys_cpu_to_le16
  simp only []
  omega

theorem eem_send_hdr (ll : List Nat) (frags : List (List Nat)) :
    sys_le16_to_cpu (eem_send ll frags).hdr
      = (ll.length + frags.flatten.length + 4) % 2 ^ 14 := by
  have h1 : (eem_send ll frags).hdr
      = sys_cpu_to_le16 (0x3FFF &&& (ll.length + frags.flatten.length + 4)) := rfl
  rw [h1, Nat.and_comm, and_3fff, sys_le16_round_trip]
  have h2 := Nat.mod_lt (ll.length + frags.flatten.length + 4) (by norm_num : 2 ^ 14 > 0)
  omega

/-! ## C22: the EEM header written by eem_send and read by eem_pkt_size -/

/-- C22: for a frame whose total length `len` (link-layer header, payload and
the four bytes of the sentinel) is below 2^14, the header that `eem_send`
stores at the start of the transfer has bit 15 clear and `eem_pkt_size` of it is
`len`; and for every header `h`, `eem_pkt_size h` is `h & 0x07ff` when bit 15
is set and `h & 0x3fff` otherwise. -/
theorem eem_header_round_trip (ll : List Nat) (frags : List (List Nat))
    (hlen : ll.length + frags.flatten.length + 4 < 2 ^ 14) :
    (eem_send ll frags).len = ll.length + frags.flatten.length + 4 ∧
    (sys_le16_to_cpu (eem_send ll frags).hdr).testBit 15 = false ∧
    eem_pkt_size (sys_le16_to_cpu (eem_send ll frags).hdr) = (eem_send ll frags).len ∧
    (∀ tx, (eem_send ll frags).transfer = some tx →
      tx.take 2 = [(eem_send ll frags).hdr.1, (eem_send ll frags).hdr.2] ∧
      tx.length = (eem_send ll frags).len + 2) ∧
    ∀ h : Nat, eem_pkt_size h = if h.testBit 15 = true then h &&& 0x07ff else h &&& 0x3fff := by
  have hl : (eem_send ll frags).len = ll.length + frags.flatten.length + 4 := rfl
  have hh := eem_send_hdr ll frags
  rw [Nat.mod_eq_of_lt hlen] at hh
  have hb : (sys_le16_to_cpu (eem_send ll frags).hdr).testBit 15 = false := by
    rw [hh]
    apply Nat.testBit_lt_two_pow
    omega
  refine ⟨hl, hb, ?_, ?_, eem_pkt_size_bit⟩
  · rw [eem_pkt_size_mod, hb, hh, hl]
    simp only [Bool.false_eq_true, if_false]
    exact Nat.mod_eq_of_lt hlen
  · intro tx htx
    unfold eem_send at htx
    simp only [] at htx
    split at htx
    · injection htx with htx
      subst htx
      refine ⟨rfl, ?_⟩
      rw [hl]
      simp [sentinel]
      omega
    · exact absurd htx (by simp)

/-- C22 at a frame with a link-layer header of 14 bytes and two fragments of 3
and 2 bytes: the total length is 23, the header bytes are 23 and 0, and
`eem_pkt_size` of the header is 23. -/
theorem eem_header_round_trip_witness :
    (eem_send (List.replicate 14 0) [[1, 2, 3], [4, 5]]).hdr = (23, 0) ∧
    eem_pkt_size (sys_le16_to_cpu (eem_send (List.replicate 14 0) [[1, 2, 3], [4, 5]]).hdr)
      = 23 := by
  have h := eem_header_round_trip (List.replicate 14 0) [[1, 2, 3], [4, 5]] (by decide)
  exact ⟨by decide, h.2.2.1.trans h.1⟩


/-! ## Lemmas on one round of the EEM receive loop -/

/-- A receive state that holds a packet while it expects no more bytes. -/
theorem eem_bulk_out_round_stuck (mps : Nat) (s : eem_rx) (e : eem_env)
    (hexp : s.rx_exp = 0) (hpkt : s.rx_pkt ≠ none) :
    eem_bulk_out_round mps s e = (false, s, e) := by
  unfold eem_bulk_out_round
  simp [hexp, hpkt]

theorem eem_bulk_out_round_fifo (mps : Nat) (s : eem_rx) (e : eem_env)
    (hgo : (eem_bulk_out_round mps s e).1 = true) :
    (eem_bulk_out_round mps s e).2.2.fifo.length < e.fifo.length := by
  unfold eem_bulk_out_round at hgo ⊢
  simp only [] at hgo ⊢
  split at hgo
  · simp at hgo
  · next s1 e1 hr =>
    have hle : e1.fifo.length ≤ e.fifo.length := by
      split at hr
      · split at hr
        · cases hr
        · cases hr
          simp
      · cases hr
        exact Nat.le_refl _
    by_cases hg : (e1.fifo.take (min mps s1.rx_exp)).length = 0
    · simp [hg] at hgo
    · have hg2 : 0 < min (min mps s1.rx_exp) e1.fifo.length := by
        rw [List.length_take] at hg
        omega
      simp only [hg, if_false] at hgo ⊢
      split
      · simp only [List.length_drop]
        omega
      · next pkt hp =>
        split
        · next hap =>
          simp only [List.headD_eq_head?_getD] at hap
          simp [hp, hap] at hgo
        · split <;> (simp only [List.length_drop]; omega)


theorem eem_bulk_out_round_idle (mps : Nat) (s : eem_rx) (e : eem_env)
    (hs : eem_rx_idle_ok s) :
    eem_rx_idle_ok (eem_bulk_out_round mps s e).2.1 ∨
    ((eem_bulk_out_round mps s e).1 = false ∧
      eem_rx_holds_empty (eem_bulk_out_round mps s e).2.1) := by
  unfold eem_bulk_out_round
  simp only []
  split
  · exact Or.inl hs
  · next s1 e1 hr =>
    have h1 : eem_rx_idle_ok s1 ∨ eem_rx_holds_empty s1 := by
      split at hr
      · split at hr
        · cases hr
        · cases hr
          by_cases ha : e.allocs.headD true = true
          · by_cases hz : eem_pkt_size (sys_le16_to_cpu
                ((List.take 2 e.fifo).headD (sys_cpu_to_le16 s.rx_hdr).1,
                  (List.take 2 e.fifo).tail.headD (sys_cpu_to_le16 s.rx_hdr).2)) = 0
            · right
              exact ⟨hz, by simp only [ha, if_true], hz⟩
            · left
              intro hc
              exact absurd hc hz
          · left
            intro _
            simp only [ha, if_false]
            rfl
      · cases hr
        exact Or.inl hs
    by_cases hg : (e1.fifo.take (min mps s1.rx_exp)).length = 0
    · simp only [hg, if_true]
      rcases h1 with h1 | h1
      · exact Or.inl h1
      · exact Or.inr ⟨trivial, h1⟩
    · simp only [hg, if_false]
      left
      split
      · next hp =>
        intro _
        exact hp
      · split
        · intro _
          rfl
        · split
          · intro _
            rfl
          · next hne =>
            intro hc
            exact absurd hc hne

theorem eem_bulk_out_round_go_idle (mps : Nat) (s : eem_rx) (e : eem_env)
    (hs : eem_rx_idle_ok s) (hgo : (eem_bulk_out_round mps s e).1 = true) :
    eem_rx_idle_ok (eem_bulk_out_round mps s e).2.1 := by
  rcases eem_bulk_out_round_idle mps s e hs with h | h
  · exact h
  · rw [h.1] at hgo
    cases hgo


/-! ## Lemmas on the EEM receive loop -/

theorem eem_bulk_out_loop_fuel_eq (mps : Nat) (f1 : Nat) :
    ∀ (f2 : Nat) (s : eem_rx) (e : eem_env), e.fifo.length < f1 → e.fifo.length < f2 →
      eem_bulk_out_loop mps f1 s e = eem_bulk_out_loop mps f2 s e := by
  induction f1 with
  | zero => intro f2 s e h1 _; omega
  | succ k ih =>
    intro f2 s e h1 h2
    cases f2 with
    | zero => omega
    | succ j =>
      unfold eem_bulk_out_loop
      have hf := eem_bulk_out_round_fifo mps s e
      rcases hround : eem_bulk_out_round mps s e with ⟨go, s1, e1⟩
      rw [hround] at hf
      cases go with
      | false => rfl
      | true =>
        have hlt := hf rfl
        simp only [] at hlt ⊢
        exact ih j s1 e1 (by omega) (by omega)

/-- The fuel of `eem_bulk_out` is enough: more fuel gives the same result. -/
theorem eem_bulk_out_loop_fuel (mps fuel : Nat) (s : eem_rx) (e : eem_env)
    (hfuel : e.fifo.length < fuel) :
    eem_bulk_out_loop mps fuel s e = eem_bulk_out mps s e :=
  eem_bulk_out_loop_fuel_eq mps fuel (e.fifo.length + 1) s e hfuel (Nat.lt_succ_self _)

theorem eem_bulk_out_loop_idle (mps : Nat) (fuel : Nat) :
    ∀ (s : eem_rx) (e : eem_env), eem_rx_idle_ok s →
      eem_rx_idle_ok (eem_bulk_out_loop mps fuel s e).1 ∨
      eem_rx_holds_empty (eem_bulk_out_loop mps fuel s e).1 := by
  induction fuel with
  | zero => intro s e hs; exact Or.inl hs
  | succ k ih =>
    intro s e hs
    unfold eem_bulk_out_loop
    have hr := eem_bulk_out_round_idle mps s e hs
    rcases hround : eem_bulk_out_round mps s e with ⟨go, s1, e1⟩
    rw [hround] at hr
    cases go with
    | false =>
      rcases hr with h | h
      · exact Or.inl h
      · exact Or.inr h.2
    | true =>
      rcases hr with h | h
      · exact ih s1 e1 h
      · exact absurd h.1 (by simp)

theorem eem_bulk_out_loop_stuck (mps fuel : Nat) (s : eem_rx) (e : eem_env)
    (hexp : s.rx_exp = 0) (hpkt : s.rx_pkt ≠ none) :
    eem_bulk_out_loop mps fuel s e = (s, e) := by
  cases fuel with
  | zero => rfl
  | succ k =>
    unfold eem_bulk_out_loop
    rw [eem_bulk_out_round_stuck mps s e hexp hpkt]

/-- From a state that keeps the state property, `eem_bulk_out` returns in a
state that keeps it, or in the state that holds an empty packet after a header
of size 0. -/
theorem eem_bulk_out_idle_or_empty (mps : Nat) (s : eem_rx) (e : eem_env)
    (hs : eem_rx_idle_ok s) :
    eem_rx_idle_ok (eem_bulk_out mps s e).1 ∨ eem_rx_holds_empty (eem_bulk_out mps s e).1 :=
  eem_bulk_out_loop_idle mps _ s e hs

/-- In a state that holds a packet while no more bytes are expected,
`eem_bulk_out` reads nothing and changes nothing, whatever waits in the
endpoint. -/
theorem eem_bulk_out_stuck (mps : Nat) (s : eem_rx) (e : eem_env)
    (hexp : s.rx_exp = 0) (hpkt : s.rx_pkt ≠ none) :
    eem_bulk_out mps s e = (s, e) :=
  eem_bulk_out_loop_stuck mps _ s e hexp hpkt

/-- Once a packet is held while no more bytes are expected, no later arrival is
read: the bytes pile up in the endpoint and the state and the log stay. -/
theorem eem_receive_stuck (mps : Nat) (chunks : List (List Nat)) :
    ∀ (s : eem_rx) (e : eem_env), s.rx_exp = 0 → s.rx_pkt ≠ none →
      eem_receive mps chunks s e = (s, { e with fifo := e.fifo ++ chunks.flatten }) := by
  induction chunks with
  | nil => intro s e _ _; simp [eem_receive]
  | cons c rest ih =>
    intro s e hexp hpkt
    unfold eem_receive
    simp only []
    rw [eem_bulk_out_stuck mps s _ hexp hpkt]
    simp only []
    rw [ih s _ hexp hpkt]
    simp

/-- A header of size 0 read in the new-packet state, with a packet allocated:
`eem_bulk_out` returns holding the empty packet with `rx_exp` 0, and the bytes
behind the header stay in the endpoint. -/
theorem eem_bulk_out_zero_header (mps : Nat) (s : eem_rx) (e : eem_env) (b0 b1 : Nat)
    (rest : List Nat) (hexp : s.rx_exp = 0) (hpkt : s.rx_pkt = none)
    (hfifo : e.fifo = b0 :: b1 :: rest) (hsize : eem_pkt_size (b0 + 256 * b1) = 0)
    (halloc : e.allocs.headD true = true) :
    eem_bulk_out mps s e =
      ({ rx_pkt := some [], rx_hdr := b0 + 256 * b1, rx_exp := 0 },
       { e with fifo := rest, allocs := e.allocs.tail }) := by
  unfold eem_bulk_out
  rw [hfifo]
  simp only [List.length_cons]
  unfold eem_bulk_out_loop
  have hround : eem_bulk_out_round mps s e =
      (false, { rx_pkt := some [], rx_hdr := b0 + 256 * b1, rx_exp := 0 },
       { e with fifo := rest, allocs := e.allocs.tail }) := by
    unfold eem_bulk_out_round
    simp [hexp, hpkt, hfifo, halloc, sys_le16_to_cpu, hsize]
    simp only [List.headD_eq_head?_getD] at halloc
    simp [halloc]
  rw [hround]

/-- Over every run of arrivals from the start state, the receive path either
keeps the state property or holds an empty packet after a header of size 0. -/
theorem eem_receive_idle_or_empty (mps : Nat) (chunks : List (List Nat)) :
    ∀ (s : eem_rx) (e : eem_env), eem_rx_idle_ok s ∨ eem_rx_holds_empty s →
      eem_rx_idle_ok (eem_receive mps chunks s e).1 ∨
      eem_rx_holds_empty (eem_receive mps chunks s e).1 := by
  induction chunks with
  | nil => intro s e hs; exact hs
  | cons c rest ih =>
    intro s e hs
    unfold eem_receive
    simp only []
    apply ih
    rcases hs with hs | hs
    · exact eem_bulk_out_idle_or_empty mps s _ hs
    · rw [eem_bulk_out_stuck mps s _ hs.1 (by rw [hs.2.1]; simp)]
      exact Or.inr hs


/-! ## C21: the state of the EEM receive path between calls -/

/-- C21, the code at a failing input: a header whose length field is 0 (the
bytes 0, 0) arrives in the start state and a packet is allocated.  The read of
`min(sizeof(buf), rx_exp)` = 0 bytes gives `rlen == 0` and the loop is left:
`eem_bulk_out` returns with `rx_exp == 0` and `rx_pkt` not `NULL`.  The next
call does not read a header: the frame that arrives next stays in the endpoint
and nothing is handed to `netusb_recv`, while the same frame arriving in the
start state is handed over. -/
theorem eem_zero_length_header_held :
    (eem_bulk_out 64 eem_rx_init (eem_arrival [0, 0])).1
      = { rx_pkt := some [], rx_hdr := 0, rx_exp := 0 } ∧
    ¬ eem_rx_idle_ok (eem_bulk_out 64 eem_rx_init (eem_arrival [0, 0])).1 ∧
    eem_receive 64 [[0, 0], [6, 0, 1, 2, 3, 4, 5, 6]] eem_rx_init (eem_arrival [])
      = ({ rx_pkt := some [], rx_hdr := 0, rx_exp := 0 },
         { fifo := [6, 0, 1, 2, 3, 4, 5, 6], allocs := [], appends := [], log := [] }) ∧
    eem_receive 64 [[6, 0, 1, 2, 3, 4, 5, 6]] eem_rx_init (eem_arrival [])
      = ({ rx_pkt := none, rx_hdr := 6, rx_exp := 0 },
         { fifo := [], allocs := [], appends := [], log := [eem_event.netusb_recv [1, 2]] }) := by
  decide

end Eswifi
